import Mathlib

/-!
# baxter_react_controller: kinematic chain, avoidance handler, control thread

A shallow embedding of `baxterChain.cpp`, `avoidanceHandler.cpp` and
`ctrlThread.cpp`.  Scalars (`double`) are taken from an ordered field `K`
(exact arithmetic); `ℚ` is used for concrete evaluations.  Reads outside a
container and the other undefined behaviours of the C++ code make the embedded
function return `none`; the section on the constructor of `AvoidanceHandler`
records such reads in a log instead.
-/

set_option autoImplicit false

/-! ## The part of KDL the controller uses -/

namespace KDL

/-- The enumeration `KDL::Joint::JointType`. -/
inductive JointType where
  | RotAxis | RotX | RotY | RotZ | TransAxis | TransX | TransY | TransZ | None
  deriving DecidableEq, Repr

/-- A `KDL::Vector`: three coordinates. -/
structure Vector (K : Type) where
  x : K
  y : K
  z : K
  deriving DecidableEq, Repr

/-- A `KDL::Rotation`: a 3x3 matrix stored row by row
(`Xx Yx Zx / Xy Yy Zy / Xz Yz Zz`). -/
structure Rotation (K : Type) where
  Xx : K
  Yx : K
  Zx : K
  Xy : K
  Yy : K
  Zy : K
  Xz : K
  Yz : K
  Zz : K
  deriving DecidableEq, Repr

/-- A `KDL::Frame`: rotation `M` and origin `p`. -/
structure Frame (K : Type) where
  M : Rotation K
  p : Vector K
  deriving DecidableEq, Repr

/-- A `KDL::Twist`: translational velocity `vel` and rotational velocity `rot`. -/
structure Twist (K : Type) where
  vel : Vector K
  rot : Vector K
  deriving DecidableEq, Repr

section Ops
variable {K : Type} [Field K]

/-- The vector `Vector::Zero()`. -/
def Vector.Zero : Vector K := ⟨0, 0, 0⟩

/-- The sum `operator+(Vector, Vector)`. -/
def Vector.add (a b : Vector K) : Vector K := ⟨a.x + b.x, a.y + b.y, a.z + b.z⟩

/-- The difference `operator-(Vector, Vector)`. -/
def Vector.sub (a b : Vector K) : Vector K := ⟨a.x - b.x, a.y - b.y, a.z - b.z⟩

/-- The cross product `operator*(Vector, Vector)`. -/
def Vector.cross (a b : Vector K) : Vector K :=
  ⟨a.y * b.z - a.z * b.y, a.z * b.x - a.x * b.z, a.x * b.y - a.y * b.x⟩

/-- The rotation `Rotation::Identity()`. -/
def Rotation.Identity : Rotation K := ⟨1, 0, 0, 0, 1, 0, 0, 0, 1⟩

/-- The product `Rotation::operator*(Vector)`. -/
def Rotation.mulVec (R : Rotation K) (v : Vector K) : Vector K :=
  ⟨R.Xx * v.x + R.Yx * v.y + R.Zx * v.z,
   R.Xy * v.x + R.Yy * v.y + R.Zy * v.z,
   R.Xz * v.x + R.Yz * v.y + R.Zz * v.z⟩

/-- The product `operator*(Rotation, Rotation)`. -/
def Rotation.mul (A B : Rotation K) : Rotation K :=
  ⟨A.Xx * B.Xx + A.Yx * B.Xy + A.Zx * B.Xz,
   A.Xx * B.Yx + A.Yx * B.Yy + A.Zx * B.Yz,
   A.Xx * B.Zx + A.Yx * B.Zy + A.Zx * B.Zz,
   A.Xy * B.Xx + A.Yy * B.Xy + A.Zy * B.Xz,
   A.Xy * B.Yx + A.Yy * B.Yy + A.Zy * B.Yz,
   A.Xy * B.Zx + A.Yy * B.Zy + A.Zy * B.Zz,
   A.Xz * B.Xx + A.Yz * B.Xy + A.Zz * B.Xz,
   A.Xz * B.Yx + A.Yz * B.Yy + A.Zz * B.Yz,
   A.Xz * B.Zx + A.Yz * B.Zy + A.Zz * B.Zz⟩

/-- The frame `Frame::Identity()`. -/
def Frame.Identity : Frame K := ⟨Rotation.Identity, Vector.Zero⟩

/-- The product `operator*(Frame, Frame)`: `Frame(lhs.M*rhs.M, lhs.M*rhs.p + lhs.p)`. -/
def Frame.mul (a b : Frame K) : Frame K :=
  ⟨a.M.mul b.M, (a.M.mulVec b.p).add a.p⟩

/-- The twist `Twist::Zero()`. -/
def Twist.Zero : Twist K := ⟨Vector.Zero, Vector.Zero⟩

/-- The product `Rotation::operator*(Twist)`: both parts are rotated. -/
def Rotation.mulTwist (R : Rotation K) (t : Twist K) : Twist K :=
  ⟨R.mulVec t.vel, R.mulVec t.rot⟩

/-- The method `Twist::RefPoint(v_base_AB)`: `Twist(vel + rot*v_base_AB, rot)`. -/
def Twist.RefPoint (t : Twist K) (v : Vector K) : Twist K :=
  ⟨t.vel.add (t.rot.cross v), t.rot⟩

end Ops

/-- A `KDL::Segment` as the controller sees it: the type of its joint, and the
methods `pose(q)` and `twist(q, qdot)`. -/
structure Segment (K : Type) where
  jointType : JointType
  pose : K → Frame K
  twist : K → K → Twist K

/-- The test `getJoint().getType() != KDL::Joint::None`. -/
def Segment.hasJoint {K : Type} (s : Segment K) : Bool :=
  s.jointType != JointType.None

end KDL

open KDL

/-! ## BaxterChain -/

/-- The values that `conservativeResize` exposes in the element a vector gains
when it grows by one: Eigen does not initialise it. -/
structure Uninit (K : Type) where
  lb : K
  ub : K
  q : K

/-- The method `conservativeResize(n)` of an Eigen vector: the first `n` old
entries are kept; entries gained are not initialised and hold `fresh`. -/
def conservativeResize {K : Type} (v : List K) (n : Nat) (fresh : K) : List K :=
  v.take n ++ List.replicate (n - v.length) fresh

/-- The data members of `BaxterChain`. -/
structure BaxterChain (K : Type) where
  nrOfJoints : Nat
  nrOfSegments : Nat
  segments : List (Segment K)
  q : List K
  lb : List K
  ub : List K

namespace BaxterChain
variable {K : Type}

/-- The default constructor `BaxterChain()`. -/
def empty : BaxterChain K := ⟨0, 0, [], [], [], []⟩

/-- The getter `getNrOfJoints()`. -/
def getNrOfJoints (c : BaxterChain K) : Nat := c.nrOfJoints

/-- The getter `getNrOfSegments()`. -/
def getNrOfSegments (c : BaxterChain K) : Nat := c.nrOfSegments

/-- The method `addSegment(segment)`. -/
def addSegment (c : BaxterChain K) (segment : Segment K) (u : Uninit K) : BaxterChain K :=
  let c1 := { c with segments := c.segments ++ [segment], nrOfSegments := c.nrOfSegments + 1 }
  if segment.hasJoint then
    let n := c1.nrOfJoints + 1
    { c1 with nrOfJoints := n
              lb := conservativeResize c1.lb n u.lb
              ub := conservativeResize c1.ub n u.ub
              q := conservativeResize c1.q n u.q }
  else c1

/-- The method `getSegment(nr)`: `segments[nr]`, undefined past the end. -/
def getSegment (c : BaxterChain K) (nr : Nat) : Option (Segment K) := c.segments[nr]?

/-- The method `removeSegment()`.  `segments.back()` of an empty vector is
undefined, and so is the decrement of an unsigned counter that is zero (the
value wraps and the vectors are resized to it): both give `none`.  The
vectors are cut to the new joint count; they hold at least that many entries
in every chain built through the methods of the class. -/
def removeSegment (c : BaxterChain K) : Option (BaxterChain K) :=
  match c.segments.getLast? with
  | none => none
  | some back =>
    if back.hasJoint then
      if c.nrOfJoints = 0 ∨ c.nrOfSegments = 0 then none
      else
        let n := c.nrOfJoints - 1
        some { c with nrOfJoints := n
                      lb := c.lb.take n
                      ub := c.ub.take n
                      q := c.q.take n
                      segments := c.segments.dropLast
                      nrOfSegments := c.nrOfSegments - 1 }
    else
      if c.nrOfSegments = 0 then none
      else some { c with segments := c.segments.dropLast, nrOfSegments := c.nrOfSegments - 1 }

/-- The loop `while(true)` of `removeJoint()`, run for at most `fuel` turns. -/
def removeJointLoop : Nat → BaxterChain K → Option (BaxterChain K)
  | 0, _ => none
  | fuel + 1, c =>
    match c.segments.getLast? with
    | none => none
    | some back =>
      if back.hasJoint then c.removeSegment
      else (c.removeSegment).bind (removeJointLoop fuel)

/-- The method `removeJoint()`: every turn of its loop removes one segment, so
one turn more than there are segments is enough to leave the loop. -/
def removeJoint (c : BaxterChain K) : Option (BaxterChain K) :=
  removeJointLoop (c.segments.length + 1) c

/-- The overload `setAng(std::vector<double>)`; the returned flag comes with
the chain after the call. -/
def setAng (c : BaxterChain K) (_q : List K) : Bool × BaxterChain K :=
  if _q.length ≠ c.getNrOfJoints then (false, c)
  else (true, { c with q := _q })

/-- The overload `setAng(Eigen::VectorXd)`. -/
def setAngEigen (c : BaxterChain K) (_q : List K) : Bool × BaxterChain K :=
  if _q.length ≠ c.getNrOfJoints then (false, c)
  else (true, { c with q := _q })

/-- The overload `setAng(sensor_msgs::JointState)`: the first `getNrOfJoints()`
positions are copied and handed to the `std::vector` overload, whose flag is
dropped. -/
def setAngJointState (c : BaxterChain K) (position : List K) : Bool × BaxterChain K :=
  if position.length ≠ c.getNrOfJoints then (false, c)
  else
    let angles := position.take c.getNrOfJoints
    (true, (c.setAng angles).2)

/-- The method `getMin(_i)`: `lb[_i]`, undefined past the end. -/
def getMin (c : BaxterChain K) (_i : Nat) : Option K := c.lb[_i]?

/-- The method `getMax(_i)`: `ub[_i]`, undefined past the end. -/
def getMax (c : BaxterChain K) (_i : Nat) : Option K := c.ub[_i]?

section Kinematics
variable [Field K]

/-- The `for` loop of `JntToCart`: `n` turns are left, `i` is the segment
index, `j` the joint index and `p` the value of `_p_out`. -/
def JntToCartLoop (c : BaxterChain K) (_q_in : List K) :
    Nat → Nat → Nat → Frame K → Option (Frame K)
  | 0, _, _, p => some p
  | n + 1, i, j, p =>
    match c.getSegment i with
    | none => none
    | some seg =>
      if seg.hasJoint then
        match _q_in[j]? with
        | none => none
        | some qj => JntToCartLoop c _q_in n (i + 1) (j + 1) (p.mul (seg.pose qj))
      else JntToCartLoop c _q_in n (i + 1) j (p.mul (seg.pose 0))

/-- The method `JntToCart(_q_in, _p_out, seg_nr)`: the returned flag and the
final value of `_p_out`. -/
def JntToCart (c : BaxterChain K) (_q_in : List K) (seg_nr : Int) :
    Option (Bool × Frame K) :=
  let segmentNr : Nat := if seg_nr < 0 then c.getNrOfSegments else seg_nr.toNat
  if segmentNr > c.getNrOfSegments then some (false, Frame.Identity)
  else (JntToCartLoop c _q_in segmentNr 0 0 Frame.Identity).map (fun p => (true, p))

/-- A `KDL::Jacobian`: one twist per column. -/
abbrev Jacobian (K : Type) := List (Twist K)

/-- The function `SetToZero(jac)` on a Jacobian with `columns` columns. -/
def SetToZero (columns : Nat) : Jacobian K := List.replicate columns Twist.Zero

/-- The function `changeRefPoint(src, base_AB, dest)`: every column is moved. -/
def changeRefPoint (src : Jacobian K) (base_AB : Vector K) : Jacobian K :=
  src.map (fun t => t.RefPoint base_AB)

/-- The method `Jacobian::setColumn(i, t)`, undefined past the last column. -/
def setColumn (jac : Jacobian K) (i : Nat) (t : Twist K) : Option (Jacobian K) :=
  if i < jac.length then some (jac.set i t) else none

/-- The `for` loop of `JntToJac`: `n` turns are left, `i` is the segment index,
`j` and `k` the joint and column indices, `T_tmp` the frame of the previous
segment's tip. -/
def JntToJacLoop (c : BaxterChain K) (q_in : List K) :
    Nat → Nat → Nat → Nat → Frame K → Jacobian K → Option (Jacobian K)
  | 0, _, _, _, _, jac => some jac
  | n + 1, i, j, k, T_tmp, jac =>
    match c.getSegment i with
    | none => none
    | some seg =>
      if seg.hasJoint then
        match q_in[j]? with
        | none => none
        | some qj =>
          let total := T_tmp.mul (seg.pose qj)
          let t_tmp := T_tmp.M.mulTwist (seg.twist qj 1)
          match setColumn (changeRefPoint jac (total.p.sub T_tmp.p)) k t_tmp with
          | none => none
          | some jac1 => JntToJacLoop c q_in n (i + 1) (j + 1) (k + 1) total jac1
      else
        let total := T_tmp.mul (seg.pose 0)
        JntToJacLoop c q_in n (i + 1) j k total (changeRefPoint jac (total.p.sub T_tmp.p))

/-- The method `JntToJac(q_in, jac, seg_nr)` for a Jacobian with `columns`
columns: the returned flag and the final value of `jac`. -/
def JntToJac (c : BaxterChain K) (q_in : List K) (columns : Nat) (seg_nr : Int) :
    Option (Bool × Jacobian K) :=
  let segmentNr : Nat := if seg_nr < 0 then c.getNrOfSegments else seg_nr.toNat
  let jac : Jacobian K := SetToZero columns
  if q_in.length ≠ c.getNrOfJoints ∨ c.getNrOfJoints ≠ columns then some (false, jac)
  else if segmentNr > c.getNrOfSegments then some (false, jac)
  else (JntToJacLoop c q_in segmentNr 0 0 0 Frame.Identity jac).map (fun r => (true, r))

/-- The method `GeoJacobian()`: the Jacobian of the whole chain at the stored
angles; reading `q[i]` past the end of `q` is undefined. -/
def GeoJacobian (c : BaxterChain K) : Option (Jacobian K) :=
  if c.q.length < c.getNrOfJoints then none
  else (JntToJac c (c.q.take c.getNrOfJoints) c.getNrOfJoints (-1)).map Prod.snd

/-- Modelled from the spec: the conversion `KDLFrameToEigen` is not among the
source files; it gives the 4x4 homogeneous transform (rotation and
translation) of a frame. -/
def KDLFrameToEigen (f : Frame K) : Matrix (Fin 4) (Fin 4) K :=
  !![f.M.Xx, f.M.Yx, f.M.Zx, f.p.x;
     f.M.Xy, f.M.Yy, f.M.Zy, f.p.y;
     f.M.Xz, f.M.Yz, f.M.Zz, f.p.z;
     0, 0, 0, 1]

/-- The `while` loop of `getH(_i)` that looks for the segment count: it stops
once `jnt_counter` reaches `target`; every turn reads `getSegment(seg_nr++)`. -/
def getHSegNr (c : BaxterChain K) (target : Nat) : Nat → Nat → Nat → Option Nat
  | 0, _, _ => none
  | fuel + 1, jnt_counter, seg_nr =>
    if jnt_counter < target then
      match c.getSegment seg_nr with
      | none => none
      | some seg =>
        if seg.hasJoint then getHSegNr c target fuel (jnt_counter + 1) (seg_nr + 1)
        else getHSegNr c target fuel jnt_counter (seg_nr + 1)
    else some seg_nr

/-- The frame that `getH(_i)` hands to `KDLFrameToEigen`.  The assertion
`_i < num_joints` and the reads `q[i]` make the call undefined when they fail;
the search loop reads a new segment every turn, so one turn more than there
are segments is enough to leave it. -/
def getHFrame (c : BaxterChain K) (_i : Nat) : Option (Frame K) :=
  if ¬ (_i < c.getNrOfJoints) then none
  else if c.q.length < _i + 1 then none
  else
    let jnts := c.q.take (_i + 1)
    let seg_nr : Option Nat :=
      if _i + 1 = c.getNrOfJoints then some c.getNrOfSegments
      else getHSegNr c (_i + 1) (c.segments.length + 1) 0 0
    match seg_nr with
    | none => none
    | some n => (JntToCart c jnts (n : Int)).map Prod.snd

/-- The method `getH(_i)`. -/
def getH (c : BaxterChain K) (_i : Nat) : Option (Matrix (Fin 4) (Fin 4) K) :=
  (getHFrame c _i).map KDLFrameToEigen

/-- The method `getH()`: `getH(q.size() - 1)`; for an empty `q` the unsigned
index wraps and the assertion of `getH(_i)` fails. -/
def getHEnd (c : BaxterChain K) : Option (Matrix (Fin 4) (Fin 4) K) :=
  if c.q.length = 0 then none else getH c (c.q.length - 1)

end Kinematics

/-- The number of stored segments whose joint type is not `None`. -/
def jointSegments (c : BaxterChain K) : Nat := c.segments.countP Segment.hasJoint

/-- The chain invariant: the counters agree with the segment list and the three
vectors have one entry per joint. -/
structure Inv (c : BaxterChain K) : Prop where
  joints : c.getNrOfJoints = c.jointSegments
  segs : c.getNrOfSegments = c.segments.length
  q_len : c.q.length = c.getNrOfJoints
  lb_len : c.lb.length = c.getNrOfJoints
  ub_len : c.ub.length = c.getNrOfJoints

/-- The chains reached from the empty chain by `addSegment`, by `removeSegment`
on a chain with a segment, and by `removeJoint` on a chain with a joint. -/
inductive Reachable : BaxterChain K → Prop
  | empty : Reachable BaxterChain.empty
  | addSegment (c : BaxterChain K) (s : Segment K) (u : Uninit K) :
      Reachable c → Reachable (c.addSegment s u)
  | removeSegment (c c1 : BaxterChain K) :
      Reachable c → c.segments ≠ [] → c.removeSegment = some c1 → Reachable c1
  | removeJoint (c c1 : BaxterChain K) :
      Reachable c → (∃ s ∈ c.segments, s.hasJoint = true) → c.removeJoint = some c1 →
      Reachable c1

end BaxterChain

/-! ## AvoidanceHandler -/

/-- The fields of `CollisionPoint` that the handler reads: position and normal
in the end-effector frame, magnitude and distance. -/
structure CollisionPoint (K : Type) where
  x_erf : Vector K
  n_erf : Vector K
  mag : K
  dist : K

/-- A matrix of velocity bounds (`MatrixXd` with two columns): one row
`(lower, upper)` per joint. -/
abbrev VLim (K : Type) := List (K × K)

namespace AvoidanceHandler
variable {K : Type} [LinearOrderedField K]

/-- The method `computeFoR(pos, norm, FoR)`: the returned flag and the final
value of `FoR`; `sqrt` is the square root behind `norm()`. -/
def computeFoR (sqrt : K → K) (pos norm : Vector K) : Bool × Matrix (Fin 4) (Fin 4) K :=
  if norm = Vector.Zero then (false, 1)
  else
    let z0 : Vector K := if norm.x = 0 then ⟨1 / 100000000, norm.y, norm.z⟩ else norm
    let y0 : Vector K := ⟨-z0.z / z0.x, 0, 1⟩
    let c := z0.cross y0
    let x0 : Vector K := ⟨-1 * c.x, -1 * c.y, -1 * c.z⟩
    let nx := sqrt (x0.x * x0.x + x0.y * x0.y + x0.z * x0.z)
    let ny := sqrt (y0.x * y0.x + y0.y * y0.y + y0.z * y0.z)
    let nz := sqrt (z0.x * z0.x + z0.y * z0.y + z0.z * z0.z)
    (true, !![x0.x / nx, y0.x / ny, z0.x / nz, pos.x;
              x0.y / nx, y0.y / ny, z0.y / nz, pos.y;
              x0.z / nx, y0.z / ny, z0.z / nz, pos.z;
              0, 0, 0, 1])

/-- Modelled from the spec: the conversion `toKDLFrame` is not among the source
files; it reads the rotation and the translation of a 4x4 homogeneous
transform. -/
def toKDLFrame (H : Matrix (Fin 4) (Fin 4) K) : Frame K :=
  ⟨⟨H 0 0, H 0 1, H 0 2, H 1 0, H 1 1, H 1 2, H 2 0, H 2 1, H 2 2⟩, ⟨H 0 3, H 1 3, H 2 3⟩⟩

/-- The segment `KDL::Segment(KDL::Joint(KDL::Joint::None), f)`: a joint of type
`None` has the identity pose and the zero twist. -/
def fixedSegment (f : Frame K) : Segment K :=
  ⟨JointType.None, fun _ => Frame.Identity.mul f,
   fun _ _ => Twist.Zero.RefPoint (Rotation.Identity.mulVec f.p)⟩

/-- The block of the constructor that follows the growth of `customChain`
(from `CollisionPoint coll_pt;` to the end of the `if`): `o2cp` stands for
`customChain.obstacleToCollisionPoint(_obstacles[i], coll_pt)`, which is not
among the source files, and gives its flag and the value left in `coll_pt`.
The result is the new `(tmpCP, tmpCC)`. -/
def recordCandidate (sqrt : K → K) (o2cp : Bool × CollisionPoint K)
    (customChain : BaxterChain K) (u : Uninit K)
    (tmpCP : List (CollisionPoint K)) (tmpCC : List (BaxterChain K)) :
    List (CollisionPoint K) × List (BaxterChain K) :=
  if o2cp.1 then
    let coll_pt := o2cp.2
    let HN := (computeFoR sqrt coll_pt.x_erf coll_pt.n_erf).2
    let s := fixedSegment (toKDLFrame HN)
    let chainToAdd := customChain.addSegment s u
    (tmpCP ++ [coll_pt], tmpCC ++ [chainToAdd])
  else (tmpCP, tmpCC)

/-- The loop `for (i < tmpCP.size())` that looks for the largest magnitude:
`i` is the index of the head of the list, the state is `(max_mag, max_idx)`. -/
def selectLoop : List (CollisionPoint K) → Nat → K × Int → K × Int
  | [], _, st => st
  | cp :: rest, i, (max_mag, max_idx) =>
    if cp.mag > 1 / 100 then
      if cp.mag > max_mag then selectLoop rest (i + 1) (cp.mag, (i : Int))
      else selectLoop rest (i + 1) (max_mag, max_idx)
    else selectLoop rest (i + 1) (max_mag, max_idx)

/-- The value of `max_idx` after the selection loop, which starts from
`max_mag = 0.0` and `max_idx = -1`. -/
def selectedIndex (tmpCP : List (CollisionPoint K)) : Int :=
  (selectLoop tmpCP 0 (0, -1)).2

/-- The end of the body of the obstacle loop: the selection loop and the
`if (max_idx != -1)` that pushes `tmpCP[max_idx]` and `tmpCC[max_idx]` on
`collPoints` and `ctrlChains`.  Reading past the end of `tmpCC` is undefined. -/
def registerSelected (tmpCP : List (CollisionPoint K)) (tmpCC : List (BaxterChain K))
    (collPoints : List (CollisionPoint K)) (ctrlChains : List (BaxterChain K)) :
    Option (List (CollisionPoint K) × List (BaxterChain K)) :=
  let max_idx := selectedIndex tmpCP
  if max_idx ≠ -1 then
    match tmpCP[max_idx.toNat]?, tmpCC[max_idx.toNat]? with
    | some cp, some cc => some (collPoints ++ [cp], ctrlChains ++ [cc])
    | _, _ => none
  else some (collPoints, ctrlChains)

/-- The method `AvoidanceHandler::getV_LIM(v_lim)` of the base class. -/
def getV_LIM (v_lim : VLim K) : VLim K := v_lim

end AvoidanceHandler

namespace AvoidanceHandlerTactile
variable {K : Type} [LinearOrderedField K]

/-- The vector `s = -1.0 * J_xyz.transpose() * nrm` of a control chain: `J_xyz`
is the first three rows of `GeoJacobian()` and `nrm` the third column of
`getH()`. -/
def projection (cc : BaxterChain K) : Option (List K) :=
  match cc.GeoJacobian, cc.getHEnd with
  | some J, some H =>
    some (J.map (fun t => -1 * (t.vel.x * H 0 2 + t.vel.y * H 1 2 + t.vel.z * H 2 2)))
  | _, _ => none

/-- The body of the loop over the joints `j`: row `j` of `V_LIM` is shaped
from row `j` of the argument `v_lim`, the magnitude and `s[j]`.  Rows past the
end of the matrices are undefined. -/
def shapeJoint (v_lim V_LIM : VLim K) (mag sj : K) (j : Nat) : Option (VLim K) :=
  match v_lim[j]?, V_LIM[j]? with
  | some orig, some cur =>
    if sj ≥ 0 then
      let tmp := orig.2 * (1 - mag)
      let vM := min cur.2 tmp
      let vm := min cur.1 vM
      some (V_LIM.set j (vm, vM))
    else
      let tmp := orig.1 * (1 - mag)
      let vm := max cur.1 tmp
      let vM := max vm cur.2
      some (V_LIM.set j (vm, vM))
  | _, _ => none

/-- The loop `for (j < s.rows())`: `j` is the index of the head of `s`. -/
def shapeLoop (v_lim : VLim K) (mag : K) : List K → Nat → VLim K → Option (VLim K)
  | [], _, V_LIM => some V_LIM
  | sj :: rest, j, V_LIM =>
    match shapeJoint v_lim V_LIM mag sj j with
    | none => none
    | some V1 => shapeLoop v_lim mag rest (j + 1) V1

/-- The loop `for (i < collPoints.size())`: `i` is the index of the head of the
list of collision points; `ctrlChains[i]` past the end is undefined. -/
def pointsLoop (ctrlChains : List (BaxterChain K)) (v_lim : VLim K) :
    List (CollisionPoint K) → Nat → VLim K → Option (VLim K)
  | [], _, V_LIM => some V_LIM
  | cp :: rest, i, V_LIM =>
    match ctrlChains[i]? with
    | none => none
    | some cc =>
      match projection cc with
      | none => none
      | some s =>
        match shapeLoop v_lim cp.mag s 0 V_LIM with
        | none => none
        | some V1 => pointsLoop ctrlChains v_lim rest (i + 1) V1

/-- The method `AvoidanceHandlerTactile::getV_LIM(v_lim)` of a handler that
holds `collPoints` and `ctrlChains`. -/
def getV_LIM (collPoints : List (CollisionPoint K)) (ctrlChains : List (BaxterChain K))
    (v_lim : VLim K) : Option (VLim K) :=
  pointsLoop ctrlChains v_lim collPoints 0 v_lim

end AvoidanceHandlerTactile

/-! ## CtrlThread -/

namespace CtrlThread

/-- The method `goToPoseNoCheck`: `is_debug` is the member flag, `noRobot` and
`waitForJointAngles` the results of the calls of those names, `exit_code` the
code that `solveIK` writes, and `goToJointConfNoCheck` the result of sending
the velocities. -/
def goToPoseNoCheck (is_debug noRobot waitForJointAngles : Bool) (exit_code : Int)
    (goToJointConfNoCheck : Bool) : Bool :=
  if !noRobot && !waitForJointAngles then false
  else if exit_code ≠ 0 && is_debug then false
  else if exit_code ≠ 0 && exit_code ≠ -4 then false
  else if is_debug then true
  else if !goToJointConfNoCheck then false
  else true

end CtrlThread

/-! ## Forward kinematics as a product of poses -/

namespace BaxterChain
variable {K : Type} [Field K]

/-- The poses that the segments `segs` contribute, left to right, when the
first joint among them is joint `j`: a segment with a joint contributes its
pose at the angle `q[j]` of its joint, a segment without a joint its fixed pose
`pose(0)`. -/
def segmentPoses (q : List K) : List (Segment K) → Nat → List (Frame K)
  | [], _ => []
  | s :: rest, j =>
    if s.hasJoint then s.pose (q.getD j 0) :: segmentPoses q rest (j + 1)
    else s.pose 0 :: segmentPoses q rest j

/-- The left-to-right product of the poses of the segments `segs` at the
angles `q`. -/
def poseProduct (q : List K) (segs : List (Segment K)) : Frame K :=
  (segmentPoses q segs 0).foldl Frame.mul Frame.Identity

/-- The index of the segment that carries joint `i`. -/
def segmentOfJoint : List (Segment K) → Nat → Option Nat
  | [], _ => none
  | s :: rest, i =>
    if s.hasJoint then
      match i with
      | 0 => some 0
      | i + 1 => (segmentOfJoint rest i).map (· + 1)
    else (segmentOfJoint rest i).map (· + 1)

end BaxterChain

/-! ## The Jacobian sweep as a fold over the segments -/

namespace BaxterChain
variable {K : Type} [Field K]

/-- One turn of the loop of `JntToJac` on the state `(T_tmp, j, jac)`; the
column index `k` of the loop always equals `j`. -/
def jacStep (q : List K) (st : Frame K × Nat × Jacobian K) (seg : Segment K) :
    Frame K × Nat × Jacobian K :=
  if seg.hasJoint then
    (st.1.mul (seg.pose (q.getD st.2.1 0)), st.2.1 + 1,
     (changeRefPoint st.2.2 ((st.1.mul (seg.pose (q.getD st.2.1 0))).p.sub st.1.p)).set st.2.1
       (st.1.M.mulTwist (seg.twist (q.getD st.2.1 0) 1)))
  else
    (st.1.mul (seg.pose 0), st.2.1,
     changeRefPoint st.2.2 ((st.1.mul (seg.pose 0)).p.sub st.1.p))

/-- The state of the loop of `JntToJac` after the segments `segs`, started on
the identity frame and a zero Jacobian with `columns` columns. -/
def jacSweep (q : List K) (columns : Nat) (segs : List (Segment K)) :
    Frame K × Nat × Jacobian K :=
  segs.foldl (jacStep q) (Frame.Identity, 0, SetToZero columns)

/-- The position of the frame that `JntToCart` computes for the whole chain
(the origin when the call is undefined). -/
def endPosition (c : BaxterChain K) (q : List K) : Vector K :=
  match c.JntToCart q (-1) with
  | some r => r.2.p
  | none => Vector.Zero

/-- The rotation of the frame that `JntToCart` computes for the whole chain
(the identity when the call is undefined). -/
def endRotation (c : BaxterChain K) (q : List K) : Rotation K :=
  match c.JntToCart q (-1) with
  | some r => r.2.M
  | none => Rotation.Identity

end BaxterChain

/-! ## Derivatives of frames and the contract of a KDL segment -/

namespace KDL

/-- The product of the cross-product matrix of `w` with `R`: its columns are
`w` cross the columns of `R`. -/
def Rotation.skewMul {K : Type} [Field K] (w : Vector K) (R : Rotation K) : Rotation K :=
  ⟨w.y * R.Xz - w.z * R.Xy, w.y * R.Yz - w.z * R.Yy, w.y * R.Zz - w.z * R.Zy,
   w.z * R.Xx - w.x * R.Xz, w.z * R.Yx - w.x * R.Yz, w.z * R.Zx - w.x * R.Zz,
   w.x * R.Xy - w.y * R.Xx, w.x * R.Yy - w.y * R.Yx, w.x * R.Zy - w.y * R.Zx⟩

/-- The matrix `R` commutes with the cross product, as every proper rotation
does. -/
def Rotation.PreservesCross {K : Type} [Field K] (R : Rotation K) : Prop :=
  ∀ a b : Vector K, R.mulVec (a.cross b) = (R.mulVec a).cross (R.mulVec b)

/-- The vector `v` is the derivative of `f` at `t`, coordinate by coordinate. -/
def VecDeriv (f : ℝ → Vector ℝ) (v : Vector ℝ) (t : ℝ) : Prop :=
  HasDerivAt (fun s => (f s).x) v.x t ∧ HasDerivAt (fun s => (f s).y) v.y t ∧
  HasDerivAt (fun s => (f s).z) v.z t

/-- The matrix `D` is the derivative of `F` at `t`, entry by entry. -/
def RotDeriv (F : ℝ → Rotation ℝ) (D : Rotation ℝ) (t : ℝ) : Prop :=
  HasDerivAt (fun s => (F s).Xx) D.Xx t ∧ HasDerivAt (fun s => (F s).Yx) D.Yx t ∧
  HasDerivAt (fun s => (F s).Zx) D.Zx t ∧ HasDerivAt (fun s => (F s).Xy) D.Xy t ∧
  HasDerivAt (fun s => (F s).Yy) D.Yy t ∧ HasDerivAt (fun s => (F s).Zy) D.Zy t ∧
  HasDerivAt (fun s => (F s).Xz) D.Xz t ∧ HasDerivAt (fun s => (F s).Yz) D.Yz t ∧
  HasDerivAt (fun s => (F s).Zz) D.Zz t

/-- What KDL promises of a segment: the rotation of its pose is a proper
rotation, and for a segment with a joint `twist(q, 1)` is the velocity of the
pose with respect to the joint value, that is, its linear part is the
derivative of the origin of `pose` and its angular part `w` gives the
derivative `[w]x M` of the rotation `M` of `pose`. -/
structure Segment.Kinematic (s : Segment ℝ) : Prop where
  proper : ∀ q, (s.pose q).M.PreservesCross
  vel : s.hasJoint = true → ∀ q, VecDeriv (fun t => (s.pose t).p) (s.twist q 1).vel q
  rot : s.hasJoint = true → ∀ q,
    RotDeriv (fun t => (s.pose t).M) (Rotation.skewMul (s.twist q 1).rot (s.pose q).M) q

end KDL

/-! ## Row-wise description of the bound shaping -/

namespace AvoidanceHandlerTactile
variable {K : Type} [LinearOrderedField K]

/-- What one turn of the joint loop writes in a row: `orig` is the row of the
argument `v_lim`, `cur` the row of `V_LIM` before the turn. -/
def shapeRow (mag : K) (orig cur : K × K) (sj : K) : K × K :=
  if sj ≥ 0 then (min cur.1 (min cur.2 (orig.2 * (1 - mag))), min cur.2 (orig.2 * (1 - mag)))
  else (max cur.1 (orig.1 * (1 - mag)), max (max cur.1 (orig.1 * (1 - mag))) cur.2)

/-- The rows after the joint loop: the first rows are shaped, one per entry of
`s`; the rows after them are kept. -/
def shapeRows (mag : K) : VLim K → VLim K → List K → VLim K
  | o :: os, c :: cs, sj :: ss => shapeRow mag o c sj :: shapeRows mag os cs ss
  | _, cs, _ => cs

/-- The intersection of two bound matrices, row by row: the larger lower
bound and the smaller upper bound. -/
def intersect (a b : VLim K) : VLim K :=
  List.zipWith (fun x y => (max x.1 y.1, min x.2 y.2)) a b

/-- The rows of `V` lie inside the rows of `v` and contain zero. -/
def Inside (v V : VLim K) : Prop :=
  List.Forall₂ (fun o c => o.1 ≤ c.1 ∧ c.1 ≤ 0 ∧ 0 ≤ c.2 ∧ c.2 ≤ o.2) v V

/-- The shaping of one collision point `p.1` with control chain `p.2`, applied
to `V_LIM`: one turn of the loop over the collision points. -/
def shapePoint (v_lim V_LIM : VLim K) (p : CollisionPoint K × BaxterChain K) :
    Option (VLim K) :=
  match projection p.2 with
  | none => none
  | some s => shapeLoop v_lim p.1.mag s 0 V_LIM

end AvoidanceHandlerTactile

/-! ## The output parameter of computeFoR -/

namespace KDL

/-- The scalar product `dot(Vector, Vector)`. -/
def Vector.dot {K : Type} [Field K] (a b : Vector K) : K := a.x * b.x + a.y * b.y + a.z * b.z

end KDL

namespace AvoidanceHandler
variable {K : Type} [LinearOrderedField K]

/-- The call `FoR.setIdentity()`: every entry of `FoR` is overwritten. -/
def setIdentity (_FoR : Matrix (Fin 4) (Fin 4) K) : Matrix (Fin 4) (Fin 4) K := 1

/-- The assignment `FoR.block<3,1>(0,col) = v`: rows 0, 1, 2 of column `col`
are overwritten, every other entry is kept. -/
def setBlock (FoR : Matrix (Fin 4) (Fin 4) K) (col : Fin 4) (v : Vector K) :
    Matrix (Fin 4) (Fin 4) K :=
  fun i j =>
    if j = col then
      if i = 0 then v.x else if i = 1 then v.y else if i = 2 then v.z else FoR i j
    else FoR i j

/-- The expression `FoR.block<3,1>(0,col)` read as a vector. -/
def block31 (FoR : Matrix (Fin 4) (Fin 4) K) (col : Fin 4) : Vector K :=
  ⟨FoR 0 col, FoR 1 col, FoR 2 col⟩

/-- The method `computeFoR(pos, norm, FoR)`, statement by statement, with the
content `FoR` of the output parameter at the call as an argument: the returned
flag and the final value of `FoR`; `sqrt` is the square root behind `norm()`. -/
def computeFoRInOut (sqrt : K → K) (pos norm : Vector K) (FoR : Matrix (Fin 4) (Fin 4) K) :
    Bool × Matrix (Fin 4) (Fin 4) K :=
  if norm = Vector.Zero then (false, setIdentity FoR)
  else
    let z0 : Vector K := if norm.x = 0 then ⟨1 / 100000000, norm.y, norm.z⟩ else norm
    let y0 : Vector K := ⟨-z0.z / z0.x, 0, 1⟩
    let c := z0.cross y0
    let x0 : Vector K := ⟨-1 * c.x, -1 * c.y, -1 * c.z⟩
    let nx := sqrt (x0.x * x0.x + x0.y * x0.y + x0.z * x0.z)
    let x : Vector K := ⟨x0.x / nx, x0.y / nx, x0.z / nx⟩
    let ny := sqrt (y0.x * y0.x + y0.y * y0.y + y0.z * y0.z)
    let y : Vector K := ⟨y0.x / ny, y0.y / ny, y0.z / ny⟩
    let nz := sqrt (z0.x * z0.x + z0.y * z0.y + z0.z * z0.z)
    let z : Vector K := ⟨z0.x / nz, z0.y / nz, z0.z / nz⟩
    let FoR1 := setIdentity FoR
    let FoR2 := setBlock FoR1 0 x
    let FoR3 := setBlock FoR2 1 y
    let FoR4 := setBlock FoR3 2 z
    let FoR5 := setBlock FoR4 3 pos
    (true, FoR5)

end AvoidanceHandler

/-! ## The end points of the segments -/

namespace BaxterChain
variable {K : Type} [Field K]

/-- The end point of segment `m` in the base frame at the angles `q`: the
origin of the product of the poses of the segments `0, ..., m`. -/
def tipPosition (q : List K) (segs : List (Segment K)) (m : Nat) : Vector K :=
  (poseProduct q (segs.take (m + 1))).p

/-- The sum of a list of vectors. -/
def vectorSum (l : List (Vector K)) : Vector K := l.foldr Vector.add Vector.Zero

/-- The displacements `total.p - T_tmp.p` of the end point that the loop of
`JntToJac` sees at the segments `i + 1, ..., n - 1`. -/
def tipDisplacements (q : List K) (segs : List (Segment K)) (i n : Nat) : List (Vector K) :=
  (List.range' (i + 1) (n - (i + 1))).map
    (fun m => (tipPosition q segs m).sub (tipPosition q segs (m - 1)))

end BaxterChain

/-! ## The positions of the joints -/

namespace BaxterChain
variable {K : Type} [Field K]

/-- The array `KDL::JntArray jnts(getNrOfJoints())` after the loop
`for (i < getNrOfJoints() - 1) jnts(i) = q[i]`: the constructor of `JntArray`
sets every entry to zero, and the loop overwrites all entries but the last. -/
def jointPositionAngles (c : BaxterChain K) : List K :=
  c.q.take (c.getNrOfJoints - 1) ++
    List.replicate (c.getNrOfJoints - (c.getNrOfJoints - 1)) 0

/-- The loop `for (i < segmentNr)` of `GetJointPositions`: `n` turns are left,
`i` is the segment index, `j` the joint index; `tf::vectorKDLToEigen` copies
the three coordinates. -/
def GetJointPositionsLoop (c : BaxterChain K) (jnts : List K) :
    Nat → Nat → Nat → Frame K → List (Vector K) → Option (List (Vector K))
  | 0, _, _, _, positions => some positions
  | n + 1, i, j, frame, positions =>
    match c.getSegment i with
    | none => none
    | some seg =>
      if seg.hasJoint then
        match jnts[j]? with
        | none => none
        | some qj =>
          let frame1 := frame.mul (seg.pose qj)
          GetJointPositionsLoop c jnts n (i + 1) (j + 1) frame1 (positions ++ [frame1.p])
      else GetJointPositionsLoop c jnts n (i + 1) j (frame.mul (seg.pose 0)) positions

/-- The method `GetJointPositions(positions)`: the returned flag and the final
value of `positions`.  With no joint the unsigned bound `getNrOfJoints() - 1`
wraps and the copy loop runs past the end of `jnts`; reading `q[i]` past the
end of `q` is undefined as well. -/
def GetJointPositions (c : BaxterChain K) (positions : List (Vector K)) :
    Option (Bool × List (Vector K)) :=
  if c.getNrOfJoints = 0 then none
  else if c.q.length < c.getNrOfJoints - 1 then none
  else
    (GetJointPositionsLoop c c.jointPositionAngles c.getNrOfSegments 0 0 Frame.Identity
      positions).map (fun r => (true, r))

end BaxterChain

/-! ## The constructor of AvoidanceHandler

The constructor reads the parent chain through `getSegment`, `getAng`,
`getMin` and `getMax`.  In this section a read past the end of a container is
not a dead end: the index is recorded in a log and the read yields the content
of the memory behind the container, which is a parameter of the model. -/

namespace BaxterChain
variable {K : Type}

/-- Modelled from the spec: the overload `getAng(_i)` is not among the source
files; like `getMin(_i)` and `getMax(_i)` it gives the stored entry `q[_i]`,
undefined past the end. -/
def getAng (c : BaxterChain K) (_i : Nat) : Option K := c.q[_i]?

/-- Modelled from the spec: the overload `setAng(_q, _lb, _ub)` is not among
the source files; as the spec says of `setAng`, it fails when a length differs
from the joint count and then changes nothing, and otherwise it replaces the
stored vectors. -/
def setAngBounds (c : BaxterChain K) (_q _lb _ub : List K) : Bool × BaxterChain K :=
  if _q.length ≠ c.getNrOfJoints ∨ _lb.length ≠ c.getNrOfJoints ∨
      _ub.length ≠ c.getNrOfJoints then (false, c)
  else (true, { c with q := _q, lb := _lb, ub := _ub })

end BaxterChain

namespace AvoidanceHandler

/-- An index that the constructor passes to a getter of the parent chain. -/
inductive Access where
  | getSegment (nr : Nat)
  | getAng (i : Nat)
  | getMin (i : Nat)
  | getMax (i : Nat)
  deriving DecidableEq, Repr

/-- What the getters of the parent chain yield for an index past the end of
their container. -/
structure PastEnd (K : Type) where
  segment : Nat → Segment K
  ang : Nat → K
  min : Nat → K
  max : Nat → K

/-- The state of the body of the obstacle loop while `customChain` grows: the
local variables, the log `reads` of the indices passed to the getters of the
parent chain, and the log `attempts` of the values of `customChain` on which
`obstacleToCollisionPoint` was called. -/
structure Growth (K : Type) where
  customChain : BaxterChain K
  q_j : List K
  q_l : List K
  q_u : List K
  tmpCP : List (CollisionPoint K)
  tmpCC : List (BaxterChain K)
  reads : List Access
  attempts : List (BaxterChain K)

/-- The members of `AvoidanceHandler` that the constructor sets. -/
structure Handler (K : Type) where
  chain : BaxterChain K
  collPoints : List (CollisionPoint K)
  ctrlChains : List (BaxterChain K)

variable {K : Type} [LinearOrderedField K]

/-- The value of `chain.getSegment(nr)`. -/
def readSegment (chain : BaxterChain K) (past : PastEnd K) (nr : Nat) : Segment K :=
  (chain.getSegment nr).getD (past.segment nr)

/-- The value of `chain.getAng(i)`. -/
def readAng (chain : BaxterChain K) (past : PastEnd K) (i : Nat) : K :=
  (chain.getAng i).getD (past.ang i)

/-- The value of `chain.getMin(i)`. -/
def readMin (chain : BaxterChain K) (past : PastEnd K) (i : Nat) : K :=
  (chain.getMin i).getD (past.min i)

/-- The value of `chain.getMax(i)`. -/
def readMax (chain : BaxterChain K) (past : PastEnd K) (i : Nat) : K :=
  (chain.getMax i).getD (past.max i)

/-- The loop `while (customChain.getNrOfJoints() == 0)`, run for at most `fuel`
tests of its condition, on `customChain` and the log of reads. -/
def firstJointLoop (chain : BaxterChain K) (past : PastEnd K) (u : Uninit K) :
    Nat → BaxterChain K × List Access → Option (BaxterChain K × List Access)
  | 0, _ => none
  | fuel + 1, st =>
    if st.1.getNrOfJoints = 0 then
      firstJointLoop chain past u fuel
        (st.1.addSegment (readSegment chain past st.1.getNrOfSegments) u,
         st.2 ++ [Access.getSegment st.1.getNrOfSegments])
    else some st

/-- The inner loop `while (chain.getSegment(customChain.getNrOfSegments())
.getJoint().getType() == KDL::Joint::None)`, run for at most `fuel` tests of
its condition: the condition reads the segment before the body compares the
two segment counts, and the body reads the same segment again to add it. -/
def fixedLoop (chain : BaxterChain K) (past : PastEnd K) (u : Uninit K) :
    Nat → BaxterChain K × List Access → Option (BaxterChain K × List Access)
  | 0, _ => none
  | fuel + 1, st =>
    if (readSegment chain past st.1.getNrOfSegments).hasJoint then
      some (st.1, st.2 ++ [Access.getSegment st.1.getNrOfSegments])
    else if st.1.getNrOfSegments = chain.getNrOfSegments then
      some (st.1, st.2 ++ [Access.getSegment st.1.getNrOfSegments])
    else
      fixedLoop chain past u fuel
        (st.1.addSegment (readSegment chain past st.1.getNrOfSegments) u,
         st.2 ++ [Access.getSegment st.1.getNrOfSegments,
           Access.getSegment st.1.getNrOfSegments])

/-- The loop `while (customChain.getNrOfSegments() < _chain.getNrOfSegments())`,
run for at most `fuel` tests of its condition; `o2cp` stands for
`customChain.obstacleToCollisionPoint(_obstacles[i], coll_pt)` as a function
of `customChain`.  The inner loop adds segments of the parent only, so one
test more than the parent has segments is enough for it. -/
def growLoop (sqrt : K → K) (chain : BaxterChain K) (past : PastEnd K) (u : Uninit K)
    (o2cp : BaxterChain K → Bool × CollisionPoint K) : Nat → Growth K → Option (Growth K)
  | 0, _ => none
  | fuel + 1, g =>
    if g.customChain.getNrOfSegments < chain.getNrOfSegments then
      let nj := g.customChain.getNrOfJoints
      let nr := g.customChain.getNrOfSegments
      let q_j := (conservativeResize g.q_j (g.q_j.length + 1) u.q).set g.q_j.length
        (readAng chain past nj)
      let q_l := (conservativeResize g.q_l (g.q_l.length + 1) u.lb).set g.q_l.length
        (readMin chain past nj)
      let q_u := (conservativeResize g.q_u (g.q_u.length + 1) u.ub).set g.q_u.length
        (readMax chain past nj)
      let c1 := g.customChain.addSegment (readSegment chain past nr) u
      let c2 := (c1.setAngBounds q_j q_l q_u).2
      match fixedLoop chain past u (chain.getNrOfSegments + 1)
          (c2, g.reads ++ [Access.getAng nj, Access.getMin nj, Access.getMax nj,
            Access.getSegment nr]) with
      | none => none
      | some st =>
        let cand := recordCandidate sqrt (o2cp st.1) st.1 u g.tmpCP g.tmpCC
        growLoop sqrt chain past u o2cp fuel
          { customChain := st.1, q_j := q_j, q_l := q_l, q_u := q_u,
            tmpCP := cand.1, tmpCC := cand.2, reads := st.2,
            attempts := g.attempts ++ [st.1] }
    else some g

/-- The body of the obstacle loop from `BaxterChain customChain;` to the end of
the loop that grows `customChain`, on the empty `tmpCP` and `tmpCC` that every
turn of the obstacle loop starts with.  Each loop adds a segment of the parent
on every turn, so one test more than the parent has segments is enough. -/
def growObstacle (sqrt : K → K) (chain : BaxterChain K) (past : PastEnd K) (u : Uninit K)
    (o2cp : BaxterChain K → Bool × CollisionPoint K) : Option (Growth K) :=
  let q_l := [readMin chain past 0]
  let q_u := [readMax chain past 0]
  let q_j := [readAng chain past 0]
  match firstJointLoop chain past u (chain.getNrOfSegments + 1)
      (BaxterChain.empty, [Access.getMin 0, Access.getMax 0, Access.getAng 0]) with
  | none => none
  | some st =>
    growLoop sqrt chain past u o2cp (chain.getNrOfSegments + 1)
      { customChain := (st.1.setAngBounds q_j q_l q_u).2, q_j := q_j, q_l := q_l, q_u := q_u,
        tmpCP := [], tmpCC := [], reads := st.2, attempts := [] }

/-- One turn of the loop `for (i < _obstacles.size())` for the obstacle `ob`. -/
def obstacleTurn {Ob : Type} (sqrt : K → K) (past : PastEnd K) (u : Uninit K)
    (o2cp : BaxterChain K → Ob → Bool × CollisionPoint K) (h : Handler K) (ob : Ob) :
    Option (Handler K) :=
  match growObstacle sqrt h.chain past u (fun c => o2cp c ob) with
  | none => none
  | some g =>
    match registerSelected g.tmpCP g.tmpCC h.collPoints h.ctrlChains with
    | none => none
    | some r => some { h with collPoints := r.1, ctrlChains := r.2 }

/-- The loop `for (i < _obstacles.size())`. -/
def obstacleLoop {Ob : Type} (sqrt : K → K) (past : PastEnd K) (u : Uninit K)
    (o2cp : BaxterChain K → Ob → Bool × CollisionPoint K) :
    List Ob → Handler K → Option (Handler K)
  | [], h => some h
  | ob :: rest, h =>
    match obstacleTurn sqrt past u o2cp h ob with
    | none => none
    | some h1 => obstacleLoop sqrt past u o2cp rest h1

/-- The constructor `AvoidanceHandler(_chain, _obstacles, _type, _print_level)`:
the members `chain`, `collPoints` and `ctrlChains` when it ends. -/
def construct {Ob : Type} (sqrt : K → K) (past : PastEnd K) (u : Uninit K)
    (o2cp : BaxterChain K → Ob → Bool × CollisionPoint K) (_chain : BaxterChain K)
    (_obstacles : List Ob) : Option (Handler K) :=
  obstacleLoop sqrt past u o2cp _obstacles ⟨_chain, [], []⟩

end AvoidanceHandler

namespace AvoidanceHandler
variable {K : Type}

/-- The segment lists at which a walk over `rest` stops when it has gathered
`cur`: before every segment of `rest` that carries a joint, and at the end. -/
def stopsFrom (cur : List (Segment K)) : List (Segment K) → List (List (Segment K))
  | [] => [cur]
  | s :: rest =>
    if s.hasJoint then cur :: stopsFrom (cur ++ [s]) rest
    else stopsFrom (cur ++ [s]) rest

/-- The segment lists longer than `done` at which the growth of `done` over
`rest` stops: one segment is taken first, then the walk stops before every
segment that carries a joint, and at the end. -/
def stops (done : List (Segment K)) : List (Segment K) → List (List (Segment K))
  | [] => []
  | s :: rest => stopsFrom (done ++ [s]) rest

end AvoidanceHandler

/-! ## Concrete data for evaluations -/

namespace Example

/-- A segment with a translational joint of type `ty` along `axis` and tip
frame `f_tip`, after `KDL::Segment::pose` (`joint.pose(q)*f_tip`) and
`KDL::Segment::twist` (`joint.twist(qdot).RefPoint(joint.pose(q).M*f_tip.p)`). -/
def transSegment {K : Type} [Field K] (ty : JointType) (axis : Vector K) (f_tip : Frame K) :
    Segment K :=
  ⟨ty,
   fun q => (Frame.mk Rotation.Identity ⟨axis.x * q, axis.y * q, axis.z * q⟩).mul f_tip,
   fun _ qdot =>
     (Twist.mk ⟨axis.x * qdot, axis.y * qdot, axis.z * qdot⟩ Vector.Zero).RefPoint
       (Rotation.Identity.mulVec f_tip.p)⟩

/-- The rotation `Rotation::RotZ(angle)`, from the cosine and the sine of the
angle. -/
def RotZ {K : Type} [Field K] (cs sn : K) : Rotation K := ⟨cs, -sn, 0, sn, cs, 0, 0, 0, 1⟩

/-- A segment with a joint of type `RotZ` and tip frame `f_tip`, after
`KDL::Segment::pose` and `KDL::Segment::twist`; the joint turns about z
through the origin and its twist is `Twist((0,0,0), (0,0,qdot))`. -/
def rotZSegment {K : Type} [Field K] (cos sin : K → K) (f_tip : Frame K) : Segment K :=
  ⟨JointType.RotZ,
   fun q => (Frame.mk (RotZ (cos q) (sin q)) Vector.Zero).mul f_tip,
   fun q qdot =>
     (Twist.mk Vector.Zero ⟨0, 0, qdot⟩).RefPoint ((RotZ (cos q) (sin q)).mulVec f_tip.p)⟩

/-- An arm with a turning joint about z carrying a link of length one along
x, a fixed link of length one along z, and a joint sliding along x. -/
def arm {K : Type} [LinearOrderedField K] (cos sin : K → K) : BaxterChain K :=
  ((BaxterChain.empty.addSegment
      (rotZSegment cos sin ⟨Rotation.Identity, ⟨1, 0, 0⟩⟩) ⟨0, 0, 0⟩).addSegment
      (AvoidanceHandler.fixedSegment ⟨Rotation.Identity, ⟨0, 0, 1⟩⟩) ⟨0, 0, 0⟩).addSegment
      (transSegment JointType.TransX ⟨1, 0, 0⟩ Frame.Identity) ⟨0, 0, 0⟩

/-- A sliding joint along x with no offset to its tip. -/
def jointX : Segment ℚ := transSegment JointType.TransX ⟨1, 0, 0⟩ Frame.Identity

/-- A sliding joint along z with no offset to its tip. -/
def jointZ : Segment ℚ := transSegment JointType.TransZ ⟨0, 0, 1⟩ Frame.Identity

/-- A fixed link of length one along z. -/
def linkZ : Segment ℚ := AvoidanceHandler.fixedSegment ⟨Rotation.Identity, ⟨0, 0, 1⟩⟩

/-- The content of the storage a vector grows into in the examples. -/
def fresh : Uninit ℚ := ⟨0, 0, 0⟩

/-- The chain `jointX`. -/
def chainJ : BaxterChain ℚ := BaxterChain.empty.addSegment jointX fresh

/-- The chain `jointZ`. -/
def chainZ : BaxterChain ℚ := BaxterChain.empty.addSegment jointZ fresh

/-- The chain `jointX, linkZ`. -/
def chainJF : BaxterChain ℚ := chainJ.addSegment linkZ fresh

/-- The chain `jointX, linkZ, jointZ`. -/
def chainJFJ : BaxterChain ℚ := chainJF.addSegment jointZ fresh

/-- A collision point at the origin with magnitude `mag`. -/
def point (mag : ℚ) : CollisionPoint ℚ := ⟨Vector.Zero, Vector.Zero, mag, 0⟩

end Example

/-! # Theorems -/

namespace BaxterChain
variable {K : Type}

theorem length_conservativeResize (v : List K) (n : Nat) (fresh : K) :
    (conservativeResize v n fresh).length = n := by
  simp [conservativeResize]
  omega

theorem inv_empty : Inv (BaxterChain.empty : BaxterChain K) := by
  constructor <;> simp [BaxterChain.empty, getNrOfJoints, getNrOfSegments, jointSegments]

theorem inv_addSegment {c : BaxterChain K} (h : Inv c) (s : Segment K) (u : Uninit K) :
    Inv (c.addSegment s u) := by
  obtain ⟨hj, hs, hq, hl, hu⟩ := h
  simp only [getNrOfJoints, getNrOfSegments, jointSegments] at hj hs hq hl hu
  by_cases hs1 : s.hasJoint = true
  · constructor <;>
      simp [BaxterChain.addSegment, hs1, getNrOfJoints, getNrOfSegments, jointSegments,
        length_conservativeResize, List.countP_append, hj, hs]
  · constructor <;>
      simp [BaxterChain.addSegment, hs1, getNrOfJoints, getNrOfSegments, jointSegments,
        List.countP_append, hj, hs, hq, hl, hu]

theorem segments_eq_of_getLast? {l : List (Segment K)} {back : Segment K}
    (h : l.getLast? = some back) : l = l.dropLast ++ [back] :=
  (List.dropLast_append_getLast? back h).symm

theorem inv_removeSegment {c c1 : BaxterChain K} (h : Inv c) (hr : c.removeSegment = some c1) :
    Inv c1 := by
  obtain ⟨hj, hs, hq, hl, hu⟩ := h
  simp only [getNrOfJoints, getNrOfSegments, jointSegments] at hj hs hq hl hu
  unfold BaxterChain.removeSegment at hr
  cases hb : c.segments.getLast? with
  | none => simp [hb] at hr
  | some back =>
    have hseg := segments_eq_of_getLast? hb
    have hlen : c.segments.length = c.segments.dropLast.length + 1 := by
      conv_lhs => rw [hseg]
      simp
    have hcnt : c.segments.countP Segment.hasJoint =
        c.segments.dropLast.countP Segment.hasJoint + (if back.hasJoint then 1 else 0) := by
      conv_lhs => rw [hseg]
      simp [List.countP_append, List.countP_cons]
    simp only [hb] at hr
    by_cases hbj : back.hasJoint = true
    · simp only [hbj, if_true] at hr hcnt
      split at hr
      · simp at hr
      · injection hr with hr
        subst hr
        constructor <;>
          simp [getNrOfJoints, getNrOfSegments, jointSegments] <;> omega
    · have hbj1 : back.hasJoint = false := by simpa using hbj
      simp only [hbj1, Bool.false_eq_true, if_false] at hr hcnt
      split at hr
      · simp at hr
      · injection hr with hr
        subst hr
        constructor <;>
          simp [getNrOfJoints, getNrOfSegments, jointSegments] <;> omega

end BaxterChain

namespace BaxterChain
variable {K : Type}

theorem inv_removeJointLoop (fuel : Nat) {c c1 : BaxterChain K} (h : Inv c)
    (hr : c.removeJointLoop fuel = some c1) : Inv c1 := by
  induction fuel generalizing c with
  | zero => simp [BaxterChain.removeJointLoop] at hr
  | succ n ih =>
    unfold BaxterChain.removeJointLoop at hr
    cases hb : c.segments.getLast? with
    | none => simp [hb] at hr
    | some back =>
      simp only [hb] at hr
      split at hr
      · exact inv_removeSegment h hr
      · cases hrs : c.removeSegment with
        | none => simp [hrs] at hr
        | some c2 =>
          simp only [hrs, Option.some_bind] at hr
          exact ih (inv_removeSegment h hrs) hr

theorem reachable_inv {c : BaxterChain K} (h : Reachable c) : Inv c := by
  induction h with
  | empty => exact inv_empty
  | addSegment c s u _ ih => exact inv_addSegment ih s u
  | removeSegment c c1 _ _ hr ih => exact inv_removeSegment ih hr
  | removeJoint c c1 _ _ hr ih => exact inv_removeJointLoop _ ih hr

theorem removeSegment_of_inv {c : BaxterChain K} (h : Inv c) (hne : c.segments ≠ []) :
    ∃ c1, c.removeSegment = some c1 ∧ c1.segments = c.segments.dropLast := by
  obtain ⟨hj, hs, -, -, -⟩ := h
  simp only [getNrOfJoints, getNrOfSegments, jointSegments] at hj hs
  cases hb : c.segments.getLast? with
  | none => exact absurd (List.getLast?_eq_none_iff.1 hb) hne
  | some back =>
    have hseg := segments_eq_of_getLast? hb
    have hlen : c.segments.length = c.segments.dropLast.length + 1 := by
      conv_lhs => rw [hseg]
      simp
    have hcnt : c.segments.countP Segment.hasJoint =
        c.segments.dropLast.countP Segment.hasJoint + (if back.hasJoint then 1 else 0) := by
      conv_lhs => rw [hseg]
      simp [List.countP_append, List.countP_cons]
    unfold BaxterChain.removeSegment
    simp only [hb]
    by_cases hbj : back.hasJoint = true
    · simp only [hbj, if_true] at hcnt ⊢
      have hn : ¬ (c.nrOfJoints = 0 ∨ c.nrOfSegments = 0) := by omega
      simp only [hn, if_false]
      exact ⟨_, rfl, rfl⟩
    · have hbj1 : back.hasJoint = false := by simpa using hbj
      simp only [hbj1, Bool.false_eq_true, if_false]
      have hn : ¬ c.nrOfSegments = 0 := by omega
      simp only [hn, if_false]
      exact ⟨_, rfl, rfl⟩

theorem removeJointLoop_of_inv (n : Nat) {c : BaxterChain K} (h : Inv c)
    (hlen : c.segments.length = n) (hj : ∃ s ∈ c.segments, s.hasJoint = true) :
    ∃ c1, c.removeJointLoop (n + 1) = some c1 := by
  induction n generalizing c with
  | zero =>
    obtain ⟨s, hs, -⟩ := hj
    rw [List.length_eq_zero.1 hlen] at hs
    simp at hs
  | succ n ih =>
    have hne : c.segments ≠ [] := by
      intro e; rw [e] at hlen; simp at hlen
    obtain ⟨c2, hrem, hsegs⟩ := removeSegment_of_inv h hne
    cases hb : c.segments.getLast? with
    | none => exact absurd (List.getLast?_eq_none_iff.1 hb) hne
    | some back =>
      have hseg := segments_eq_of_getLast? hb
      unfold BaxterChain.removeJointLoop
      simp only [hb]
      by_cases hbj : back.hasJoint = true
      · simp only [hbj, if_true]
        exact ⟨c2, hrem⟩
      · have hbj1 : back.hasJoint = false := by simpa using hbj
        simp only [hbj1, Bool.false_eq_true, if_false, hrem, Option.some_bind]
        refine ih (inv_removeSegment h hrem) ?_ ?_
        · rw [hsegs, List.length_dropLast, hlen]; rfl
        · obtain ⟨s, hs, hsj⟩ := hj
          rw [hseg, List.mem_append, List.mem_singleton] at hs
          rcases hs with hs | rfl
          · exact ⟨s, by rw [hsegs]; exact hs, hsj⟩
          · exact absurd hsj hbj

/-- C1: in every chain reached from the empty chain by `addSegment`,
`removeSegment` (on a chain with a segment) and `removeJoint` (on a chain with
a joint), `getNrOfJoints()` is the number of stored segments with a joint,
`getNrOfSegments()` the number of stored segments, and `q`, `lb`, `ub` have
`getNrOfJoints()` entries each.  On such a chain `removeSegment` and
`removeJoint` do give a chain when it has a segment, respectively a joint. -/
theorem chain_invariant_of_reachable (c : BaxterChain K) (h : Reachable c) :
    (c.getNrOfJoints = c.segments.countP (fun s => s.jointType != JointType.None) ∧
      c.getNrOfSegments = c.segments.length ∧
      c.q.length = c.getNrOfJoints ∧ c.lb.length = c.getNrOfJoints ∧
      c.ub.length = c.getNrOfJoints) ∧
    (c.segments ≠ [] → ∃ c1, c.removeSegment = some c1) ∧
    ((∃ s ∈ c.segments, s.jointType ≠ JointType.None) → ∃ c1, c.removeJoint = some c1) := by
  have hinv := reachable_inv h
  refine ⟨?_, ?_, ?_⟩
  · obtain ⟨hj, hs, hq, hl, hu⟩ := hinv
    exact ⟨hj, hs, hq, hl, hu⟩
  · intro hne
    obtain ⟨c1, h1, -⟩ := removeSegment_of_inv hinv hne
    exact ⟨c1, h1⟩
  · rintro ⟨s, hs, hsj⟩
    exact removeJointLoop_of_inv _ hinv rfl ⟨s, hs, by simpa [Segment.hasJoint] using hsj⟩

theorem reachable_chainJFJ : Reachable Example.chainJFJ :=
  Reachable.addSegment _ _ _ (Reachable.addSegment _ _ _
    (Reachable.addSegment _ _ _ Reachable.empty))

theorem removeJoint_chainJFJ : Example.chainJFJ.removeJoint = some Example.chainJF := rfl

theorem removeSegment_chainJF : Example.chainJF.removeSegment = some Example.chainJ := rfl

/-- C1 at the chain `jointX`, reached by three `addSegment`, one `removeJoint`
and one `removeSegment`. -/
theorem chain_invariant_of_reachable_witness :
    Reachable Example.chainJ ∧
    ((Example.chainJ.getNrOfJoints =
        Example.chainJ.segments.countP (fun s => s.jointType != JointType.None) ∧
      Example.chainJ.getNrOfSegments = Example.chainJ.segments.length ∧
      Example.chainJ.q.length = Example.chainJ.getNrOfJoints ∧
      Example.chainJ.lb.length = Example.chainJ.getNrOfJoints ∧
      Example.chainJ.ub.length = Example.chainJ.getNrOfJoints) ∧
    (Example.chainJ.segments ≠ [] → ∃ c1, Example.chainJ.removeSegment = some c1) ∧
    ((∃ s ∈ Example.chainJ.segments, s.jointType ≠ JointType.None) →
      ∃ c1, Example.chainJ.removeJoint = some c1)) :=
  have h : Reachable Example.chainJ :=
    Reachable.removeSegment Example.chainJF _
      (Reachable.removeJoint Example.chainJFJ _ reachable_chainJFJ
        ⟨Example.jointX, List.mem_cons_self _ _, rfl⟩
        removeJoint_chainJFJ)
      (List.cons_ne_nil Example.jointX [Example.linkZ])
      removeSegment_chainJF
  ⟨h, chain_invariant_of_reachable Example.chainJ h⟩

theorem setAng_overloads (c : BaxterChain K) (v : List K)
    (f : BaxterChain K → List K → Bool × BaxterChain K)
    (hf : f = setAng ∨ f = setAngEigen ∨ f = setAngJointState) :
    ((f c v).1 = false ↔ v.length ≠ c.getNrOfJoints) ∧
    ((f c v).1 = false → (f c v).2.q = c.q) ∧
    ((f c v).1 = true → (f c v).2.q = v) ∧
    (f c v).2.lb = c.lb ∧ (f c v).2.ub = c.ub ∧ (f c v).2.segments = c.segments ∧
    (f c v).2.nrOfJoints = c.nrOfJoints ∧ (f c v).2.nrOfSegments = c.nrOfSegments := by
  by_cases hv : v.length = c.getNrOfJoints
  · rcases hf with rfl | rfl | rfl <;>
      simp [setAng, setAngEigen, setAngJointState, hv]
  · rcases hf with rfl | rfl | rfl <;>
      simp [setAng, setAngEigen, setAngJointState, hv]

/-- C6: `setAng` returns false exactly when the length of the vector differs
from `getNrOfJoints()`; on false `q` is unchanged, on true `q` is the vector;
`lb`, `ub`, the segments and the counters are unchanged.  The same holds for
the overloads taking an Eigen vector and a joint state. -/
theorem setAng_atomic (c : BaxterChain K) (v : List K) :
    (((c.setAng v).1 = false ↔ v.length ≠ c.getNrOfJoints) ∧
      ((c.setAng v).1 = false → (c.setAng v).2.q = c.q) ∧
      ((c.setAng v).1 = true → (c.setAng v).2.q = v) ∧
      (c.setAng v).2.lb = c.lb ∧ (c.setAng v).2.ub = c.ub ∧
      (c.setAng v).2.segments = c.segments ∧
      (c.setAng v).2.nrOfJoints = c.nrOfJoints ∧
      (c.setAng v).2.nrOfSegments = c.nrOfSegments) ∧
    (((c.setAngEigen v).1 = false ↔ v.length ≠ c.getNrOfJoints) ∧
      ((c.setAngEigen v).1 = false → (c.setAngEigen v).2.q = c.q) ∧
      ((c.setAngEigen v).1 = true → (c.setAngEigen v).2.q = v) ∧
      (c.setAngEigen v).2.lb = c.lb ∧ (c.setAngEigen v).2.ub = c.ub ∧
      (c.setAngEigen v).2.segments = c.segments ∧
      (c.setAngEigen v).2.nrOfJoints = c.nrOfJoints ∧
      (c.setAngEigen v).2.nrOfSegments = c.nrOfSegments) ∧
    (((c.setAngJointState v).1 = false ↔ v.length ≠ c.getNrOfJoints) ∧
      ((c.setAngJointState v).1 = false → (c.setAngJointState v).2.q = c.q) ∧
      ((c.setAngJointState v).1 = true → (c.setAngJointState v).2.q = v) ∧
      (c.setAngJointState v).2.lb = c.lb ∧ (c.setAngJointState v).2.ub = c.ub ∧
      (c.setAngJointState v).2.segments = c.segments ∧
      (c.setAngJointState v).2.nrOfJoints = c.nrOfJoints ∧
      (c.setAngJointState v).2.nrOfSegments = c.nrOfSegments) :=
  ⟨setAng_overloads c v setAng (Or.inl rfl),
   setAng_overloads c v setAngEigen (Or.inr (Or.inl rfl)),
   setAng_overloads c v setAngJointState (Or.inr (Or.inr rfl))⟩

end BaxterChain

namespace AvoidanceHandler
variable {K : Type} [LinearOrderedField K]

theorem selectLoop_spec (l : List (CollisionPoint K)) (i : Nat) (m : K) (idx : Int) :
    (selectLoop l i (m, idx) = (m, idx) ∧ ∀ cp ∈ l, ¬ (cp.mag > 1 / 100 ∧ cp.mag > m)) ∨
    (∃ k cp, l[k]? = some cp ∧ selectLoop l i (m, idx) = (cp.mag, ((i + k : Nat) : Int)) ∧
      cp.mag > 1 / 100 ∧ cp.mag > m ∧ (∀ c ∈ l, c.mag ≤ cp.mag) ∧
      (∀ c ∈ l.take k, c.mag < cp.mag)) := by
  induction l generalizing i m idx with
  | nil => left; simp [selectLoop]
  | cons a rest ih =>
    by_cases h1 : a.mag > 1 / 100 ∧ a.mag > m
    · have hstep : selectLoop (a :: rest) i (m, idx) = selectLoop rest (i + 1) (a.mag, (i : Int)) := by
        simp only [selectLoop]
        rw [if_pos h1.1, if_pos h1.2]
      right
      rcases ih (i + 1) a.mag (i : Int) with ⟨heq, hall⟩ | ⟨k, cp, hk, heq, hgt, hgm, hle, hlt⟩
      · refine ⟨0, a, by simp, ?_, h1.1, h1.2, ?_, ?_⟩
        · rw [hstep, heq]; simp
        · intro c hc
          rcases List.mem_cons.1 hc with rfl | hc
          · exact le_refl _
          · have := hall c hc
            by_contra hcon
            push_neg at hcon
            exact this ⟨lt_trans h1.1 hcon, hcon⟩
        · simp
      · refine ⟨k + 1, cp, by simpa using hk, ?_, hgt, lt_trans h1.2 hgm, ?_, ?_⟩
        · rw [hstep, heq]; congr 2; omega
        · intro c hc
          rcases List.mem_cons.1 hc with rfl | hc
          · exact le_of_lt hgm
          · exact hle c hc
        · intro c hc
          rw [List.take_succ_cons] at hc
          rcases List.mem_cons.1 hc with rfl | hc
          · exact hgm
          · exact hlt c hc
    · have hstep : selectLoop (a :: rest) i (m, idx) = selectLoop rest (i + 1) (m, idx) := by
        by_cases h2 : a.mag > 1 / 100
        · have h3 : ¬ a.mag > m := fun h => h1 ⟨h2, h⟩
          simp only [selectLoop]
          rw [if_pos h2, if_neg h3]
        · simp only [selectLoop]
          rw [if_neg h2]
      rcases ih (i + 1) m idx with ⟨heq, hall⟩ | ⟨k, cp, hk, heq, hgt, hgm, hle, hlt⟩
      · left
        refine ⟨by rw [hstep, heq], ?_⟩
        intro c hc
        rcases List.mem_cons.1 hc with rfl | hc
        · exact h1
        · exact hall c hc
      · right
        have ha : a.mag < cp.mag := by
          by_cases h2 : a.mag > 1 / 100
          · have h3 : ¬ a.mag > m := fun h => h1 ⟨h2, h⟩
            exact lt_of_le_of_lt (not_lt.1 h3) hgm
          · exact lt_of_le_of_lt (not_lt.1 h2) hgt
        refine ⟨k + 1, cp, by simpa using hk, ?_, hgt, hgm, ?_, ?_⟩
        · rw [hstep, heq]; congr 2; omega
        · intro c hc
          rcases List.mem_cons.1 hc with rfl | hc
          · exact le_of_lt ha
          · exact hle c hc
        · intro c hc
          rw [List.take_succ_cons] at hc
          rcases List.mem_cons.1 hc with rfl | hc
          · exact ha
          · exact hlt c hc

/-- C5: the selection loop registers no collision point exactly when no
candidate has a magnitude above 0.01; otherwise it registers the candidate
(and its chain) of largest magnitude, the first one among equals.  The
magnitudes 0.005, 0.3, 0.9 select index 2 and 0.001, 0.004 select none. -/
theorem registerSelected_max (cands : List (CollisionPoint K × BaxterChain K))
    (collPoints : List (CollisionPoint K)) (ctrlChains : List (BaxterChain K)) :
    (registerSelected (cands.map Prod.fst) (cands.map Prod.snd) collPoints ctrlChains
        = some (collPoints, ctrlChains) ↔ ∀ c ∈ cands, ¬ c.1.mag > 1 / 100) ∧
    ((∃ c ∈ cands, c.1.mag > 1 / 100) →
      ∃ (k : Nat) (c : CollisionPoint K × BaxterChain K), cands[k]? = some c ∧ selectedIndex (cands.map Prod.fst) = (k : Int) ∧
        registerSelected (cands.map Prod.fst) (cands.map Prod.snd) collPoints ctrlChains
          = some (collPoints ++ [c.1], ctrlChains ++ [c.2]) ∧
        c.1.mag > 1 / 100 ∧
        (∀ d ∈ cands, d.1.mag ≤ c.1.mag) ∧ (∀ d ∈ cands.take k, d.1.mag < c.1.mag)) ∧
    selectedIndex [(⟨Vector.Zero, Vector.Zero, 5 / 1000, 0⟩ : CollisionPoint K),
      ⟨Vector.Zero, Vector.Zero, 3 / 10, 0⟩, ⟨Vector.Zero, Vector.Zero, 9 / 10, 0⟩] = 2 ∧
    selectedIndex [(⟨Vector.Zero, Vector.Zero, 1 / 1000, 0⟩ : CollisionPoint K),
      ⟨Vector.Zero, Vector.Zero, 4 / 1000, 0⟩] = -1 := by
  have key := selectLoop_spec (cands.map Prod.fst) 0 (0 : K) (-1)
  have hA : (selectLoop (cands.map Prod.fst) 0 ((0 : K), -1) = (0, -1) ∧
      ∀ cp ∈ cands.map Prod.fst, ¬ (cp.mag > 1 / 100 ∧ cp.mag > 0)) →
      registerSelected (cands.map Prod.fst) (cands.map Prod.snd) collPoints ctrlChains
        = some (collPoints, ctrlChains) ∧ ∀ c ∈ cands, ¬ c.1.mag > 1 / 100 := by
    rintro ⟨heq, hall⟩
    refine ⟨by simp [registerSelected, selectedIndex, heq], ?_⟩
    intro c hc hgt
    exact hall c.1 (List.mem_map_of_mem _ hc) ⟨hgt, lt_trans (by norm_num) hgt⟩
  have hB : (∃ k cp, (cands.map Prod.fst)[k]? = some cp ∧
      selectLoop (cands.map Prod.fst) 0 ((0 : K), -1) = (cp.mag, ((0 + k : Nat) : Int)) ∧
      cp.mag > 1 / 100 ∧ cp.mag > 0 ∧ (∀ c ∈ cands.map Prod.fst, c.mag ≤ cp.mag) ∧
      (∀ c ∈ (cands.map Prod.fst).take k, c.mag < cp.mag)) →
      ∃ (k : Nat) (c : CollisionPoint K × BaxterChain K), cands[k]? = some c ∧ selectedIndex (cands.map Prod.fst) = (k : Int) ∧
        registerSelected (cands.map Prod.fst) (cands.map Prod.snd) collPoints ctrlChains
          = some (collPoints ++ [c.1], ctrlChains ++ [c.2]) ∧
        c.1.mag > 1 / 100 ∧
        (∀ d ∈ cands, d.1.mag ≤ c.1.mag) ∧ (∀ d ∈ cands.take k, d.1.mag < c.1.mag) := by
    rintro ⟨k, cp, hk, heq, hgt, -, hle, hlt⟩
    rw [List.getElem?_map] at hk
    cases hc : cands[k]? with
    | none => simp [hc] at hk
    | some c =>
      simp only [hc, Option.map_some', Option.some.injEq] at hk
      subst hk
      have hidx : selectedIndex (cands.map Prod.fst) = (k : Int) := by
        simp [selectedIndex, heq]
      refine ⟨k, c, hc, hidx, ?_, hgt, ?_, ?_⟩
      · have hne : (k : Int) ≠ -1 := by omega
        simp only [registerSelected, hidx, hne, ne_eq, not_false_eq_true, if_true,
          Int.toNat_ofNat, List.getElem?_map, hc, Option.map_some']
      · intro d hd
        exact hle d.1 (List.mem_map_of_mem _ hd)
      · intro d hd
        refine hlt d.1 ?_
        rw [← List.map_take]
        exact List.mem_map_of_mem _ hd
  refine ⟨⟨?_, ?_⟩, ?_, ?_, ?_⟩
  · intro hreg
    rcases key with h | h
    · exact (hA h).2
    · obtain ⟨k, c, -, -, hreg2, -⟩ := hB h
      rw [hreg2] at hreg
      have := congrArg (fun o => (o.map (fun r => r.1.length))) hreg
      simp at this
  · intro hall
    rcases key with h | h
    · exact (hA h).1
    · obtain ⟨k, c, hk, -, -, hgt, -⟩ := hB h
      exact absurd hgt (hall c (List.getElem?_mem hk))
  · rintro ⟨c, hc, hgt⟩
    rcases key with h | h
    · exact absurd hgt ((hA h).2 c hc)
    · exact hB h
  · simp only [selectedIndex, selectLoop]
    norm_num
  · simp only [selectedIndex, selectLoop]
    norm_num

end AvoidanceHandler

namespace CtrlThread

/-- C9, as the code has it: with the debug flag off the solve result is usable
exactly for the exit codes 0 and -4, with the debug flag on exactly for the
exit code 0; the call returns true exactly when the joint angles were
available, the exit code is usable, and (debug flag off) the velocities were
sent. -/
theorem goToPoseNoCheck_exit_code (is_debug noRobot waitForJointAngles : Bool)
    (exit_code : Int) (goToJointConfNoCheck : Bool) :
    (goToPoseNoCheck is_debug noRobot waitForJointAngles exit_code goToJointConfNoCheck = true ↔
      (noRobot = true ∨ waitForJointAngles = true) ∧
      (exit_code = 0 ∨ (exit_code = -4 ∧ is_debug = false)) ∧
      (is_debug = true ∨ goToJointConfNoCheck = true)) ∧
    (goToPoseNoCheck false true true exit_code true = true ↔ exit_code = 0 ∨ exit_code = -4) ∧
    (goToPoseNoCheck true true true exit_code true = true ↔ exit_code = 0) := by
  refine ⟨?_, ?_, ?_⟩
  · by_cases h0 : exit_code = 0
    · subst h0
      cases is_debug <;> cases noRobot <;> cases waitForJointAngles <;>
        cases goToJointConfNoCheck <;> simp [goToPoseNoCheck]
    · by_cases h4 : exit_code = -4
      · subst h4
        cases is_debug <;> cases noRobot <;> cases waitForJointAngles <;>
          cases goToJointConfNoCheck <;> simp [goToPoseNoCheck]
      · cases is_debug <;> cases noRobot <;> cases waitForJointAngles <;>
          cases goToJointConfNoCheck <;> simp [goToPoseNoCheck, h0, h4]
  · by_cases h0 : exit_code = 0
    · subst h0; simp [goToPoseNoCheck]
    · by_cases h4 : exit_code = -4
      · subst h4; simp [goToPoseNoCheck]
      · simp [goToPoseNoCheck, h0, h4]
  · by_cases h0 : exit_code = 0
    · subst h0; simp [goToPoseNoCheck]
    · simp [goToPoseNoCheck, h0]

/-- C9 fails as stated: with the debug flag on and every other step
succeeding, the exit code -4 makes `goToPoseNoCheck` return false. -/
theorem goToPoseNoCheck_debug_time_limit :
    ¬ (∀ (is_debug : Bool) (exit_code : Int),
        goToPoseNoCheck is_debug true true exit_code true = true ↔
          exit_code = 0 ∨ exit_code = -4) := by
  intro h
  have h1 := (h true (-4)).2 (Or.inr rfl)
  simp [goToPoseNoCheck] at h1

end CtrlThread

namespace AvoidanceHandler
variable {K : Type} [LinearOrderedField K]

/-- C10 on the code: for a collision point whose normal is the zero vector,
`computeFoR` returns false and the identity, and the constructor still records
the point and a control chain ending in the identity frame; the selection
loop then registers such a point of magnitude 1/2. -/
theorem recordCandidate_zero_normal (sqrt : K → K) (customChain : BaxterChain K)
    (u : Uninit K) (tmpCP : List (CollisionPoint K)) (tmpCC : List (BaxterChain K))
    (x : Vector K) (mag dist : K) :
    computeFoR sqrt x Vector.Zero = (false, 1) ∧
    recordCandidate sqrt (true, ⟨x, Vector.Zero, mag, dist⟩) customChain u tmpCP tmpCC =
      (tmpCP ++ [⟨x, Vector.Zero, mag, dist⟩],
       tmpCC ++ [customChain.addSegment (fixedSegment (toKDLFrame 1)) u]) ∧
    registerSelected
      (recordCandidate sqrt (true, ⟨x, Vector.Zero, 1 / 2, dist⟩) customChain u [] []).1
      (recordCandidate sqrt (true, ⟨x, Vector.Zero, 1 / 2, dist⟩) customChain u [] []).2 [] [] =
      some ([⟨x, Vector.Zero, 1 / 2, dist⟩],
            [customChain.addSegment (fixedSegment (toKDLFrame 1)) u]) := by
  have h1 : computeFoR sqrt x (Vector.Zero : Vector K) = (false, 1) := by
    simp [computeFoR]
  refine ⟨h1, ?_, ?_⟩
  · simp [recordCandidate, h1]
  · have hsel : selectedIndex [(⟨x, Vector.Zero, 1 / 2, dist⟩ : CollisionPoint K)] = 0 := by
      simp only [selectedIndex, selectLoop]
      norm_num
    simp only [recordCandidate, h1, if_true, List.nil_append, registerSelected, hsel]
    simp

end AvoidanceHandler

namespace BaxterChain
variable {K : Type} [Field K]

theorem getElem?_take_eq_getD (q : List K) (m j : Nat) (h : j < (q.take m).length) :
    (q.take m)[j]? = some (q.getD j 0) := by
  rw [List.length_take] at h
  have h1 : j < m := lt_of_lt_of_le h (min_le_left _ _)
  have h2 : j < q.length := lt_of_lt_of_le h (min_le_right _ _)
  rw [List.getElem?_take_of_lt h1, List.getD_eq_getElem?_getD, List.getElem?_eq_getElem h2]
  rfl

theorem JntToCartLoop_eq (c : BaxterChain K) (q : List K) (m : Nat) (n i j : Nat) (p : Frame K)
    (hn : i + n ≤ c.segments.length)
    (hq : j + ((c.segments.drop i).take n).countP Segment.hasJoint ≤ (q.take m).length) :
    JntToCartLoop c (q.take m) n i j p =
      some ((segmentPoses q ((c.segments.drop i).take n) j).foldl Frame.mul p) := by
  induction n generalizing i j p with
  | zero => simp [JntToCartLoop, segmentPoses]
  | succ n ih =>
    have hi : i < c.segments.length := by omega
    have hdrop : c.segments.drop i = c.segments[i] :: c.segments.drop (i + 1) :=
      List.drop_eq_getElem_cons hi
    have hget : c.getSegment i = some c.segments[i] := by
      simp [getSegment, List.getElem?_eq_getElem hi]
    rw [hdrop, List.take_succ_cons] at hq ⊢
    simp only [JntToCartLoop, hget, segmentPoses]
    by_cases hs : (c.segments[i]).hasJoint = true
    · rw [List.countP_cons_of_pos _ _ hs] at hq
      simp only [hs, if_true]
      have hj : j < (q.take m).length := by omega
      rw [getElem?_take_eq_getD q m j hj]
      simp only [List.foldl_cons]
      exact ih (i + 1) (j + 1) _ (by omega) (by omega)
    · rw [List.countP_cons_of_neg _ _ hs] at hq
      simp only [hs, Bool.false_eq_true, if_false, List.foldl_cons]
      exact ih (i + 1) j _ (by omega) hq

omit [Field K] in
theorem segmentOfJoint_spec (segs : List (Segment K)) (i : Nat)
    (h : i < segs.countP Segment.hasJoint) :
    ∃ k, segmentOfJoint segs i = some k ∧ k < segs.length ∧
      (segs.take (k + 1)).countP Segment.hasJoint = i + 1 := by
  induction segs generalizing i with
  | nil => simp at h
  | cons s rest ih =>
    by_cases hs : s.hasJoint = true
    · rw [List.countP_cons_of_pos _ _ hs] at h
      cases i with
      | zero =>
        refine ⟨0, by simp [segmentOfJoint, hs], by simp, ?_⟩
        simp [List.countP_cons_of_pos, hs]
      | succ i =>
        obtain ⟨k, hk, hlt, hc⟩ := ih i (by omega)
        refine ⟨k + 1, by simp [segmentOfJoint, hs, hk], by simpa using hlt, ?_⟩
        rw [List.take_succ_cons, List.countP_cons_of_pos _ _ hs, hc]
    · rw [List.countP_cons_of_neg _ _ hs] at h
      obtain ⟨k, hk, hlt, hc⟩ := ih i h
      refine ⟨k + 1, by simp [segmentOfJoint, hs, hk], by simpa using hlt, ?_⟩
      rw [List.take_succ_cons, List.countP_cons_of_neg _ _ hs, hc]

omit [Field K] in
theorem getHSegNr_eq (c : BaxterChain K) (target : Nat) (l : List (Segment K)) :
    ∀ (sn jc d k fuel : Nat), c.segments.drop sn = l → segmentOfJoint l d = some k →
      jc + d + 1 = target → k + 2 ≤ fuel →
      getHSegNr c target fuel jc sn = some (sn + k + 1) := by
  induction l with
  | nil => intro sn jc d k fuel _ hk; simp [segmentOfJoint] at hk
  | cons s rest ih =>
    intro sn jc d k fuel hdrop hk htarget hfuel
    have hget : c.getSegment sn = some s := by
      have := List.getElem?_drop c.segments sn 0
      rw [hdrop] at this
      simpa [getSegment] using this.symm
    have hrest : c.segments.drop (sn + 1) = rest := by
      rw [← List.tail_drop, hdrop]; rfl
    obtain ⟨f1, rfl⟩ : ∃ f1, fuel = f1 + 1 := ⟨fuel - 1, by omega⟩
    have hlt : jc < target := by omega
    simp only [getHSegNr, hlt, if_true, hget]
    by_cases hs : s.hasJoint = true
    · simp only [hs, if_true]
      cases d with
      | zero =>
        simp only [segmentOfJoint, hs, if_true, Option.some.injEq] at hk
        subst hk
        obtain ⟨f2, rfl⟩ : ∃ f2, f1 = f2 + 1 := ⟨f1 - 1, by omega⟩
        have hnlt : ¬ (jc + 1 < target) := by omega
        simp [getHSegNr, hnlt]
      | succ d =>
        simp only [segmentOfJoint, hs, if_true] at hk
        cases hk1 : segmentOfJoint rest d with
        | none => simp [hk1] at hk
        | some k1 =>
          simp only [hk1, Option.map_some', Option.some.injEq] at hk
          subst hk
          rw [ih (sn + 1) (jc + 1) d k1 f1 hrest hk1 (by omega) (by omega)]
          congr 1; omega
    · simp only [hs, Bool.false_eq_true, if_false]
      simp only [segmentOfJoint, hs, Bool.false_eq_true, if_false] at hk
      cases hk1 : segmentOfJoint rest d with
      | none => simp [hk1] at hk
      | some k1 =>
        simp only [hk1, Option.map_some', Option.some.injEq] at hk
        subst hk
        rw [ih (sn + 1) jc d k1 f1 hrest hk1 (by omega) (by omega)]
        congr 1; omega

theorem getHFrame_eq (c : BaxterChain K) (_i : Nat) (hinv : Inv c)
    (hi : _i < c.getNrOfJoints) :
    ∃ k, segmentOfJoint c.segments _i = some k ∧
      getHFrame c _i = some (poseProduct c.q
        (if _i + 1 = c.getNrOfJoints then c.segments else c.segments.take (k + 1))) := by
  obtain ⟨hj, hs, hq, -, -⟩ := hinv
  simp only [jointSegments] at hj
  obtain ⟨k, hk, hklt, hcount⟩ := segmentOfJoint_spec c.segments _i (by rw [← hj]; exact hi)
  refine ⟨k, hk, ?_⟩
  have hqlen : ¬ (c.q.length < _i + 1) := by omega
  have htake : (c.q.take (_i + 1)).length = _i + 1 := by
    rw [List.length_take]; omega
  simp only [getHFrame, hi, not_true_eq_false, if_false, hqlen]
  by_cases hlast : _i + 1 = c.getNrOfJoints
  · simp only [hlast, if_true]
    have hloop := JntToCartLoop_eq c c.q c.getNrOfJoints c.segments.length 0 0 Frame.Identity
      (by omega) (by
        rw [List.drop_zero, List.take_length, ← hj, List.length_take]
        omega)
    rw [List.drop_zero, List.take_length] at hloop
    simp [JntToCart, hs, hloop, poseProduct]
  · simp only [hlast, if_false]
    rw [getHSegNr_eq c (_i + 1) c.segments 0 0 _i k (c.segments.length + 1) rfl hk (by omega)
      (by omega)]
    have hloop := JntToCartLoop_eq c c.q (_i + 1) (k + 1) 0 0 Frame.Identity
      (by omega) (by rw [List.drop_zero, hcount, htake]; omega)
    rw [List.drop_zero] at hloop
    have hle : ¬ (k + 1 > c.getNrOfSegments) := by omega
    have hcast : ¬ (((k + 1 : Nat) : Int) < 0) := by omega
    simp only [Nat.zero_add]
    simp only [JntToCart, hcast, if_false, Int.toNat_ofNat, hle, hloop,
      Option.map_some', poseProduct]

/-- C8, as the code has it: in a chain that satisfies the invariant, for a
joint `i` that is not the last one `getH(i)` is the left-to-right product of
the poses of the segments `0..k`, `k` being the index of the segment that
carries joint `i`; for the last joint it is the product of the poses of all
segments, those after the last joint included.  Segments with a joint
contribute their pose at the stored angle, the others their fixed pose. -/
theorem getH_eq_poseProduct (c : BaxterChain K) (_i : Nat) (hinv : Inv c)
    (hi : _i < c.getNrOfJoints) :
    ∃ k, segmentOfJoint c.segments _i = some k ∧
      getH c _i = some (KDLFrameToEigen (poseProduct c.q
        (if _i + 1 = c.getNrOfJoints then c.segments else c.segments.take (k + 1)))) := by
  obtain ⟨k, hk, hframe⟩ := getHFrame_eq c _i hinv hi
  exact ⟨k, hk, by simp [getH, hframe]⟩

/-- C8 (amended) at joint 0 of the chain `jointX, linkZ, jointZ`. -/
theorem getH_eq_poseProduct_witness :
    Inv Example.chainJFJ ∧ 0 < Example.chainJFJ.getNrOfJoints ∧
    ∃ k, segmentOfJoint Example.chainJFJ.segments 0 = some k ∧
      getH Example.chainJFJ 0 = some (KDLFrameToEigen (poseProduct Example.chainJFJ.q
        (if 0 + 1 = Example.chainJFJ.getNrOfJoints then Example.chainJFJ.segments
         else Example.chainJFJ.segments.take (k + 1)))) :=
  ⟨reachable_inv reachable_chainJFJ, by decide,
   getH_eq_poseProduct Example.chainJFJ 0 (reachable_inv reachable_chainJFJ) (by decide)⟩

/-- C8 fails as stated: in the chain `jointX, linkZ` joint 0 is carried by
segment 0, and `getH(0)` is the product of the poses of both segments, not of
segment 0 alone. -/
theorem getH_last_joint_takes_all_segments :
    ¬ (∀ (c : BaxterChain ℚ) (_i : Nat), Inv c → _i < c.getNrOfJoints →
        ∃ k, segmentOfJoint c.segments _i = some k ∧
          getH c _i = some (KDLFrameToEigen (poseProduct c.q (c.segments.take (k + 1))))) := by
  intro h
  have hinv : Inv Example.chainJF :=
    inv_addSegment (inv_addSegment inv_empty _ _) _ _
  obtain ⟨k, hk, hH⟩ := h Example.chainJF 0 hinv (by decide)
  have hk0 : segmentOfJoint Example.chainJF.segments 0 = some 0 := rfl
  rw [hk0, Option.some.injEq] at hk
  subst hk
  obtain ⟨k1, -, hframe⟩ := getHFrame_eq Example.chainJF 0 hinv (by decide)
  have hlast : 0 + 1 = Example.chainJF.getNrOfJoints := rfl
  rw [if_pos hlast] at hframe
  simp only [getH, hframe, Option.map_some', Option.some.injEq] at hH
  have hz := congrFun (congrFun hH 2) 3
  simp [KDLFrameToEigen, poseProduct, segmentPoses, Example.chainJF, Example.chainJ,
    Example.jointX, Example.linkZ, Example.transSegment, Example.fresh,
    AvoidanceHandler.fixedSegment, addSegment, BaxterChain.empty, conservativeResize,
    Segment.hasJoint, Frame.mul, Frame.Identity, Rotation.mul, Rotation.Identity,
    Rotation.mulVec, Vector.add, Vector.Zero] at hz

end BaxterChain

namespace BaxterChain
variable {K : Type} [Field K]

theorem length_changeRefPoint (jac : Jacobian K) (v : Vector K) :
    (changeRefPoint jac v).length = jac.length := by
  simp [changeRefPoint]

theorem jacStep_length (q : List K) (st : Frame K × Nat × Jacobian K) (seg : Segment K) :
    (jacStep q st seg).2.2.length = st.2.2.length := by
  unfold jacStep
  split_ifs <;> simp [length_changeRefPoint]

theorem JntToJacLoop_eq (c : BaxterChain K) (q : List K) (n i j : Nat) (T : Frame K)
    (jac : Jacobian K) (hn : i + n ≤ c.segments.length)
    (hq : j + ((c.segments.drop i).take n).countP Segment.hasJoint ≤ q.length)
    (hjac : j + ((c.segments.drop i).take n).countP Segment.hasJoint ≤ jac.length) :
    JntToJacLoop c q n i j j T jac =
      some (((c.segments.drop i).take n).foldl (jacStep q) (T, j, jac)).2.2 := by
  induction n generalizing i j T jac with
  | zero => simp [JntToJacLoop]
  | succ n ih =>
    have hi : i < c.segments.length := by omega
    have hdrop : c.segments.drop i = c.segments[i] :: c.segments.drop (i + 1) :=
      List.drop_eq_getElem_cons hi
    have hget : c.getSegment i = some c.segments[i] := by
      simp [getSegment, List.getElem?_eq_getElem hi]
    rw [hdrop, List.take_succ_cons] at hq hjac ⊢
    simp only [JntToJacLoop, hget, List.foldl_cons]
    by_cases hs : (c.segments[i]).hasJoint = true
    · rw [List.countP_cons_of_pos _ _ hs] at hq hjac
      have hj : j < q.length := by omega
      have hqj : q[j]? = some (q.getD j 0) := by
        rw [List.getD_eq_getElem?_getD, List.getElem?_eq_getElem hj]; rfl
      have hcol : j < (changeRefPoint jac
          ((T.mul (c.segments[i].pose (q.getD j 0))).p.sub T.p)).length := by
        rw [length_changeRefPoint]; omega
      simp only [hs, if_true, hqj, setColumn, hcol, jacStep]
      exact ih (i + 1) (j + 1) _ _ (by omega) (by omega)
        (by rw [List.length_set, length_changeRefPoint]; omega)
    · rw [List.countP_cons_of_neg _ _ hs] at hq hjac
      simp only [hs, Bool.false_eq_true, if_false, jacStep]
      exact ih (i + 1) j _ _ (by omega) hq (by rw [length_changeRefPoint]; omega)

theorem JntToJac_eq_jacSweep (c : BaxterChain K) (q : List K) (hinv : Inv c)
    (hq : q.length = c.getNrOfJoints) :
    JntToJac c q c.getNrOfJoints (-1) =
      some (true, (jacSweep q c.getNrOfJoints c.segments).2.2) := by
  obtain ⟨hj, hs, -, -, -⟩ := hinv
  simp only [jointSegments] at hj
  have hloop := JntToJacLoop_eq c q c.segments.length 0 0 Frame.Identity
    (SetToZero c.getNrOfJoints) (by omega)
    (by rw [List.drop_zero, List.take_length, ← hj, hq]; omega)
    (by rw [List.drop_zero, List.take_length, ← hj]; simp [SetToZero])
  rw [List.drop_zero, List.take_length] at hloop
  simp [JntToJac, hq, hs, hloop, jacSweep]

theorem JntToCart_eq_poseProduct (c : BaxterChain K) (q : List K) (hinv : Inv c)
    (hq : q.length = c.getNrOfJoints) :
    JntToCart c q (-1) = some (true, poseProduct q c.segments) := by
  obtain ⟨hj, hs, -, -, -⟩ := hinv
  simp only [jointSegments] at hj
  have hloop := JntToCartLoop_eq c q q.length c.segments.length 0 0 Frame.Identity
    (by omega) (by rw [List.drop_zero, List.take_length, List.take_length, ← hj, hq]; omega)
  rw [List.drop_zero, List.take_length, List.take_length] at hloop
  simp [JntToCart, hs, hloop, poseProduct]

/-- The pose that a segment contributes when `j` joints come before it. -/
theorem segmentPoses_append (q : List K) (segs : List (Segment K)) (s : Segment K) (j : Nat) :
    segmentPoses q (segs ++ [s]) j =
      segmentPoses q segs j ++
        [if s.hasJoint then s.pose (q.getD (j + segs.countP Segment.hasJoint) 0)
         else s.pose 0] := by
  induction segs generalizing j with
  | nil => by_cases hs : s.hasJoint = true <;> simp [segmentPoses, hs]
  | cons a segs ih =>
    by_cases ha : a.hasJoint = true
    · have e : j + 1 + segs.countP Segment.hasJoint = j + (segs.countP Segment.hasJoint + 1) := by
        omega
      rw [List.cons_append, List.countP_cons_of_pos _ _ ha]
      simp only [segmentPoses, ha, if_true]
      rw [ih (j + 1), e]
      rfl
    · rw [List.cons_append, List.countP_cons_of_neg _ _ ha]
      simp only [segmentPoses, ha, Bool.false_eq_true, if_false]
      rw [ih j]
      rfl

theorem poseProduct_append (q : List K) (segs : List (Segment K)) (s : Segment K) :
    poseProduct q (segs ++ [s]) =
      (poseProduct q segs).mul
        (if s.hasJoint then s.pose (q.getD (segs.countP Segment.hasJoint) 0) else s.pose 0) := by
  simp [poseProduct, segmentPoses_append, List.foldl_append]

theorem segmentPoses_set (q : List K) (segs : List (Segment K)) (j k : Nat) (t : K)
    (h : j + segs.countP Segment.hasJoint ≤ k) :
    segmentPoses (q.set k t) segs j = segmentPoses q segs j := by
  induction segs generalizing j with
  | nil => rfl
  | cons a segs ih =>
    by_cases ha : a.hasJoint = true
    · rw [List.countP_cons_of_pos _ _ ha] at h
      have hjk : k ≠ j := by omega
      simp only [segmentPoses, ha, if_true, ih (j + 1) (by omega)]
      rw [List.getD_eq_getElem?_getD, List.getD_eq_getElem?_getD, List.getElem?_set_ne hjk]
    · rw [List.countP_cons_of_neg _ _ ha] at h
      simp only [segmentPoses, ha, Bool.false_eq_true, if_false, ih j h]

theorem poseProduct_set (q : List K) (segs : List (Segment K)) (k : Nat) (t : K)
    (h : segs.countP Segment.hasJoint ≤ k) :
    poseProduct (q.set k t) segs = poseProduct q segs := by
  simp [poseProduct, segmentPoses_set q segs 0 k t (by omega)]

theorem jacSweep_append (q : List K) (N : Nat) (segs : List (Segment K)) (s : Segment K) :
    jacSweep q N (segs ++ [s]) = jacStep q (jacSweep q N segs) s := by
  simp [jacSweep, List.foldl_append]

theorem jacSweep_fst (q : List K) (N : Nat) (segs : List (Segment K)) :
    (jacSweep q N segs).1 = poseProduct q segs ∧
    (jacSweep q N segs).2.1 = segs.countP Segment.hasJoint ∧
    (jacSweep q N segs).2.2.length = N := by
  induction segs using List.reverseRecOn with
  | nil => simp [jacSweep, poseProduct, segmentPoses, SetToZero]
  | append_singleton segs s ih =>
    obtain ⟨h1, h2, h3⟩ := ih
    rw [jacSweep_append, poseProduct_append, List.countP_append]
    refine ⟨?_, ?_, ?_⟩
    · unfold jacStep
      by_cases hs : s.hasJoint = true <;> simp [hs, h1, h2]
    · unfold jacStep
      by_cases hs : s.hasJoint = true <;> simp [hs, h2, List.countP_cons]
    · rw [jacStep_length, h3]

end BaxterChain

namespace KDL

theorem vecDeriv_const (v : Vector ℝ) (t : ℝ) : VecDeriv (fun _ => v) Vector.Zero t :=
  ⟨hasDerivAt_const _ _, hasDerivAt_const _ _, hasDerivAt_const _ _⟩

theorem rotDeriv_const (R : Rotation ℝ) (w : Vector ℝ) (S : Rotation ℝ) (hw : w = Vector.Zero)
    (t : ℝ) : RotDeriv (fun _ => R) (Rotation.skewMul w S) t := by
  subst hw
  simp only [RotDeriv, Rotation.skewMul, Vector.Zero, zero_mul, sub_zero]
  exact ⟨hasDerivAt_const _ _, hasDerivAt_const _ _, hasDerivAt_const _ _,
    hasDerivAt_const _ _, hasDerivAt_const _ _, hasDerivAt_const _ _,
    hasDerivAt_const _ _, hasDerivAt_const _ _, hasDerivAt_const _ _⟩

/-- The origin of `F(s) * C` for a moving frame `F` and a fixed frame `C`. -/
theorem vecDeriv_mul_const_frame {F : ℝ → Frame ℝ} {D : Rotation ℝ} {v : Vector ℝ} {t : ℝ}
    (hM : RotDeriv (fun s => (F s).M) D t) (hp : VecDeriv (fun s => (F s).p) v t)
    (C : Frame ℝ) :
    VecDeriv (fun s => ((F s).mul C).p) ((D.mulVec C.p).add v) t := by
  obtain ⟨h1, h2, h3, h4, h5, h6, h7, h8, h9⟩ := hM
  obtain ⟨p1, p2, p3⟩ := hp
  refine ⟨?_, ?_, ?_⟩
  · exact (((h1.mul_const C.p.x).add (h2.mul_const C.p.y)).add (h3.mul_const C.p.z)).add p1
  · exact (((h4.mul_const C.p.x).add (h5.mul_const C.p.y)).add (h6.mul_const C.p.z)).add p2
  · exact (((h7.mul_const C.p.x).add (h8.mul_const C.p.y)).add (h9.mul_const C.p.z)).add p3

/-- The rotation of `F(s) * C` for a moving frame `F` and a fixed frame `C`. -/
theorem rotDeriv_mul_const_frame {F : ℝ → Frame ℝ} {D : Rotation ℝ} {t : ℝ}
    (hM : RotDeriv (fun s => (F s).M) D t) (C : Frame ℝ) :
    RotDeriv (fun s => ((F s).mul C).M) (D.mul C.M) t := by
  obtain ⟨h1, h2, h3, h4, h5, h6, h7, h8, h9⟩ := hM
  refine ⟨?_, ?_, ?_, ?_, ?_, ?_, ?_, ?_, ?_⟩
  · exact ((h1.mul_const C.M.Xx).add (h2.mul_const C.M.Xy)).add (h3.mul_const C.M.Xz)
  · exact ((h1.mul_const C.M.Yx).add (h2.mul_const C.M.Yy)).add (h3.mul_const C.M.Yz)
  · exact ((h1.mul_const C.M.Zx).add (h2.mul_const C.M.Zy)).add (h3.mul_const C.M.Zz)
  · exact ((h4.mul_const C.M.Xx).add (h5.mul_const C.M.Xy)).add (h6.mul_const C.M.Xz)
  · exact ((h4.mul_const C.M.Yx).add (h5.mul_const C.M.Yy)).add (h6.mul_const C.M.Yz)
  · exact ((h4.mul_const C.M.Zx).add (h5.mul_const C.M.Zy)).add (h6.mul_const C.M.Zz)
  · exact ((h7.mul_const C.M.Xx).add (h8.mul_const C.M.Xy)).add (h9.mul_const C.M.Xz)
  · exact ((h7.mul_const C.M.Yx).add (h8.mul_const C.M.Yy)).add (h9.mul_const C.M.Yz)
  · exact ((h7.mul_const C.M.Zx).add (h8.mul_const C.M.Zy)).add (h9.mul_const C.M.Zz)

/-- The origin of `P * G(s)` for a fixed frame `P` and a moving frame `G`. -/
theorem vecDeriv_const_mul_frame (P : Frame ℝ) {G : ℝ → Frame ℝ} {v : Vector ℝ} {t : ℝ}
    (hp : VecDeriv (fun s => (G s).p) v t) :
    VecDeriv (fun s => (P.mul (G s)).p) (P.M.mulVec v) t := by
  obtain ⟨p1, p2, p3⟩ := hp
  refine ⟨?_, ?_, ?_⟩
  · exact (((p1.const_mul P.M.Xx).add (p2.const_mul P.M.Yx)).add
      (p3.const_mul P.M.Zx)).add_const P.p.x
  · exact (((p1.const_mul P.M.Xy).add (p2.const_mul P.M.Yy)).add
      (p3.const_mul P.M.Zy)).add_const P.p.y
  · exact (((p1.const_mul P.M.Xz).add (p2.const_mul P.M.Yz)).add
      (p3.const_mul P.M.Zz)).add_const P.p.z

/-- The rotation of `P * G(s)` for a fixed frame `P` and a moving frame `G`. -/
theorem rotDeriv_const_mul_frame (P : Frame ℝ) {G : ℝ → Frame ℝ} {E : Rotation ℝ} {t : ℝ}
    (hM : RotDeriv (fun s => (G s).M) E t) :
    RotDeriv (fun s => (P.mul (G s)).M) (P.M.mul E) t := by
  obtain ⟨h1, h2, h3, h4, h5, h6, h7, h8, h9⟩ := hM
  refine ⟨?_, ?_, ?_, ?_, ?_, ?_, ?_, ?_, ?_⟩
  · exact ((h1.const_mul P.M.Xx).add (h4.const_mul P.M.Yx)).add (h7.const_mul P.M.Zx)
  · exact ((h2.const_mul P.M.Xx).add (h5.const_mul P.M.Yx)).add (h8.const_mul P.M.Zx)
  · exact ((h3.const_mul P.M.Xx).add (h6.const_mul P.M.Yx)).add (h9.const_mul P.M.Zx)
  · exact ((h1.const_mul P.M.Xy).add (h4.const_mul P.M.Yy)).add (h7.const_mul P.M.Zy)
  · exact ((h2.const_mul P.M.Xy).add (h5.const_mul P.M.Yy)).add (h8.const_mul P.M.Zy)
  · exact ((h3.const_mul P.M.Xy).add (h6.const_mul P.M.Yy)).add (h9.const_mul P.M.Zy)
  · exact ((h1.const_mul P.M.Xz).add (h4.const_mul P.M.Yz)).add (h7.const_mul P.M.Zz)
  · exact ((h2.const_mul P.M.Xz).add (h5.const_mul P.M.Yz)).add (h8.const_mul P.M.Zz)
  · exact ((h3.const_mul P.M.Xz).add (h6.const_mul P.M.Yz)).add (h9.const_mul P.M.Zz)

section Algebra
variable {K : Type} [Field K]

theorem skewMul_mulVec (w : Vector K) (R : Rotation K) (v : Vector K) :
    (Rotation.skewMul w R).mulVec v = w.cross (R.mulVec v) := by
  simp only [Rotation.skewMul, Rotation.mulVec, Vector.cross, Vector.mk.injEq]
  refine ⟨?_, ?_, ?_⟩ <;> ring

theorem skewMul_mul (w : Vector K) (R G : Rotation K) :
    (Rotation.skewMul w R).mul G = Rotation.skewMul w (R.mul G) := by
  simp only [Rotation.skewMul, Rotation.mul, Rotation.mk.injEq]
  refine ⟨?_, ?_, ?_, ?_, ?_, ?_, ?_, ?_, ?_⟩ <;> ring

theorem mulVec_mul (A B : Rotation K) (v : Vector K) :
    (A.mul B).mulVec v = A.mulVec (B.mulVec v) := by
  simp only [Rotation.mul, Rotation.mulVec, Vector.mk.injEq]
  refine ⟨?_, ?_, ?_⟩ <;> ring

theorem preservesCross_identity : (Rotation.Identity : Rotation K).PreservesCross := by
  intro a b
  simp only [Rotation.Identity, Rotation.mulVec, Vector.cross, Vector.mk.injEq]
  refine ⟨?_, ?_, ?_⟩ <;> ring

theorem preservesCross_mul {A B : Rotation K} (hA : A.PreservesCross)
    (hB : B.PreservesCross) : (A.mul B).PreservesCross := by
  intro a b
  rw [mulVec_mul, mulVec_mul, mulVec_mul, hB a b, hA]

theorem mul_skewMul {R : Rotation K} (hR : R.PreservesCross) (w : Vector K)
    (G : Rotation K) :
    R.mul (Rotation.skewMul w G) = Rotation.skewMul (R.mulVec w) (R.mul G) := by
  have hX := hR w ⟨G.Xx, G.Xy, G.Xz⟩
  have hY := hR w ⟨G.Yx, G.Yy, G.Yz⟩
  have hZ := hR w ⟨G.Zx, G.Zy, G.Zz⟩
  simp only [Rotation.mulVec, Vector.cross, Vector.mk.injEq] at hX hY hZ
  obtain ⟨x1, x2, x3⟩ := hX
  obtain ⟨y1, y2, y3⟩ := hY
  obtain ⟨z1, z2, z3⟩ := hZ
  simp only [Rotation.skewMul, Rotation.mul, Rotation.mulVec, Rotation.mk.injEq]
  exact ⟨x1, y1, z1, x2, y2, z2, x3, y3, z3⟩

theorem zero_RefPoint (v : Vector K) : (Twist.Zero : Twist K).RefPoint v = Twist.Zero := by
  simp [Twist.Zero, Twist.RefPoint, Vector.Zero, Vector.cross, Vector.add]

end Algebra

end KDL

namespace BaxterChain

theorem getD_changeRefPoint {K : Type} [Field K] (jac : Jacobian K) (v : Vector K) (k : Nat) :
    (changeRefPoint jac v).getD k Twist.Zero = (jac.getD k Twist.Zero).RefPoint v := by
  simp only [changeRefPoint, List.getD_eq_getElem?_getD, List.getElem?_map]
  cases jac[k]? <;> simp [zero_RefPoint]

theorem getD_set_self {α : Type} (l : List α) (k : Nat) (a d : α) (hk : k < l.length) :
    (l.set k a).getD k d = a := by
  simp [List.getD_eq_getElem?_getD, List.getElem?_set_self, hk]

theorem getD_set_ne {α : Type} (l : List α) (j k : Nat) (a d : α) (h : k ≠ j) :
    (l.set k a).getD j d = l.getD j d := by
  simp [List.getD_eq_getElem?_getD, List.getElem?_set_ne h]

theorem jacStep_column (q : List ℝ) (st : Frame ℝ × Nat × Jacobian ℝ) (s : Segment ℝ) (k : Nat)
    (h : ¬ (s.hasJoint = true ∧ st.2.1 = k)) :
    (jacStep q st s).2.2.getD k Twist.Zero =
      (st.2.2.getD k Twist.Zero).RefPoint ((jacStep q st s).1.p.sub st.1.p) := by
  unfold jacStep
  by_cases hs : s.hasJoint = true
  · have hne : st.2.1 ≠ k := fun e => h ⟨hs, e⟩
    simp only [hs, if_true]
    rw [getD_set_ne _ _ _ _ _ hne, getD_changeRefPoint]
  · simp only [hs, Bool.false_eq_true, if_false]
    rw [getD_changeRefPoint]

theorem jacStep_frame (q : List ℝ) (st : Frame ℝ × Nat × Jacobian ℝ) (s : Segment ℝ) :
    (jacStep q st s).1 =
      st.1.mul (if s.hasJoint then s.pose (q.getD st.2.1 0) else s.pose 0) := by
  unfold jacStep
  by_cases hs : s.hasJoint = true <;> simp [hs]

theorem refPoint_shift (P C : Frame ℝ) (tw : Twist ℝ) :
    ((Rotation.skewMul tw.rot P.M).mulVec C.p).add tw.vel =
      (tw.RefPoint ((P.mul C).p.sub P.p)).vel := by
  simp only [Rotation.skewMul, Rotation.mulVec, Twist.RefPoint, Frame.mul, Vector.add,
    Vector.sub, Vector.cross, Vector.mk.injEq]
  refine ⟨?_, ?_, ?_⟩ <;> ring

theorem jacSweep_hasDeriv (q : List ℝ) (N k : Nat) (hk : k < q.length) (hkN : k < N)
    (segs : List (Segment ℝ)) (hseg : ∀ s ∈ segs, s.Kinematic) :
    (poseProduct q segs).M.PreservesCross ∧
    VecDeriv (fun t => (poseProduct (q.set k t) segs).p)
      ((jacSweep q N segs).2.2.getD k Twist.Zero).vel (q.getD k 0) ∧
    RotDeriv (fun t => (poseProduct (q.set k t) segs).M)
      (Rotation.skewMul ((jacSweep q N segs).2.2.getD k Twist.Zero).rot
        (poseProduct q segs).M) (q.getD k 0) := by
  induction segs using List.reverseRecOn with
  | nil =>
    have hz : (jacSweep q N ([] : List (Segment ℝ))).2.2.getD k Twist.Zero = Twist.Zero := by
      simp [jacSweep, SetToZero, List.getD_eq_getElem?_getD, hkN]
    have hP : ∀ q' : List ℝ, poseProduct q' ([] : List (Segment ℝ)) = Frame.Identity := by
      intro q'; rfl
    simp only [hP, hz]
    exact ⟨preservesCross_identity, vecDeriv_const _ _,
      rotDeriv_const _ _ _ rfl _⟩
  | append_singleton segs s ih =>
    have hs_kin : s.Kinematic := hseg s (by simp)
    obtain ⟨ihC, ihp, ihM⟩ := ih (fun a ha => hseg a (by simp [ha]))
    obtain ⟨h1, h2, h3⟩ := jacSweep_fst q N segs
    have hframe := jacStep_frame q (jacSweep q N segs) s
    rw [h1, h2] at hframe
    have hPq : poseProduct q (segs ++ [s]) = (jacStep q (jacSweep q N segs) s).1 := by
      rw [poseProduct_append, hframe]
    rw [jacSweep_append]
    by_cases hcase : s.hasJoint = true ∧ segs.countP Segment.hasJoint = k
    · obtain ⟨hs, hj⟩ := hcase
      have hfun : (fun t => poseProduct (q.set k t) (segs ++ [s])) =
          fun t => (poseProduct q segs).mul (s.pose t) := by
        funext t
        rw [poseProduct_append, poseProduct_set q segs k t (by omega), hj,
          getD_set_self q k t 0 hk]
        simp [hs]
      have hcol : (jacStep q (jacSweep q N segs) s).2.2.getD k Twist.Zero =
          (poseProduct q segs).M.mulTwist (s.twist (q.getD k 0) 1) := by
        unfold jacStep
        simp only [hs, if_true, h1, h2, hj]
        rw [getD_set_self _ _ _ _ (by rw [length_changeRefPoint, h3]; exact hkN)]
      have hPq2 : poseProduct q (segs ++ [s]) = (poseProduct q segs).mul (s.pose (q.getD k 0)) := by
        rw [poseProduct_append, hj]; simp [hs]
      refine ⟨?_, ?_, ?_⟩
      · rw [hPq2]
        exact preservesCross_mul ihC (hs_kin.proper _)
      · have := vecDeriv_const_mul_frame (poseProduct q segs) (hs_kin.vel hs (q.getD k 0))
        rw [hcol]
        exact (congrArg (fun f => VecDeriv (fun t => (f t).p) _ _) hfun).mpr this
      · have := rotDeriv_const_mul_frame (poseProduct q segs) (hs_kin.rot hs (q.getD k 0))
        rw [mul_skewMul ihC] at this
        rw [hcol, hPq2]
        exact (congrArg (fun f => RotDeriv (fun t => (f t).M) _ _) hfun).mpr this
    · have hcol := jacStep_column q (jacSweep q N segs) s k (by rw [h2]; exact hcase)
      have hfun : (fun t => poseProduct (q.set k t) (segs ++ [s])) =
          fun t => (poseProduct (q.set k t) segs).mul
            (if s.hasJoint then s.pose (q.getD (segs.countP Segment.hasJoint) 0)
             else s.pose 0) := by
        funext t
        rw [poseProduct_append]
        by_cases hs : s.hasJoint = true
        · have hne : k ≠ segs.countP Segment.hasJoint := fun e => hcase ⟨hs, e.symm⟩
          rw [getD_set_ne q _ k t 0 hne]
        · simp [hs]
      rw [h1] at hcol
      refine ⟨?_, ?_, ?_⟩
      · rw [poseProduct_append]
        refine preservesCross_mul ihC ?_
        by_cases hs : s.hasJoint = true
        · simp only [hs, if_true]; exact hs_kin.proper _
        · simp only [hs, Bool.false_eq_true, if_false]; exact hs_kin.proper _
      · have := vecDeriv_mul_const_frame ihM ihp
          (if s.hasJoint then s.pose (q.getD (segs.countP Segment.hasJoint) 0) else s.pose 0)
        rw [refPoint_shift, ← hframe] at this
        rw [hcol]
        exact (congrArg (fun f => VecDeriv (fun t => (f t).p) _ _) hfun).mpr this
      · have := rotDeriv_mul_const_frame ihM
          (if s.hasJoint then s.pose (q.getD (segs.countP Segment.hasJoint) 0) else s.pose 0)
        rw [skewMul_mul] at this
        rw [hcol, hPq, hframe]
        exact (congrArg (fun f => RotDeriv (fun t => (f t).M) _ _) hfun).mpr this

end BaxterChain

namespace BaxterChain

theorem central_difference (f : ℝ → ℝ) (f' x : ℝ) (hf : HasDerivAt f f' x) (ε : ℝ)
    (hε : 0 < ε) :
    ∃ δ > 0, ∀ h : ℝ, h ≠ 0 → |h| < δ → |(f (x + h) - f (x - h)) / (2 * h) - f'| < ε := by
  have hlo := hasDerivAt_iff_isLittleO_nhds_zero.1 hf
  have hev := hlo.def (half_pos hε)
  obtain ⟨δ, hδ, hball⟩ := Metric.eventually_nhds_iff.1 hev
  refine ⟨δ, hδ, ?_⟩
  intro h hh hlt
  have hp := hball (y := h) (by simpa [Real.dist_eq] using hlt)
  have hm := hball (y := -h) (by simpa [Real.dist_eq] using hlt)
  simp only [smul_eq_mul, Real.norm_eq_abs, abs_neg] at hp hm
  have habs : 0 < |h| := abs_pos.2 hh
  have hsum : |f (x + h) - f (x - h) - 2 * h * f'| ≤ ε * |h| := by
    have e : f (x + h) - f (x - h) - 2 * h * f' =
        (f (x + h) - f x - h * f') - (f (x + -h) - f x - -h * f') := by
      rw [← sub_eq_add_neg]; ring
    rw [e]
    calc |(f (x + h) - f x - h * f') - (f (x + -h) - f x - -h * f')|
        ≤ |f (x + h) - f x - h * f'| + |f (x + -h) - f x - -h * f'| := abs_sub _ _
      _ ≤ ε / 2 * |h| + ε / 2 * |h| := add_le_add hp hm
      _ = ε * |h| := by ring
  have e2 : (f (x + h) - f (x - h)) / (2 * h) - f' =
      (f (x + h) - f (x - h) - 2 * h * f') / (2 * h) := by
    field_simp
  rw [e2, abs_div, abs_mul, abs_two]
  rw [div_lt_iff₀ (by positivity)]
  calc |f (x + h) - f (x - h) - 2 * h * f'| ≤ ε * |h| := hsum
    _ < ε * (2 * |h|) := by nlinarith

end BaxterChain

namespace BaxterChain

/-- C7: in a chain that satisfies the invariant and is made of segments that
keep KDL's promise, for every joint vector `q` of length `getNrOfJoints()`
`JntToJac` over the whole chain succeeds and column `k` of its Jacobian is the
derivative with respect to `q_k` of the end-effector pose of `JntToCart` at
`q`: the linear rows are the derivative of the end position, the angular rows
`w` give the derivative `[w]x R` of the end rotation `R`; hence the central
finite difference of the end position in `q_k` comes within any tolerance
(1e-5, say) of the linear rows for every small enough step. -/
theorem JntToJac_column_is_derivative (c : BaxterChain ℝ) (q : List ℝ) (hinv : Inv c)
    (hq : q.length = c.getNrOfJoints) (hseg : ∀ s ∈ c.segments, s.Kinematic) :
    ∃ jac, JntToJac c q c.getNrOfJoints (-1) = some (true, jac) ∧
      jac.length = c.getNrOfJoints ∧
      ∀ k, k < c.getNrOfJoints →
        VecDeriv (fun t => endPosition c (q.set k t)) (jac.getD k Twist.Zero).vel
          (q.getD k 0) ∧
        RotDeriv (fun t => endRotation c (q.set k t))
          (Rotation.skewMul (jac.getD k Twist.Zero).rot (endRotation c q)) (q.getD k 0) ∧
        ∀ ε > 0, ∃ δ > 0, ∀ h : ℝ, h ≠ 0 → |h| < δ →
          |((endPosition c (q.set k (q.getD k 0 + h))).x -
              (endPosition c (q.set k (q.getD k 0 - h))).x) / (2 * h) -
            (jac.getD k Twist.Zero).vel.x| < ε ∧
          |((endPosition c (q.set k (q.getD k 0 + h))).y -
              (endPosition c (q.set k (q.getD k 0 - h))).y) / (2 * h) -
            (jac.getD k Twist.Zero).vel.y| < ε ∧
          |((endPosition c (q.set k (q.getD k 0 + h))).z -
              (endPosition c (q.set k (q.getD k 0 - h))).z) / (2 * h) -
            (jac.getD k Twist.Zero).vel.z| < ε := by
  refine ⟨_, JntToJac_eq_jacSweep c q hinv hq, (jacSweep_fst q _ _).2.2, ?_⟩
  intro k hk
  have hpos : ∀ q' : List ℝ, q'.length = c.getNrOfJoints →
      endPosition c q' = (poseProduct q' c.segments).p := by
    intro q' hq'
    simp [endPosition, JntToCart_eq_poseProduct c q' hinv hq']
  have hrot : ∀ q' : List ℝ, q'.length = c.getNrOfJoints →
      endRotation c q' = (poseProduct q' c.segments).M := by
    intro q' hq'
    simp [endRotation, JntToCart_eq_poseProduct c q' hinv hq']
  have hfp : (fun t => endPosition c (q.set k t)) =
      fun t => (poseProduct (q.set k t) c.segments).p := by
    funext t; exact hpos _ (by simp [hq])
  have hfr : (fun t => endRotation c (q.set k t)) =
      fun t => (poseProduct (q.set k t) c.segments).M := by
    funext t; exact hrot _ (by simp [hq])
  obtain ⟨-, hv, hM⟩ := jacSweep_hasDeriv q c.getNrOfJoints k (by omega) hk c.segments hseg
  have hv' : VecDeriv (fun t => endPosition c (q.set k t))
      ((jacSweep q c.getNrOfJoints c.segments).2.2.getD k Twist.Zero).vel (q.getD k 0) := by
    rw [hfp]; exact hv
  refine ⟨hv', ?_, ?_⟩
  · rw [hfr, hrot q hq]; exact hM
  · intro ε hε
    obtain ⟨d1, hd1, h1⟩ := central_difference _ _ _ hv'.1 ε hε
    obtain ⟨d2, hd2, h2⟩ := central_difference _ _ _ hv'.2.1 ε hε
    obtain ⟨d3, hd3, h3⟩ := central_difference _ _ _ hv'.2.2 ε hε
    refine ⟨min d1 (min d2 d3), lt_min hd1 (lt_min hd2 hd3), ?_⟩
    intro h hh hlt
    exact ⟨h1 h hh (lt_of_lt_of_le hlt (min_le_left _ _)),
      h2 h hh (lt_of_lt_of_le hlt (le_trans (min_le_right _ _) (min_le_left _ _))),
      h3 h hh (lt_of_lt_of_le hlt (le_trans (min_le_right _ _) (min_le_right _ _)))⟩

end BaxterChain

namespace Example
open BaxterChain

theorem preservesCross_RotZ (q : ℝ) : (RotZ (Real.cos q) (Real.sin q)).PreservesCross := by
  intro a b
  have h := Real.cos_sq_add_sin_sq q
  simp only [RotZ, Rotation.mulVec, Vector.cross, Vector.mk.injEq]
  refine ⟨by ring, by ring, ?_⟩
  linear_combination (-(a.x * b.y - a.y * b.x)) * h

theorem kinematic_rotZSegment (f_tip : Frame ℝ) (h : f_tip.M.PreservesCross) :
    (rotZSegment Real.cos Real.sin f_tip).Kinematic := by
  refine ⟨fun q => preservesCross_mul (preservesCross_RotZ q) h, ?_, ?_⟩
  · intro _ q
    have hc := Real.hasDerivAt_cos q
    have hs := Real.hasDerivAt_sin q
    have h0 := hasDerivAt_const q (0 : ℝ)
    have h1 := hasDerivAt_const q (1 : ℝ)
    refine ⟨?_, ?_, ?_⟩
    · exact ((((hc.mul_const f_tip.p.x).add ((hs.neg).mul_const f_tip.p.y)).add
        (h0.mul_const f_tip.p.z)).add_const (0 : ℝ)).congr_deriv (by
          simp only [rotZSegment, RotZ, Twist.RefPoint, Rotation.mulVec, Vector.cross,
            Vector.add, Vector.Zero]
          ring)
    · exact ((((hs.mul_const f_tip.p.x).add (hc.mul_const f_tip.p.y)).add
        (h0.mul_const f_tip.p.z)).add_const (0 : ℝ)).congr_deriv (by
          simp only [rotZSegment, RotZ, Twist.RefPoint, Rotation.mulVec, Vector.cross,
            Vector.add, Vector.Zero]
          ring)
    · exact ((((h0.mul_const f_tip.p.x).add (h0.mul_const f_tip.p.y)).add
        (h1.mul_const f_tip.p.z)).add_const (0 : ℝ)).congr_deriv (by
          simp only [rotZSegment, RotZ, Twist.RefPoint, Rotation.mulVec, Vector.cross,
            Vector.add, Vector.Zero]
          ring)
  · intro _ q
    have hc := Real.hasDerivAt_cos q
    have hs := Real.hasDerivAt_sin q
    have h0 := hasDerivAt_const q (0 : ℝ)
    have h1 := hasDerivAt_const q (1 : ℝ)
    refine ⟨?_, ?_, ?_, ?_, ?_, ?_, ?_, ?_, ?_⟩
    · exact (((hc.mul_const f_tip.M.Xx).add ((hs.neg).mul_const f_tip.M.Xy)).add
        (h0.mul_const f_tip.M.Xz)).congr_deriv (by
          simp only [rotZSegment, RotZ, Twist.RefPoint, Rotation.skewMul, Frame.mul,
            Rotation.mul]
          ring)
    · exact (((hc.mul_const f_tip.M.Yx).add ((hs.neg).mul_const f_tip.M.Yy)).add
        (h0.mul_const f_tip.M.Yz)).congr_deriv (by
          simp only [rotZSegment, RotZ, Twist.RefPoint, Rotation.skewMul, Frame.mul,
            Rotation.mul]
          ring)
    · exact (((hc.mul_const f_tip.M.Zx).add ((hs.neg).mul_const f_tip.M.Zy)).add
        (h0.mul_const f_tip.M.Zz)).congr_deriv (by
          simp only [rotZSegment, RotZ, Twist.RefPoint, Rotation.skewMul, Frame.mul,
            Rotation.mul]
          ring)
    · exact (((hs.mul_const f_tip.M.Xx).add (hc.mul_const f_tip.M.Xy)).add
        (h0.mul_const f_tip.M.Xz)).congr_deriv (by
          simp only [rotZSegment, RotZ, Twist.RefPoint, Rotation.skewMul, Frame.mul,
            Rotation.mul]
          ring)
    · exact (((hs.mul_const f_tip.M.Yx).add (hc.mul_const f_tip.M.Yy)).add
        (h0.mul_const f_tip.M.Yz)).congr_deriv (by
          simp only [rotZSegment, RotZ, Twist.RefPoint, Rotation.skewMul, Frame.mul,
            Rotation.mul]
          ring)
    · exact (((hs.mul_const f_tip.M.Zx).add (hc.mul_const f_tip.M.Zy)).add
        (h0.mul_const f_tip.M.Zz)).congr_deriv (by
          simp only [rotZSegment, RotZ, Twist.RefPoint, Rotation.skewMul, Frame.mul,
            Rotation.mul]
          ring)
    · exact (((h0.mul_const f_tip.M.Xx).add (h0.mul_const f_tip.M.Xy)).add
        (h1.mul_const f_tip.M.Xz)).congr_deriv (by
          simp only [rotZSegment, RotZ, Twist.RefPoint, Rotation.skewMul, Frame.mul,
            Rotation.mul]
          ring)
    · exact (((h0.mul_const f_tip.M.Yx).add (h0.mul_const f_tip.M.Yy)).add
        (h1.mul_const f_tip.M.Yz)).congr_deriv (by
          simp only [rotZSegment, RotZ, Twist.RefPoint, Rotation.skewMul, Frame.mul,
            Rotation.mul]
          ring)
    · exact (((h0.mul_const f_tip.M.Zx).add (h0.mul_const f_tip.M.Zy)).add
        (h1.mul_const f_tip.M.Zz)).congr_deriv (by
          simp only [rotZSegment, RotZ, Twist.RefPoint, Rotation.skewMul, Frame.mul,
            Rotation.mul]
          ring)

end Example

namespace Example
open BaxterChain

theorem kinematic_transSegment (ty : JointType) (axis : Vector ℝ) (f_tip : Frame ℝ)
    (h : f_tip.M.PreservesCross) : (transSegment ty axis f_tip).Kinematic := by
  refine ⟨fun q => preservesCross_mul preservesCross_identity h, ?_, ?_⟩
  · intro _ q
    have hid := hasDerivAt_id q
    have hc : ∀ a : ℝ, HasDerivAt (fun _ : ℝ => a) 0 q := fun a => hasDerivAt_const q a
    refine ⟨?_, ?_, ?_⟩
    · exact ((hc (1 * f_tip.p.x + 0 * f_tip.p.y + 0 * f_tip.p.z)).add
        (hid.const_mul axis.x)).congr_deriv (by
          simp only [transSegment, Twist.RefPoint, Rotation.mulVec, Rotation.Identity,
            Vector.cross, Vector.add, Vector.Zero]
          ring)
    · exact ((hc (0 * f_tip.p.x + 1 * f_tip.p.y + 0 * f_tip.p.z)).add
        (hid.const_mul axis.y)).congr_deriv (by
          simp only [transSegment, Twist.RefPoint, Rotation.mulVec, Rotation.Identity,
            Vector.cross, Vector.add, Vector.Zero]
          ring)
    · exact ((hc (0 * f_tip.p.x + 0 * f_tip.p.y + 1 * f_tip.p.z)).add
        (hid.const_mul axis.z)).congr_deriv (by
          simp only [transSegment, Twist.RefPoint, Rotation.mulVec, Rotation.Identity,
            Vector.cross, Vector.add, Vector.Zero]
          ring)
  · intro _ q
    exact rotDeriv_const (Rotation.Identity.mul f_tip.M) Vector.Zero _ rfl q

theorem kinematic_fixedSegment (f : Frame ℝ) (h : f.M.PreservesCross) :
    (AvoidanceHandler.fixedSegment f).Kinematic := by
  refine ⟨fun q => preservesCross_mul preservesCross_identity h, ?_, ?_⟩
  · intro hj; simp [AvoidanceHandler.fixedSegment, Segment.hasJoint] at hj
  · intro hj; simp [AvoidanceHandler.fixedSegment, Segment.hasJoint] at hj

theorem inv_arm : Inv (arm Real.cos Real.sin) :=
  inv_addSegment (inv_addSegment (inv_addSegment inv_empty _ _) _ _) _ _

theorem kinematic_arm : ∀ s ∈ (arm Real.cos Real.sin).segments, s.Kinematic := by
  intro s hs
  have hsegs : (arm Real.cos Real.sin).segments =
      [rotZSegment Real.cos Real.sin ⟨Rotation.Identity, ⟨1, 0, 0⟩⟩,
       AvoidanceHandler.fixedSegment ⟨Rotation.Identity, ⟨0, 0, 1⟩⟩,
       transSegment JointType.TransX ⟨1, 0, 0⟩ Frame.Identity] := rfl
  rw [hsegs] at hs
  simp only [List.mem_cons, List.mem_singleton, List.not_mem_nil, or_false] at hs
  rcases hs with rfl | rfl | rfl
  · exact kinematic_rotZSegment _ preservesCross_identity
  · exact kinematic_fixedSegment _ preservesCross_identity
  · exact kinematic_transSegment _ _ _ preservesCross_identity

end Example

namespace BaxterChain

/-- C7 at the arm with a turning joint, a fixed link and a sliding joint, at
the joint vector `(0, 0)`. -/
theorem JntToJac_column_is_derivative_witness :
    Inv (Example.arm Real.cos Real.sin) ∧
    ([0, 0] : List ℝ).length = (Example.arm Real.cos Real.sin).getNrOfJoints ∧
    (∀ s ∈ (Example.arm Real.cos Real.sin).segments, s.Kinematic) ∧
    ∃ jac, JntToJac (Example.arm Real.cos Real.sin) [0, 0]
        (Example.arm Real.cos Real.sin).getNrOfJoints (-1) = some (true, jac) ∧
      jac.length = (Example.arm Real.cos Real.sin).getNrOfJoints ∧
      ∀ k, k < (Example.arm Real.cos Real.sin).getNrOfJoints →
        VecDeriv (fun t => endPosition (Example.arm Real.cos Real.sin) (([0, 0] : List ℝ).set k t))
          (jac.getD k Twist.Zero).vel (([0, 0] : List ℝ).getD k 0) ∧
        RotDeriv (fun t => endRotation (Example.arm Real.cos Real.sin) (([0, 0] : List ℝ).set k t))
          (Rotation.skewMul (jac.getD k Twist.Zero).rot
            (endRotation (Example.arm Real.cos Real.sin) [0, 0])) (([0, 0] : List ℝ).getD k 0) ∧
        ∀ ε > 0, ∃ δ > 0, ∀ h : ℝ, h ≠ 0 → |h| < δ →
          |((endPosition (Example.arm Real.cos Real.sin)
                (([0, 0] : List ℝ).set k (([0, 0] : List ℝ).getD k 0 + h))).x -
              (endPosition (Example.arm Real.cos Real.sin)
                (([0, 0] : List ℝ).set k (([0, 0] : List ℝ).getD k 0 - h))).x) / (2 * h) -
            (jac.getD k Twist.Zero).vel.x| < ε ∧
          |((endPosition (Example.arm Real.cos Real.sin)
                (([0, 0] : List ℝ).set k (([0, 0] : List ℝ).getD k 0 + h))).y -
              (endPosition (Example.arm Real.cos Real.sin)
                (([0, 0] : List ℝ).set k (([0, 0] : List ℝ).getD k 0 - h))).y) / (2 * h) -
            (jac.getD k Twist.Zero).vel.y| < ε ∧
          |((endPosition (Example.arm Real.cos Real.sin)
                (([0, 0] : List ℝ).set k (([0, 0] : List ℝ).getD k 0 + h))).z -
              (endPosition (Example.arm Real.cos Real.sin)
                (([0, 0] : List ℝ).set k (([0, 0] : List ℝ).getD k 0 - h))).z) / (2 * h) -
            (jac.getD k Twist.Zero).vel.z| < ε :=
  ⟨Example.inv_arm, rfl, Example.kinematic_arm,
   JntToJac_column_is_derivative (Example.arm Real.cos Real.sin) [0, 0] Example.inv_arm rfl
     Example.kinematic_arm⟩

end BaxterChain

namespace AvoidanceHandlerTactile
variable {K : Type} [LinearOrderedField K]

theorem getElem?_append_cons_length {α : Type} (l : List α) (a : α) (r : List α) :
    (l ++ a :: r)[l.length]? = some a := by
  induction l with
  | nil => simp
  | cons b l ih => simpa using ih

theorem set_append_cons_length {α : Type} (l : List α) (a b : α) (r : List α) :
    (l ++ a :: r).set l.length b = (l ++ [b]) ++ r := by
  induction l with
  | nil => simp
  | cons c l ih => simp

theorem shapeJoint_eq (v_lim V_LIM : VLim K) (mag sj : K) (j : Nat) (o c : K × K)
    (ho : v_lim[j]? = some o) (hc : V_LIM[j]? = some c) :
    shapeJoint v_lim V_LIM mag sj j = some (V_LIM.set j (shapeRow mag o c sj)) := by
  unfold shapeJoint shapeRow
  simp only [ho, hc]
  split <;> rfl

theorem shapeJoint_none (v_lim V_LIM : VLim K) (mag sj : K) (j : Nat)
    (h : v_lim.length ≤ j ∨ V_LIM.length ≤ j) :
    shapeJoint v_lim V_LIM mag sj j = none := by
  unfold shapeJoint
  rcases h with h | h
  · rw [List.getElem?_eq_none h]
  · rw [List.getElem?_eq_none h]
    cases v_lim[j]? <;> rfl

theorem shapeLoop_append (mag : K) (s : List K) (opre orig pre cur : VLim K)
    (hpre : pre.length = opre.length) :
    shapeLoop (opre ++ orig) mag s opre.length (pre ++ cur) =
      if s.length ≤ orig.length ∧ s.length ≤ cur.length
      then some (pre ++ shapeRows mag orig cur s) else none := by
  induction s generalizing opre orig pre cur with
  | nil => cases orig <;> cases cur <;> simp [shapeLoop, shapeRows]
  | cons sj ss ih =>
    cases orig with
    | nil =>
      simp only [shapeLoop]
      rw [shapeJoint_none _ _ _ _ _ (Or.inl (by simp))]
      simp
    | cons o os =>
      cases cur with
      | nil =>
        simp only [shapeLoop]
        rw [shapeJoint_none _ _ _ _ _ (Or.inr (by simp [hpre]))]
        simp
      | cons c cs =>
        simp only [shapeLoop]
        rw [shapeJoint_eq (opre ++ o :: os) (pre ++ c :: cs) mag sj opre.length o c
          (getElem?_append_cons_length _ _ _)
          (by rw [← hpre]; exact getElem?_append_cons_length _ _ _)]
        simp only
        have hset : (pre ++ c :: cs).set opre.length (shapeRow mag o c sj) =
            (pre ++ [shapeRow mag o c sj]) ++ cs := by
          rw [← hpre]; exact set_append_cons_length _ _ _ _
        have hlen : opre.length + 1 = (opre ++ [o]).length := by simp
        have ho : opre ++ o :: os = (opre ++ [o]) ++ os := by simp
        rw [hset, hlen, ho, ih (opre ++ [o]) os (pre ++ [shapeRow mag o c sj]) cs (by simp [hpre])]
        simp [shapeRows]

theorem shapeLoop_eq (mag : K) (s : List K) (v_lim V_LIM : VLim K) :
    shapeLoop v_lim mag s 0 V_LIM =
      if s.length ≤ v_lim.length ∧ s.length ≤ V_LIM.length
      then some (shapeRows mag v_lim V_LIM s) else none := by
  have := shapeLoop_append mag s [] v_lim [] V_LIM rfl
  simpa using this

theorem pointsLoop_append (v_lim : VLim K) (ps : List (CollisionPoint K × BaxterChain K))
    (pre : List (BaxterChain K)) (V : VLim K) :
    pointsLoop (pre ++ ps.map Prod.snd) v_lim (ps.map Prod.fst) pre.length V =
      ps.foldl (fun acc p => acc.bind (fun W => shapePoint v_lim W p)) (some V) := by
  induction ps generalizing pre V with
  | nil => simp [pointsLoop]
  | cons p ps ih =>
    have hfold : ∀ l : List (CollisionPoint K × BaxterChain K),
        l.foldl (fun acc p => acc.bind (fun W => shapePoint v_lim W p)) none = none := by
      intro l
      induction l with
      | nil => rfl
      | cons a l ih2 => simpa using ih2
    simp only [List.map_cons, pointsLoop, List.foldl_cons, Option.some_bind]
    rw [getElem?_append_cons_length]
    cases hproj : projection p.2 with
    | none =>
      have hsp : shapePoint v_lim V p = none := by simp [shapePoint, hproj]
      rw [hsp, hfold]
      simp [hproj]
    | some s =>
      cases hsl : shapeLoop v_lim p.1.mag s 0 V with
      | none =>
        have hsp : shapePoint v_lim V p = none := by simp [shapePoint, hproj, hsl]
        rw [hsp, hfold]
        simp [hproj, hsl]
      | some V1 =>
        have hsp : shapePoint v_lim V p = some V1 := by simp [shapePoint, hproj, hsl]
        rw [hsp]
        simp only [hproj, hsl]
        have := ih (pre ++ [p.2]) V1
        simp only [List.length_append, List.length_singleton, List.append_assoc,
          List.singleton_append] at this
        exact this

theorem getV_LIM_eq_foldl (v_lim : VLim K) (ps : List (CollisionPoint K × BaxterChain K)) :
    getV_LIM (ps.map Prod.fst) (ps.map Prod.snd) v_lim =
      ps.foldl (fun acc p => acc.bind (fun W => shapePoint v_lim W p)) (some v_lim) := by
  have := pointsLoop_append v_lim ps [] v_lim
  simpa [getV_LIM] using this

theorem shapeRow_fst_le_snd (mag : K) (o c : K × K) (sj : K) :
    (shapeRow mag o c sj).1 ≤ (shapeRow mag o c sj).2 := by
  unfold shapeRow
  split_ifs
  · exact min_le_right _ _
  · exact le_max_left _ _

theorem shapeRows_fst_le_snd (mag : K) (v V : VLim K) (s : List K)
    (h : ∀ row ∈ V, row.1 ≤ row.2) : ∀ row ∈ shapeRows mag v V s, row.1 ≤ row.2 := by
  induction v generalizing V s with
  | nil => simpa [shapeRows] using h
  | cons o os ih =>
    cases V with
    | nil => simp [shapeRows]
    | cons c cs =>
      cases s with
      | nil => simpa [shapeRows] using h
      | cons sj ss =>
        intro row hrow
        simp only [shapeRows, List.mem_cons] at hrow
        rcases hrow with rfl | hrow
        · exact shapeRow_fst_le_snd _ _ _ _
        · exact ih cs ss (fun r hr => h r (List.mem_cons_of_mem _ hr)) row hrow

theorem pointsLoop_fst_le_snd (ctrlChains : List (BaxterChain K)) (v_lim : VLim K)
    (collPoints : List (CollisionPoint K)) (i : Nat) (V r : VLim K)
    (h : ∀ row ∈ V, row.1 ≤ row.2)
    (hr : pointsLoop ctrlChains v_lim collPoints i V = some r) : ∀ row ∈ r, row.1 ≤ row.2 := by
  induction collPoints generalizing i V with
  | nil =>
    simp only [pointsLoop, Option.some.injEq] at hr
    subst hr
    exact h
  | cons cp rest ih =>
    simp only [pointsLoop] at hr
    cases hcc : ctrlChains[i]? with
    | none => simp [hcc] at hr
    | some cc =>
      simp only [hcc] at hr
      cases hproj : projection cc with
      | none => simp [hproj] at hr
      | some s =>
        simp only [hproj] at hr
        rw [shapeLoop_eq] at hr
        split_ifs at hr
        exact ih (i + 1) _ (shapeRows_fst_le_snd _ _ _ _ h) hr

theorem shapeRow_inside (mag : K) (o c : K × K) (sj : K) (h0 : 0 ≤ mag) (h1 : mag ≤ 1)
    (hc : o.1 ≤ c.1 ∧ c.1 ≤ 0 ∧ 0 ≤ c.2 ∧ c.2 ≤ o.2) :
    (o.1 ≤ (shapeRow mag o c sj).1 ∧ (shapeRow mag o c sj).1 ≤ 0 ∧
      0 ≤ (shapeRow mag o c sj).2 ∧ (shapeRow mag o c sj).2 ≤ o.2) ∧
    shapeRow mag o c sj =
      (max c.1 (shapeRow mag o o sj).1, min c.2 (shapeRow mag o o sj).2) := by
  obtain ⟨h2, h3, h4, h5⟩ := hc
  have ho1 : o.1 ≤ 0 := le_trans h2 h3
  have ho2 : 0 ≤ o.2 := le_trans h4 h5
  have hm : 0 ≤ 1 - mag := by linarith
  have hm1 : 1 - mag ≤ 1 := by linarith
  have t1 : 0 ≤ o.2 * (1 - mag) := mul_nonneg ho2 hm
  have t2 : o.2 * (1 - mag) ≤ o.2 := mul_le_of_le_one_right ho2 hm1
  have t3 : o.1 * (1 - mag) ≤ 0 := mul_nonpos_of_nonpos_of_nonneg ho1 hm
  have t4 : o.1 ≤ o.1 * (1 - mag) := by nlinarith
  unfold shapeRow
  split_ifs
  · have e1 : min c.2 (o.2 * (1 - mag)) ≥ 0 := le_min h4 t1
    have e2 : min c.1 (min c.2 (o.2 * (1 - mag))) = c.1 := min_eq_left (le_trans h3 e1)
    have e3 : min o.2 (o.2 * (1 - mag)) = o.2 * (1 - mag) := min_eq_right t2
    have e4 : min o.1 (o.2 * (1 - mag)) = o.1 := min_eq_left (le_trans ho1 t1)
    refine ⟨⟨?_, ?_, ?_, ?_⟩, ?_⟩
    · simp only [e2]; exact h2
    · simp only [e2]; exact h3
    · exact e1
    · exact le_trans (min_le_left _ _) h5
    · simp only [e2, e3, e4, max_eq_left h2]
  · have e1 : max c.1 (o.1 * (1 - mag)) ≤ 0 := max_le h3 t3
    have e2 : max (max c.1 (o.1 * (1 - mag))) c.2 = c.2 := max_eq_right (le_trans e1 h4)
    have e3 : max o.1 (o.1 * (1 - mag)) = o.1 * (1 - mag) := max_eq_right t4
    have e4 : max (o.1 * (1 - mag)) o.2 = o.2 := max_eq_right (le_trans t3 ho2)
    refine ⟨⟨?_, ?_, ?_, ?_⟩, ?_⟩
    · exact le_trans h2 (le_max_left _ _)
    · exact e1
    · simp only [e2]; exact h4
    · simp only [e2]; exact h5
    · simp only [e2, e3, e4, min_eq_left h5]

theorem shapeRows_inside (mag : K) (v V : VLim K) (s : List K) (h0 : 0 ≤ mag) (h1 : mag ≤ 1)
    (h : Inside v V) :
    Inside v (shapeRows mag v V s) ∧
      shapeRows mag v V s = intersect V (shapeRows mag v v s) := by
  induction h generalizing s with
  | nil => cases s <;> simp [shapeRows, Inside, intersect]
  | @cons o c os cs hoc hrest ih =>
    cases s with
    | nil =>
      refine ⟨List.Forall₂.cons hoc hrest, ?_⟩
      have := (ih []).2
      have e : ∀ l : VLim K, shapeRows mag os l [] = l := by
        intro l; cases os <;> cases l <;> rfl
      rw [e, e] at this
      simp only [shapeRows, intersect, List.zipWith_cons_cons]
      rw [max_eq_left hoc.1, min_eq_left hoc.2.2.2]
      exact congrArg _ this
    | cons sj ss =>
      obtain ⟨hin, heq⟩ := shapeRow_inside mag o c sj h0 h1 hoc
      refine ⟨List.Forall₂.cons hin (ih ss).1, ?_⟩
      simp only [shapeRows, intersect, List.zipWith_cons_cons]
      rw [← heq]
      exact congrArg _ (ih ss).2

theorem inside_length_eq {v V : VLim K} (h : Inside v V) : V.length = v.length :=
  (List.Forall₂.length_eq h).symm

theorem inside_self (v : VLim K) (h : ∀ row ∈ v, row.1 ≤ 0 ∧ 0 ≤ row.2) : Inside v v := by
  induction v with
  | nil => exact List.Forall₂.nil
  | cons o os ih =>
    refine List.Forall₂.cons ⟨le_refl _, (h o (List.mem_cons_self _ _)).1,
      (h o (List.mem_cons_self _ _)).2, le_refl _⟩ (ih ?_)
    intro row hrow
    exact h row (List.mem_cons_of_mem _ hrow)

theorem pointsLoop_inside (ctrlChains : List (BaxterChain K)) (v_lim : VLim K)
    (collPoints : List (CollisionPoint K)) (i : Nat) (V r : VLim K)
    (hmag : ∀ cp ∈ collPoints, 0 ≤ cp.mag ∧ cp.mag ≤ 1) (h : Inside v_lim V)
    (hr : pointsLoop ctrlChains v_lim collPoints i V = some r) : Inside v_lim r := by
  induction collPoints generalizing i V with
  | nil =>
    simp only [pointsLoop, Option.some.injEq] at hr
    subst hr
    exact h
  | cons cp rest ih =>
    simp only [pointsLoop] at hr
    cases hcc : ctrlChains[i]? with
    | none => simp [hcc] at hr
    | some cc =>
      simp only [hcc] at hr
      cases hproj : projection cc with
      | none => simp [hproj] at hr
      | some s =>
        simp only [hproj] at hr
        rw [shapeLoop_eq] at hr
        split_ifs at hr
        have hcp := hmag cp (List.mem_cons_self _ _)
        exact ih (i + 1) _ (fun c hc => hmag c (List.mem_cons_of_mem _ hc))
          (shapeRows_inside cp.mag v_lim V s hcp.1 hcp.2 h).1 hr

theorem intersect_right_comm (z x y : VLim K) :
    intersect (intersect z x) y = intersect (intersect z y) x := by
  induction z generalizing x y with
  | nil => simp [intersect]
  | cons a z ih =>
    cases x with
    | nil => cases y <;> simp [intersect]
    | cons b x =>
      cases y with
      | nil => simp [intersect]
      | cons c y =>
        have := ih x y
        simp only [intersect, List.zipWith_cons_cons] at this ⊢
        rw [this, sup_right_comm, inf_right_comm]

theorem inside_intersect {v V : VLim K} (h : Inside v V) (r : VLim K) (hr : Inside v r) :
    Inside v (intersect V r) := by
  induction h generalizing r with
  | nil => cases hr; exact List.Forall₂.nil
  | @cons o c os cs hoc _ ih =>
    cases hr with
    | @cons _ d _ ds hod hrest =>
      simp only [intersect, List.zipWith_cons_cons]
      refine List.Forall₂.cons ⟨le_trans hoc.1 (le_max_left _ _), max_le hoc.2.1 hod.2.1,
        le_min hoc.2.2.1 hod.2.2.1, le_trans (min_le_left _ _) hoc.2.2.2⟩ (ih ds hrest)

theorem shapePoint_inside (v V : VLim K) (p : CollisionPoint K × BaxterChain K)
    (h0 : 0 ≤ p.1.mag) (h1 : p.1.mag ≤ 1) (h : Inside v V) :
    shapePoint v V p = (shapePoint v v p).map (intersect V) ∧
    ∀ r, shapePoint v v p = some r → Inside v r := by
  unfold shapePoint
  cases projection p.2 with
  | none => simp
  | some s =>
    simp only
    rw [shapeLoop_eq, shapeLoop_eq, inside_length_eq h]
    by_cases hlen : s.length ≤ v.length
    · simp only [hlen, and_self, if_true, Option.map_some', Option.some.injEq]
      refine ⟨(shapeRows_inside p.1.mag v V s h0 h1 h).2, ?_⟩
      intro r hr
      subst hr
      have hvv : Inside v v := by
        have : ∀ (a b : VLim K), Inside a b → Inside a a := by
          intro a b hab
          induction hab with
          | nil => exact List.Forall₂.nil
          | cons hoc _ ih =>
            exact List.Forall₂.cons ⟨le_refl _, le_trans hoc.1 hoc.2.1,
              le_trans hoc.2.2.1 hoc.2.2.2, le_refl _⟩ ih
        exact this v V h
      exact (shapeRows_inside p.1.mag v v s h0 h1 hvv).1
    · simp [hlen]

theorem foldl_shapePoint_none (v : VLim K) (l : List (CollisionPoint K × BaxterChain K)) :
    l.foldl (fun acc p => acc.bind (fun W => shapePoint v W p)) none = none := by
  induction l with
  | nil => rfl
  | cons a l ih => simpa using ih

theorem foldl_shapePoint_closed (v : VLim K) (ps : List (CollisionPoint K × BaxterChain K))
    (hmag : ∀ p ∈ ps, 0 ≤ p.1.mag ∧ p.1.mag ≤ 1) (V : VLim K) (h : Inside v V) :
    ps.foldl (fun acc p => acc.bind (fun W => shapePoint v W p)) (some V) =
      if ∀ p ∈ ps, (shapePoint v v p).isSome = true
      then some ((ps.map (fun p => (shapePoint v v p).getD v)).foldl intersect V)
      else none := by
  induction ps generalizing V with
  | nil => simp
  | cons p ps ih =>
    have hp := hmag p (List.mem_cons_self _ _)
    obtain ⟨hstep, hin⟩ := shapePoint_inside v V p hp.1 hp.2 h
    simp only [List.foldl_cons, Option.some_bind, List.map_cons, List.forall_mem_cons]
    rw [hstep]
    cases hind : shapePoint v v p with
    | none => simp [foldl_shapePoint_none]
    | some r =>
      simp only [Option.map_some', Option.isSome_some, true_and, Option.getD_some]
      exact ih (fun q hq => hmag q (List.mem_cons_of_mem _ hq)) _
        (inside_intersect h r (hin r hind))

theorem getV_LIM_singleton (v : VLim K) (p : CollisionPoint K × BaxterChain K) :
    getV_LIM [p.1] [p.2] v = shapePoint v v p := by
  have := getV_LIM_eq_foldl v [p]
  simpa using this

end AvoidanceHandlerTactile

namespace Example
open AvoidanceHandlerTactile BaxterChain

theorem projection_chainJ : projection chainJ = some [0] := by
  simp [projection, GeoJacobian, getHEnd, getH, getHFrame, JntToCart, JntToJac, JntToJacLoop,
    JntToCartLoop, chainJ, jointX, transSegment, addSegment, BaxterChain.empty, fresh,
    conservativeResize, getNrOfJoints, getNrOfSegments, Segment.hasJoint, getSegment,
    SetToZero, changeRefPoint, setColumn, Frame.mul, Frame.Identity, Rotation.mul,
    Rotation.Identity, Rotation.mulVec, Vector.add, Vector.sub, Vector.Zero, Twist.Zero,
    Twist.RefPoint, Rotation.mulTwist, Vector.cross, KDLFrameToEigen]

theorem projection_chainZ : projection chainZ = some [-1] := by
  simp [projection, GeoJacobian, getHEnd, getH, getHFrame, JntToCart, JntToJac, JntToJacLoop,
    JntToCartLoop, chainZ, jointZ, transSegment, addSegment, BaxterChain.empty, fresh,
    conservativeResize, getNrOfJoints, getNrOfSegments, Segment.hasJoint, getSegment,
    SetToZero, changeRefPoint, setColumn, Frame.mul, Frame.Identity, Rotation.mul,
    Rotation.Identity, Rotation.mulVec, Vector.add, Vector.sub, Vector.Zero, Twist.Zero,
    Twist.RefPoint, Rotation.mulTwist, Vector.cross, KDLFrameToEigen]

theorem projection_chainJF : projection chainJF = some [0] := by
  simp [projection, GeoJacobian, getHEnd, getH, getHFrame, JntToCart, JntToJac, JntToJacLoop,
    JntToCartLoop, chainJF, chainJ, jointX, linkZ, transSegment, AvoidanceHandler.fixedSegment,
    addSegment, BaxterChain.empty, fresh,
    conservativeResize, getNrOfJoints, getNrOfSegments, Segment.hasJoint, getSegment,
    SetToZero, changeRefPoint, setColumn, Frame.mul, Frame.Identity, Rotation.mul,
    Rotation.Identity, Rotation.mulVec, Vector.add, Vector.sub, Vector.Zero, Twist.Zero,
    Twist.RefPoint, Rotation.mulTwist, Vector.cross, KDLFrameToEigen]

theorem getV_LIM_chainJF_one :
    getV_LIM [point 1] [chainJF] [((1 : ℚ), (2 : ℚ))] = some [(0, 0)] := by
  norm_num [getV_LIM, pointsLoop, projection_chainJF, shapeLoop, shapeJoint, point]

theorem getV_LIM_JZ :
    getV_LIM [point 1, point 0] [chainJ, chainZ] [((1 : ℚ), (2 : ℚ))] = some [(1, 1)] := by
  norm_num [getV_LIM, pointsLoop, projection_chainJ, projection_chainZ, shapeLoop, shapeJoint, point]

theorem getV_LIM_ZJ :
    getV_LIM [point 0, point 1] [chainZ, chainJ] [((1 : ℚ), (2 : ℚ))] = some [(0, 0)] := by
  norm_num [getV_LIM, pointsLoop, projection_chainJ, projection_chainZ, shapeLoop, shapeJoint, point]

theorem getV_LIM_chainJF_half :
    getV_LIM [point (1 / 2)] [chainJF] [((-1 : ℚ), (1 : ℚ))] = some [(-1, 1 / 2)] := by
  norm_num [getV_LIM, pointsLoop, projection_chainJF, shapeLoop, shapeJoint, point]

end Example

namespace AvoidanceHandlerTactile
variable {K : Type} [LinearOrderedField K]

theorem projection_of_inv (cc : BaxterChain K) (hinv : cc.Inv) (h1 : 1 ≤ cc.getNrOfJoints) :
    ∃ s, projection cc = some s ∧ s.length = cc.getNrOfJoints := by
  have hq : cc.q.length = cc.getNrOfJoints := hinv.q_len
  have htake : cc.q.take cc.getNrOfJoints = cc.q := by rw [← hq, List.take_length]
  have hJ : cc.GeoJacobian = some (BaxterChain.jacSweep cc.q cc.getNrOfJoints cc.segments).2.2 := by
    have hlt : ¬ cc.q.length < cc.getNrOfJoints := by omega
    simp only [BaxterChain.GeoJacobian, hlt, if_false, htake,
      BaxterChain.JntToJac_eq_jacSweep cc cc.q hinv hq, Option.map_some']
  obtain ⟨k, -, hframe⟩ := BaxterChain.getHFrame_eq cc (cc.q.length - 1) hinv (by omega)
  have hH : cc.getHEnd = some (BaxterChain.KDLFrameToEigen (BaxterChain.poseProduct cc.q
      (if cc.q.length - 1 + 1 = cc.getNrOfJoints then cc.segments
       else cc.segments.take (k + 1)))) := by
    have hne : ¬ cc.q.length = 0 := by omega
    simp only [BaxterChain.getHEnd, hne, if_false, BaxterChain.getH, hframe, Option.map_some']
  simp only [projection, hJ, hH]
  refine ⟨_, rfl, ?_⟩
  rw [List.length_map]
  exact (BaxterChain.jacSweep_fst cc.q cc.getNrOfJoints cc.segments).2.2

theorem length_shapeRows (mag : K) (v V : VLim K) (s : List K) :
    (shapeRows mag v V s).length = V.length := by
  induction v generalizing V s with
  | nil => simp [shapeRows]
  | cons o os ih =>
    cases V with
    | nil => simp [shapeRows]
    | cons c cs =>
      cases s with
      | nil => simp [shapeRows]
      | cons sj ss => simp [shapeRows, ih]

theorem pointsLoop_isSome (ctrlChains : List (BaxterChain K)) (v_lim : VLim K)
    (hwf : ∀ cc ∈ ctrlChains, cc.Inv ∧ 1 ≤ cc.getNrOfJoints ∧ cc.getNrOfJoints ≤ v_lim.length)
    (collPoints : List (CollisionPoint K)) (i : Nat) (V : VLim K)
    (hV : V.length = v_lim.length) (hlen : i + collPoints.length ≤ ctrlChains.length) :
    ∃ r, pointsLoop ctrlChains v_lim collPoints i V = some r := by
  induction collPoints generalizing i V with
  | nil => exact ⟨V, rfl⟩
  | cons cp rest ih =>
    have hi : i < ctrlChains.length := by simp only [List.length_cons] at hlen; omega
    obtain ⟨hinv, h1, h2⟩ := hwf ctrlChains[i] (List.getElem_mem hi)
    obtain ⟨s, hs, hsl⟩ := projection_of_inv ctrlChains[i] hinv h1
    have hcond : s.length ≤ v_lim.length ∧ s.length ≤ V.length := by
      rw [hV, hsl]; exact ⟨h2, h2⟩
    simp only [pointsLoop, List.getElem?_eq_getElem hi, hs, shapeLoop_eq, hcond, and_self,
      if_true]
    exact ih (i + 1) _ (by rw [length_shapeRows, hV])
      (by simp only [List.length_cons] at hlen; omega)

/-- C2: when every row of `v_lim` has lower <= upper, every row of the matrix
that `AvoidanceHandlerTactile::getV_LIM` returns has lower <= upper, whatever
the collision points, their magnitudes and their control chains are.  A matrix
is returned whenever every collision point has a control chain and every
control chain satisfies the chain invariant and has at least one joint and at
most as many joints as `v_lim` has rows. -/
theorem getV_LIM_lower_le_upper (collPoints : List (CollisionPoint K))
    (ctrlChains : List (BaxterChain K)) (v_lim : VLim K)
    (hrows : ∀ row ∈ v_lim, row.1 ≤ row.2) :
    (∀ r, getV_LIM collPoints ctrlChains v_lim = some r → ∀ row ∈ r, row.1 ≤ row.2) ∧
    (collPoints.length ≤ ctrlChains.length →
      (∀ cc ∈ ctrlChains, cc.Inv ∧ 1 ≤ cc.getNrOfJoints ∧ cc.getNrOfJoints ≤ v_lim.length) →
      ∃ r, getV_LIM collPoints ctrlChains v_lim = some r) :=
  ⟨fun r hret => pointsLoop_fst_le_snd ctrlChains v_lim collPoints 0 v_lim r hrows hret,
   fun hlen hwf => pointsLoop_isSome ctrlChains v_lim hwf collPoints 0 v_lim rfl
     (by omega)⟩

/-- C2 at the bounds `[1, 2]`, shaped by a point of magnitude 1 on the chain
`jointX, linkZ`: the result is `[0, 0]`. -/
theorem getV_LIM_lower_le_upper_witness :
    (∀ row ∈ [((1 : ℚ), (2 : ℚ))], row.1 ≤ row.2) ∧
    getV_LIM [Example.point 1] [Example.chainJF] [((1 : ℚ), (2 : ℚ))] = some [(0, 0)] ∧
    (∀ row ∈ [((0 : ℚ), (0 : ℚ))], row.1 ≤ row.2) :=
  ⟨by norm_num, Example.getV_LIM_chainJF_one,
   (getV_LIM_lower_le_upper [Example.point 1] [Example.chainJF] [(1, 2)]
     (by norm_num)).1 [(0, 0)] Example.getV_LIM_chainJF_one⟩

/-- C3, as the code has it: when every row of `v_lim` has lower <= 0 <= upper
and every magnitude lies in [0,1], `getV_LIM` only narrows: in every row the
returned lower bound is >= the input lower bound and the returned upper bound
is <= the input upper bound.  A matrix is returned whenever every collision
point has a control chain and every control chain satisfies the chain
invariant and has at least one joint and at most as many joints as `v_lim`
has rows. -/
theorem getV_LIM_narrows (collPoints : List (CollisionPoint K))
    (ctrlChains : List (BaxterChain K)) (v_lim : VLim K)
    (hrows : ∀ row ∈ v_lim, row.1 ≤ 0 ∧ 0 ≤ row.2)
    (hmag : ∀ cp ∈ collPoints, 0 ≤ cp.mag ∧ cp.mag ≤ 1) :
    (∀ r, getV_LIM collPoints ctrlChains v_lim = some r →
      List.Forall₂ (fun o n => o.1 ≤ n.1 ∧ n.2 ≤ o.2) v_lim r) ∧
    (collPoints.length ≤ ctrlChains.length →
      (∀ cc ∈ ctrlChains, cc.Inv ∧ 1 ≤ cc.getNrOfJoints ∧ cc.getNrOfJoints ≤ v_lim.length) →
      ∃ r, getV_LIM collPoints ctrlChains v_lim = some r) := by
  refine ⟨fun r hret => ?_, fun hlen hwf =>
    pointsLoop_isSome ctrlChains v_lim hwf collPoints 0 v_lim rfl (by omega)⟩
  have h := pointsLoop_inside ctrlChains v_lim collPoints 0 v_lim r hmag
    (inside_self v_lim hrows) hret
  exact List.Forall₂.imp (fun o n hon => ⟨hon.1, hon.2.2.2⟩) h

/-- C3 (amended) at the bounds `[-1, 1]`, shaped by a point of magnitude 1/2 on
the chain `jointX, linkZ`: the result is `[-1, 1/2]`. -/
theorem getV_LIM_narrows_witness :
    (∀ row ∈ [((-1 : ℚ), (1 : ℚ))], row.1 ≤ 0 ∧ 0 ≤ row.2) ∧
    (∀ cp ∈ [Example.point (1 / 2)], 0 ≤ cp.mag ∧ cp.mag ≤ 1) ∧
    getV_LIM [Example.point (1 / 2)] [Example.chainJF] [((-1 : ℚ), (1 : ℚ))]
      = some [(-1, 1 / 2)] ∧
    List.Forall₂ (fun o n => o.1 ≤ n.1 ∧ n.2 ≤ o.2) [((-1 : ℚ), (1 : ℚ))] [((-1 : ℚ), (1 / 2 : ℚ))] :=
  ⟨by norm_num, by norm_num [Example.point], Example.getV_LIM_chainJF_half,
   (getV_LIM_narrows [Example.point (1 / 2)] [Example.chainJF] [(-1, 1)]
     (by norm_num) (by norm_num [Example.point])).1 [(-1, 1 / 2)]
     Example.getV_LIM_chainJF_half⟩

/-- C3 fails as stated: the bounds `[1, 2]` have lower <= upper, the magnitude
1 lies in [0,1], and `getV_LIM` returns `[0, 0]`, whose lower bound is below
the input lower bound. -/
theorem getV_LIM_lowers_lower_bound :
    ¬ (∀ (collPoints : List (CollisionPoint ℚ)) (ctrlChains : List (BaxterChain ℚ))
        (v_lim r : VLim ℚ), (∀ row ∈ v_lim, row.1 ≤ row.2) →
        (∀ cp ∈ collPoints, 0 ≤ cp.mag ∧ cp.mag ≤ 1) →
        getV_LIM collPoints ctrlChains v_lim = some r →
        List.Forall₂ (fun o n => o.1 ≤ n.1 ∧ n.2 ≤ o.2) v_lim r) := by
  intro h
  have h1 := h [Example.point 1] [Example.chainJF] [(1, 2)] [(0, 0)] (by norm_num)
    (by norm_num [Example.point]) Example.getV_LIM_chainJF_one
  simp only [List.forall₂_cons, List.Forall₂.nil, and_true] at h1
  norm_num at h1

/-- C4, as the code has it: when every row of `v_lim` has lower <= 0 <= upper
and every magnitude lies in [0,1], `getV_LIM` returns the same for every
reordering of the (collision point, control chain) pairs, and what it returns
is `v_lim` intersected with the shrink of every single pair. -/
theorem getV_LIM_order_independent (ps : List (CollisionPoint K × BaxterChain K))
    (v_lim : VLim K) (hrows : ∀ row ∈ v_lim, row.1 ≤ 0 ∧ 0 ≤ row.2)
    (hmag : ∀ p ∈ ps, 0 ≤ p.1.mag ∧ p.1.mag ≤ 1) :
    (∀ qs : List (CollisionPoint K × BaxterChain K), qs.Perm ps →
      getV_LIM (qs.map Prod.fst) (qs.map Prod.snd) v_lim =
        getV_LIM (ps.map Prod.fst) (ps.map Prod.snd) v_lim) ∧
    (∀ rs : List (VLim K),
      List.Forall₂ (fun p r => getV_LIM [p.1] [p.2] v_lim = some r) ps rs →
      getV_LIM (ps.map Prod.fst) (ps.map Prod.snd) v_lim = some (rs.foldl intersect v_lim)) := by
  have hin := inside_self v_lim hrows
  constructor
  · intro qs hperm
    have hmagq : ∀ p ∈ qs, 0 ≤ p.1.mag ∧ p.1.mag ≤ 1 := fun p hp => hmag p (hperm.subset hp)
    rw [getV_LIM_eq_foldl, getV_LIM_eq_foldl, foldl_shapePoint_closed v_lim qs hmagq v_lim hin,
      foldl_shapePoint_closed v_lim ps hmag v_lim hin]
    have hcond : (∀ p ∈ qs, (shapePoint v_lim v_lim p).isSome = true) ↔
        (∀ p ∈ ps, (shapePoint v_lim v_lim p).isSome = true) :=
      ⟨fun h p hp => h p (hperm.symm.subset hp), fun h p hp => h p (hperm.subset hp)⟩
    by_cases hc : ∀ p ∈ ps, (shapePoint v_lim v_lim p).isSome = true
    · rw [if_pos hc, if_pos (hcond.2 hc)]
      congr 1
      exact List.Perm.foldl_eq' (hperm.map _)
        (fun x _ y _ z => intersect_right_comm z x y) v_lim
    · rw [if_neg hc, if_neg (fun h => hc (hcond.1 h))]
  · intro rs hrs
    rw [getV_LIM_eq_foldl, foldl_shapePoint_closed v_lim ps hmag v_lim hin]
    have hall : (∀ p ∈ ps, (shapePoint v_lim v_lim p).isSome = true) ∧
        ps.map (fun p => (shapePoint v_lim v_lim p).getD v_lim) = rs := by
      clear hmag
      induction hrs with
      | nil => simp
      | @cons p r ps rs hpr _ ih =>
        rw [getV_LIM_singleton] at hpr
        simp only [List.forall_mem_cons, List.map_cons, hpr, Option.isSome_some,
          Option.getD_some, true_and, List.cons.injEq]
        exact ih
    rw [if_pos hall.1, hall.2]

theorem individual_J :
    getV_LIM [Example.point (1 / 2)] [Example.chainJ] [((-1 : ℚ), (1 : ℚ))]
      = some [(-1, 1 / 2)] := by
  norm_num [getV_LIM, pointsLoop, Example.projection_chainJ, shapeLoop, shapeJoint,
    Example.point]

theorem individual_Z :
    getV_LIM [Example.point (1 / 4)] [Example.chainZ] [((-1 : ℚ), (1 : ℚ))]
      = some [(-3 / 4, 1)] := by
  norm_num [getV_LIM, pointsLoop, Example.projection_chainZ, shapeLoop, shapeJoint,
    Example.point]

/-- C4 (amended) at the bounds `[-1, 1]` and two pairs, one that shapes the
upper bound (magnitude 1/2) and one that shapes the lower bound (magnitude
1/4): both orders give `[-3/4, 1/2]`, the intersection of the two shrinks. -/
theorem getV_LIM_order_independent_witness :
    (∀ row ∈ [((-1 : ℚ), (1 : ℚ))], row.1 ≤ 0 ∧ 0 ≤ row.2) ∧
    (∀ p ∈ [(Example.point (1 / 2), Example.chainJ), (Example.point (1 / 4), Example.chainZ)],
      0 ≤ p.1.mag ∧ p.1.mag ≤ 1) ∧
    getV_LIM [Example.point (1 / 4), Example.point (1 / 2)] [Example.chainZ, Example.chainJ]
        [((-1 : ℚ), (1 : ℚ))] =
      getV_LIM [Example.point (1 / 2), Example.point (1 / 4)] [Example.chainJ, Example.chainZ]
        [((-1 : ℚ), (1 : ℚ))] ∧
    getV_LIM [Example.point (1 / 2), Example.point (1 / 4)] [Example.chainJ, Example.chainZ]
        [((-1 : ℚ), (1 : ℚ))] =
      some (intersect (intersect [((-1 : ℚ), (1 : ℚ))] [(-1, 1 / 2)]) [(-3 / 4, 1)]) :=
  have hrows : ∀ row ∈ [((-1 : ℚ), (1 : ℚ))], row.1 ≤ 0 ∧ 0 ≤ row.2 := by norm_num
  have hmag : ∀ p ∈ [(Example.point (1 / 2), Example.chainJ),
      (Example.point (1 / 4), Example.chainZ)], 0 ≤ p.1.mag ∧ p.1.mag ≤ 1 := by
    norm_num [Example.point]
  ⟨hrows, hmag,
   (getV_LIM_order_independent _ _ hrows hmag).1
     [(Example.point (1 / 4), Example.chainZ), (Example.point (1 / 2), Example.chainJ)]
     (List.Perm.swap _ _ _),
   (getV_LIM_order_independent _ _ hrows hmag).2 [[(-1, 1 / 2)], [(-3 / 4, 1)]]
     (List.Forall₂.cons individual_J
       (List.Forall₂.cons individual_Z List.Forall₂.nil))⟩

/-- C4 fails as stated: the bounds `[1, 2]` have lower <= upper and the
magnitudes 1 and 0 lie in [0,1], yet the two orders of the same two pairs
return `[1, 1]` and `[0, 0]`. -/
theorem getV_LIM_order_matters :
    ¬ (∀ (ps qs : List (CollisionPoint ℚ × BaxterChain ℚ)) (v_lim : VLim ℚ),
        (∀ row ∈ v_lim, row.1 ≤ row.2) → (∀ p ∈ ps, 0 ≤ p.1.mag ∧ p.1.mag ≤ 1) →
        qs.Perm ps →
        getV_LIM (qs.map Prod.fst) (qs.map Prod.snd) v_lim =
          getV_LIM (ps.map Prod.fst) (ps.map Prod.snd) v_lim) := by
  intro h
  have h1 := h [(Example.point 1, Example.chainJ), (Example.point 0, Example.chainZ)]
    [(Example.point 0, Example.chainZ), (Example.point 1, Example.chainJ)] [(1, 2)]
    (by norm_num) (by norm_num [Example.point]) (List.Perm.swap _ _ _)
  simp only [List.map_cons, List.map_nil, Example.getV_LIM_JZ, Example.getV_LIM_ZJ] at h1
  norm_num at h1

end AvoidanceHandlerTactile

namespace BaxterChain
variable {K : Type}

theorem conservativeResize_succ (v : List K) (n : Nat) (fresh : K) (h : v.length = n) :
    conservativeResize v (n + 1) fresh = v ++ [fresh] := by
  subst h
  simp [conservativeResize, List.take_of_length_le]

theorem take_append_singleton (v : List K) (n : Nat) (a : K) (h : v.length = n) :
    (v ++ [a]).take n = v := by
  subst h
  simp

/-- C16: in a chain that satisfies the invariant, `removeSegment` right after
`addSegment(s)` gives back the chain: the same segments, the same counters and
the same `q`, `lb`, `ub`, whether `s` carries a joint or not. -/
theorem removeSegment_addSegment (c : BaxterChain K) (s : Segment K) (u : Uninit K)
    (hinv : Inv c) : (c.addSegment s u).removeSegment = some c := by
  obtain ⟨-, -, hq, hl, hu⟩ := hinv
  simp only [getNrOfJoints] at hq hl hu
  cases c with
  | mk nJ nS segs q lb ub =>
    simp only at hq hl hu
    by_cases hs : s.hasJoint = true
    · simp [BaxterChain.addSegment, hs, BaxterChain.removeSegment,
        conservativeResize_succ _ _ _ hq, conservativeResize_succ _ _ _ hl,
        conservativeResize_succ _ _ _ hu, take_append_singleton _ _ _ hq,
        take_append_singleton _ _ _ hl, take_append_singleton _ _ _ hu]
    · have hs1 : s.hasJoint = false := by simpa using hs
      simp [BaxterChain.addSegment, hs1, BaxterChain.removeSegment]

/-- C16 at the chain `jointX, linkZ` and the segment `jointZ`. -/
theorem removeSegment_addSegment_witness :
    Inv Example.chainJF ∧
    (Example.chainJF.addSegment Example.jointZ Example.fresh).removeSegment =
      some Example.chainJF :=
  have h : Inv Example.chainJF := inv_addSegment (inv_addSegment inv_empty _ _) _ _
  ⟨h, removeSegment_addSegment Example.chainJF Example.jointZ Example.fresh h⟩

/-- C19, as the code has it: in a chain that satisfies the invariant,
`addSegment(s)` appends `s` as the last segment and adds one to the segment
count; if `s` carries a joint, the joint count grows by one and `q`, `lb`, `ub`
each gain one entry after the old ones, which holds whatever the storage held
(`conservativeResize` does not initialise it); if `s` carries no joint, the
joint count, `q`, `lb` and `ub` are unchanged. -/
theorem addSegment_effect (c : BaxterChain K) (s : Segment K) (u : Uninit K) (hinv : Inv c) :
    (c.addSegment s u).segments = c.segments ++ [s] ∧
    (c.addSegment s u).getNrOfSegments = c.getNrOfSegments + 1 ∧
    (s.jointType ≠ JointType.None →
      (c.addSegment s u).getNrOfJoints = c.getNrOfJoints + 1 ∧
      (c.addSegment s u).q = c.q ++ [u.q] ∧ (c.addSegment s u).lb = c.lb ++ [u.lb] ∧
      (c.addSegment s u).ub = c.ub ++ [u.ub]) ∧
    (s.jointType = JointType.None →
      (c.addSegment s u).getNrOfJoints = c.getNrOfJoints ∧
      (c.addSegment s u).q = c.q ∧ (c.addSegment s u).lb = c.lb ∧
      (c.addSegment s u).ub = c.ub) := by
  obtain ⟨-, -, hq, hl, hu⟩ := hinv
  simp only [getNrOfJoints] at hq hl hu
  refine ⟨?_, ?_, ?_, ?_⟩
  · unfold BaxterChain.addSegment; split_ifs <;> rfl
  · unfold BaxterChain.addSegment; split_ifs <;> rfl
  · intro hs
    have hs1 : s.hasJoint = true := by simpa [Segment.hasJoint] using hs
    simp [BaxterChain.addSegment, hs1, getNrOfJoints, conservativeResize_succ _ _ _ hq,
      conservativeResize_succ _ _ _ hl, conservativeResize_succ _ _ _ hu]
  · intro hs
    have hs1 : s.hasJoint = false := by simp [Segment.hasJoint, hs]
    simp [BaxterChain.addSegment, hs1, getNrOfJoints]

/-- C19 (amended) at the chain `jointX, linkZ` and the segment `jointZ`. -/
theorem addSegment_effect_witness :
    Inv Example.chainJF ∧
    (Example.chainJF.addSegment Example.jointZ ⟨3, 5, 7⟩).segments =
      Example.chainJF.segments ++ [Example.jointZ] ∧
    (Example.chainJF.addSegment Example.jointZ ⟨3, 5, 7⟩).getNrOfJoints = 2 ∧
    (Example.chainJF.addSegment Example.jointZ ⟨3, 5, 7⟩).q = [0, 7] ∧
    (Example.chainJF.addSegment Example.jointZ ⟨3, 5, 7⟩).lb = [0, 3] ∧
    (Example.chainJF.addSegment Example.jointZ ⟨3, 5, 7⟩).ub = [0, 5] :=
  have h : Inv Example.chainJF := inv_addSegment (inv_addSegment inv_empty _ _) _ _
  have hj : Example.jointZ.jointType ≠ JointType.None := by decide
  have e := addSegment_effect Example.chainJF Example.jointZ ⟨3, 5, 7⟩ h
  ⟨h, e.1, (e.2.2.1 hj).1, (e.2.2.1 hj).2.1, (e.2.2.1 hj).2.2.1, (e.2.2.1 hj).2.2.2⟩

/-- C19 fails as stated: `addSegment` of a segment with a joint on the empty
chain, when the storage that `q` grows into holds 7, leaves 7 as the new joint
angle, not 0. -/
theorem addSegment_new_angle_not_zero :
    ¬ (∀ (c : BaxterChain ℚ) (s : Segment ℚ) (u : Uninit ℚ), Inv c →
        s.jointType ≠ JointType.None → (c.addSegment s u).q = c.q ++ [0]) := by
  intro h
  have h1 := h BaxterChain.empty Example.jointX ⟨0, 0, 7⟩ inv_empty (by decide)
  have h2 : ((BaxterChain.empty : BaxterChain ℚ).addSegment Example.jointX ⟨0, 0, 7⟩).q = [7] :=
    rfl
  rw [h2] at h1
  simp [BaxterChain.empty] at h1

end BaxterChain

namespace BaxterChain
variable {K : Type}

theorem removeSegment_snoc {c : BaxterChain K} (h : Inv c) (pre : List (Segment K))
    (back : Segment K) (hseg : c.segments = pre ++ [back]) :
    c.removeSegment = some
      (if back.hasJoint then
        { c with nrOfJoints := c.nrOfJoints - 1
                 lb := c.lb.take (c.nrOfJoints - 1)
                 ub := c.ub.take (c.nrOfJoints - 1)
                 q := c.q.take (c.nrOfJoints - 1)
                 segments := pre
                 nrOfSegments := c.nrOfSegments - 1 }
       else { c with segments := pre, nrOfSegments := c.nrOfSegments - 1 }) := by
  obtain ⟨hj, hs, -, -, -⟩ := h
  simp only [getNrOfJoints, getNrOfSegments, jointSegments, hseg, List.countP_append,
    List.length_append, List.length_singleton, List.countP_singleton] at hj hs
  unfold BaxterChain.removeSegment
  simp only [hseg, List.getLast?_append, List.getLast?_singleton, List.dropLast_concat,
    Option.or_some]
  by_cases hb : back.hasJoint = true
  · simp only [hb, if_true] at hj ⊢
    have hn : ¬ (c.nrOfJoints = 0 ∨ c.nrOfSegments = 0) := by omega
    simp only [hn, if_false]
  · have hb1 : back.hasJoint = false := by simpa using hb
    simp only [hb1, Bool.false_eq_true, if_false] at hj ⊢
    have hn : ¬ c.nrOfSegments = 0 := by omega
    simp only [hn, if_false]

theorem exists_last_joint (segs : List (Segment K)) (h : ∃ s ∈ segs, s.hasJoint = true) :
    ∃ pre j post, segs = pre ++ j :: post ∧ j.hasJoint = true ∧
      ∀ s ∈ post, s.hasJoint = false := by
  induction segs using List.reverseRecOn with
  | nil => obtain ⟨s, hs, -⟩ := h; simp at hs
  | append_singleton l a ih =>
    by_cases ha : a.hasJoint = true
    · exact ⟨l, a, [], rfl, ha, by simp⟩
    · have ha1 : a.hasJoint = false := by simpa using ha
      obtain ⟨s, hs, hsj⟩ := h
      rw [List.mem_append, List.mem_singleton] at hs
      have hl : ∃ s ∈ l, s.hasJoint = true := by
        rcases hs with hs | rfl
        · exact ⟨s, hs, hsj⟩
        · exact absurd hsj ha
      obtain ⟨pre, j, post, hdec, hj, hpost⟩ := ih hl
      refine ⟨pre, j, post ++ [a], by rw [hdec]; simp, hj, ?_⟩
      intro t ht
      rw [List.mem_append, List.mem_singleton] at ht
      rcases ht with ht | rfl
      · exact hpost t ht
      · exact ha1

theorem removeJointLoop_spec (pre : List (Segment K)) (j : Segment K) (hj : j.hasJoint = true)
    (post : List (Segment K)) :
    ∀ (c : BaxterChain K) (fuel : Nat), Inv c → c.segments = pre ++ j :: post →
      (∀ s ∈ post, s.hasJoint = false) → post.length + 1 ≤ fuel →
      ∃ c1, c.removeJointLoop fuel = some c1 ∧ c1.segments = pre ∧
        c1.nrOfSegments = pre.length ∧ c1.nrOfJoints + 1 = c.nrOfJoints ∧
        c1.q = c.q.take (c.nrOfJoints - 1) ∧ c1.lb = c.lb.take (c.nrOfJoints - 1) ∧
        c1.ub = c.ub.take (c.nrOfJoints - 1) := by
  induction post using List.reverseRecOn with
  | nil =>
    intro c fuel hinv hseg _ hfuel
    obtain ⟨f, rfl⟩ : ∃ f, fuel = f + 1 := ⟨fuel - 1, by omega⟩
    have hrem := removeSegment_snoc hinv pre j hseg
    have hlast : c.segments.getLast? = some j := by
      rw [hseg]; simp only [List.getLast?_append, List.getLast?_cons_cons, List.getLast?_singleton, Option.or_some]
    obtain ⟨hcj, hcs, -, -, -⟩ := hinv
    simp only [getNrOfJoints, getNrOfSegments, jointSegments, hseg, List.countP_append,
      List.length_append, List.length_singleton, List.countP_singleton, hj, if_true] at hcj hcs
    simp only [BaxterChain.removeJointLoop, hlast, hj, if_true, hrem]
    exact ⟨_, rfl, rfl, by simp only; omega, by simp only; omega, rfl, rfl, rfl⟩
  | append_singleton post a ih =>
    intro c fuel hinv hseg hpost hfuel
    have ha : a.hasJoint = false := hpost a (by simp)
    have hseg1 : c.segments = (pre ++ j :: post) ++ [a] := by rw [hseg]; simp
    obtain ⟨f, rfl⟩ : ∃ f, fuel = f + 1 := ⟨fuel - 1, by omega⟩
    have hrem := removeSegment_snoc hinv (pre ++ j :: post) a hseg1
    have hlast : c.segments.getLast? = some a := by
      rw [hseg1]; simp only [List.getLast?_append, List.getLast?_singleton, Option.or_some]
    simp only [ha, Bool.false_eq_true, if_false] at hrem
    have hinv2 := inv_removeSegment hinv hrem
    simp only [BaxterChain.removeJointLoop, hlast, ha, Bool.false_eq_true, if_false, hrem,
      Option.some_bind]
    have := ih _ f hinv2 rfl (fun s hs => hpost s (by simp [hs]))
      (by simp only [List.length_append, List.length_singleton] at hfuel; omega)
    exact this

/-- C17: in a chain that satisfies the invariant and holds a segment with a
joint, `removeJoint` ends with a chain (it never reads the back of an empty
segment list): the segments left are those before the last segment with a
joint, the joint count is one less, and `q`, `lb`, `ub` keep their first
`getNrOfJoints()-1` entries. -/
theorem removeJoint_spec (c : BaxterChain K) (hinv : Inv c)
    (hj : ∃ s ∈ c.segments, s.jointType ≠ JointType.None) :
    ∃ c1 pre j post, c.removeJoint = some c1 ∧ c.segments = pre ++ j :: post ∧
      j.jointType ≠ JointType.None ∧ (∀ s ∈ post, s.jointType = JointType.None) ∧
      c1.segments = pre ∧ c1.getNrOfSegments = pre.length ∧
      c1.getNrOfJoints + 1 = c.getNrOfJoints ∧
      c1.q = c.q.take (c.getNrOfJoints - 1) ∧ c1.lb = c.lb.take (c.getNrOfJoints - 1) ∧
      c1.ub = c.ub.take (c.getNrOfJoints - 1) := by
  have hj1 : ∃ s ∈ c.segments, s.hasJoint = true := by
    obtain ⟨s, hs, hsj⟩ := hj
    exact ⟨s, hs, by simpa [Segment.hasJoint] using hsj⟩
  obtain ⟨pre, j, post, hdec, hjj, hpost⟩ := exists_last_joint c.segments hj1
  obtain ⟨c1, h1, h2, h3, h4, h5, h6, h7⟩ :=
    removeJointLoop_spec pre j hjj post c (c.segments.length + 1) hinv hdec hpost
      (by rw [hdec]; simp; omega)
  refine ⟨c1, pre, j, post, h1, hdec, by simpa [Segment.hasJoint] using hjj, ?_,
    h2, h3, h4, h5, h6, h7⟩
  intro s hs
  simpa [Segment.hasJoint] using hpost s hs

/-- C17 at the chain `jointX, linkZ, jointZ, linkZ`: the chain left is
`jointX, linkZ` with one joint. -/
theorem removeJoint_spec_witness :
    Inv (Example.chainJFJ.addSegment Example.linkZ Example.fresh) ∧
    (∃ s ∈ (Example.chainJFJ.addSegment Example.linkZ Example.fresh).segments,
      s.jointType ≠ JointType.None) ∧
    (Example.chainJFJ.addSegment Example.linkZ Example.fresh).removeJoint =
      some Example.chainJF ∧
    ∃ c1 pre j post,
      (Example.chainJFJ.addSegment Example.linkZ Example.fresh).removeJoint = some c1 ∧
      (Example.chainJFJ.addSegment Example.linkZ Example.fresh).segments = pre ++ j :: post ∧
      j.jointType ≠ JointType.None ∧ (∀ s ∈ post, s.jointType = JointType.None) ∧
      c1.segments = pre ∧ c1.getNrOfSegments = pre.length ∧
      c1.getNrOfJoints + 1 =
        (Example.chainJFJ.addSegment Example.linkZ Example.fresh).getNrOfJoints ∧
      c1.q = (Example.chainJFJ.addSegment Example.linkZ Example.fresh).q.take
        ((Example.chainJFJ.addSegment Example.linkZ Example.fresh).getNrOfJoints - 1) ∧
      c1.lb = (Example.chainJFJ.addSegment Example.linkZ Example.fresh).lb.take
        ((Example.chainJFJ.addSegment Example.linkZ Example.fresh).getNrOfJoints - 1) ∧
      c1.ub = (Example.chainJFJ.addSegment Example.linkZ Example.fresh).ub.take
        ((Example.chainJFJ.addSegment Example.linkZ Example.fresh).getNrOfJoints - 1) :=
  have h : Inv (Example.chainJFJ.addSegment Example.linkZ Example.fresh) :=
    inv_addSegment (reachable_inv reachable_chainJFJ) _ _
  have hj : ∃ s ∈ (Example.chainJFJ.addSegment Example.linkZ Example.fresh).segments,
      s.jointType ≠ JointType.None :=
    ⟨Example.jointX, List.mem_cons_self _ _, by decide⟩
  ⟨h, hj, rfl, removeJoint_spec _ h hj⟩

end BaxterChain

namespace BaxterChain
variable {K : Type} [Field K]

theorem JntToJac_of_inv (c : BaxterChain K) (q_in : List K) (n : Nat) (hinv : Inv c)
    (hq : q_in.length = c.getNrOfJoints) (hn : n ≤ c.getNrOfSegments) :
    ∃ jac, JntToJacLoop c q_in n 0 0 0 Frame.Identity (SetToZero c.getNrOfJoints) = some jac := by
  obtain ⟨hj, hs, -, -, -⟩ := hinv
  simp only [jointSegments] at hj
  have hcount : ((c.segments.drop 0).take n).countP Segment.hasJoint ≤ c.getNrOfJoints := by
    rw [List.drop_zero, hj]
    exact (List.take_sublist n c.segments).countP_le _
  exact ⟨_, JntToJacLoop_eq c q_in n 0 0 Frame.Identity (SetToZero c.getNrOfJoints)
    (by omega) (by omega) (by simp only [SetToZero, List.length_replicate]; omega)⟩

/-- C18: `JntToJac` returns false exactly when the number of rows of `q_in`
differs from `getNrOfJoints()`, or the number of columns of `jac` differs from
`getNrOfJoints()`, or the segment count asked for (the whole chain for a
negative `seg_nr`) exceeds `getNrOfSegments()`; the Jacobian it leaves then is
all zeros.  In every other case a call that returns returns true, and in a
chain that satisfies the invariant the call does return. -/
theorem JntToJac_returns_false_iff (c : BaxterChain K) (q_in : List K) (columns : Nat)
    (seg_nr : Int) :
    (∀ jac, JntToJac c q_in columns seg_nr = some (false, jac) ↔
      ((q_in.length ≠ c.getNrOfJoints ∨ c.getNrOfJoints ≠ columns ∨
          (if seg_nr < 0 then c.getNrOfSegments else seg_nr.toNat) > c.getNrOfSegments) ∧
        jac = SetToZero columns)) ∧
    (SetToZero columns : Jacobian K).length = columns ∧
    (∀ t ∈ (SetToZero columns : Jacobian K), t = Twist.Zero) ∧
    (¬ (q_in.length ≠ c.getNrOfJoints ∨ c.getNrOfJoints ≠ columns ∨
          (if seg_nr < 0 then c.getNrOfSegments else seg_nr.toNat) > c.getNrOfSegments) →
      (∀ r, JntToJac c q_in columns seg_nr = some r → r.1 = true) ∧
      (Inv c → ∃ jac, JntToJac c q_in columns seg_nr = some (true, jac))) := by
  have hval : JntToJac c q_in columns seg_nr =
      if q_in.length ≠ c.getNrOfJoints ∨ c.getNrOfJoints ≠ columns then
        some (false, SetToZero columns)
      else if (if seg_nr < 0 then c.getNrOfSegments else seg_nr.toNat) > c.getNrOfSegments then
        some (false, SetToZero columns)
      else (JntToJacLoop c q_in (if seg_nr < 0 then c.getNrOfSegments else seg_nr.toNat)
        0 0 0 Frame.Identity (SetToZero columns)).map (fun r => (true, r)) := rfl
  have hfail : (q_in.length ≠ c.getNrOfJoints ∨ c.getNrOfJoints ≠ columns ∨
      (if seg_nr < 0 then c.getNrOfSegments else seg_nr.toNat) > c.getNrOfSegments) →
      JntToJac c q_in columns seg_nr = some (false, SetToZero columns) := by
    intro hc
    rw [hval]
    by_cases h1 : q_in.length ≠ c.getNrOfJoints ∨ c.getNrOfJoints ≠ columns
    · rw [if_pos h1]
    · rw [if_neg h1]
      have h2 : (if seg_nr < 0 then c.getNrOfSegments else seg_nr.toNat) > c.getNrOfSegments := by
        rcases hc with h | h | h
        · exact absurd (Or.inl h) h1
        · exact absurd (Or.inr h) h1
        · exact h
      rw [if_pos h2]
  have hok : ¬ (q_in.length ≠ c.getNrOfJoints ∨ c.getNrOfJoints ≠ columns ∨
      (if seg_nr < 0 then c.getNrOfSegments else seg_nr.toNat) > c.getNrOfSegments) →
      JntToJac c q_in columns seg_nr =
        (JntToJacLoop c q_in (if seg_nr < 0 then c.getNrOfSegments else seg_nr.toNat)
          0 0 0 Frame.Identity (SetToZero columns)).map (fun r => (true, r)) := by
    intro hc
    have h1 : ¬ (q_in.length ≠ c.getNrOfJoints ∨ c.getNrOfJoints ≠ columns) :=
      fun h => hc (h.elim Or.inl (fun h => Or.inr (Or.inl h)))
    have h2 : ¬ (if seg_nr < 0 then c.getNrOfSegments else seg_nr.toNat) > c.getNrOfSegments :=
      fun h => hc (Or.inr (Or.inr h))
    rw [hval, if_neg h1, if_neg h2]
  have htrue : ¬ (q_in.length ≠ c.getNrOfJoints ∨ c.getNrOfJoints ≠ columns ∨
      (if seg_nr < 0 then c.getNrOfSegments else seg_nr.toNat) > c.getNrOfSegments) →
      ∀ r, JntToJac c q_in columns seg_nr = some r → r.1 = true := by
    intro hc r hr
    rw [hok hc] at hr
    cases hloop : JntToJacLoop c q_in (if seg_nr < 0 then c.getNrOfSegments else seg_nr.toNat)
        0 0 0 Frame.Identity (SetToZero columns) with
    | none => rw [hloop] at hr; simp at hr
    | some jac =>
      rw [hloop] at hr
      simp only [Option.map_some', Option.some.injEq] at hr
      rw [← hr]
  refine ⟨?_, by simp [SetToZero], ?_, ?_⟩
  · intro jac
    constructor
    · intro hret
      by_cases hc : q_in.length ≠ c.getNrOfJoints ∨ c.getNrOfJoints ≠ columns ∨
          (if seg_nr < 0 then c.getNrOfSegments else seg_nr.toNat) > c.getNrOfSegments
      · refine ⟨hc, ?_⟩
        rw [hfail hc] at hret
        simp only [Option.some.injEq, Prod.mk.injEq, true_and] at hret
        exact hret.symm
      · have := htrue hc _ hret
        simp at this
    · rintro ⟨hc, rfl⟩
      exact hfail hc
  · intro t ht
    simp only [SetToZero] at ht
    exact List.eq_of_mem_replicate ht
  · intro hc
    refine ⟨htrue hc, ?_⟩
    intro hinv
    have hq : q_in.length = c.getNrOfJoints := by
      by_contra h; exact hc (Or.inl h)
    have hcol : c.getNrOfJoints = columns := by
      by_contra h; exact hc (Or.inr (Or.inl h))
    have hle : (if seg_nr < 0 then c.getNrOfSegments else seg_nr.toNat) ≤ c.getNrOfSegments := by
      by_contra h; exact hc (Or.inr (Or.inr (by omega)))
    obtain ⟨jac, hjac⟩ := JntToJac_of_inv c q_in
      (if seg_nr < 0 then c.getNrOfSegments else seg_nr.toNat) hinv hq hle
    rw [hcol] at hjac
    exact ⟨jac, by rw [hok hc, hjac]; rfl⟩

end BaxterChain

namespace AvoidanceHandlerTactile
variable {K : Type} [LinearOrderedField K]

theorem shapeRow_zero (o : K × K) (sj : K) (h : o.1 ≤ o.2) : shapeRow 0 o o sj = o := by
  unfold shapeRow
  simp only [sub_zero, mul_one, min_self, max_self]
  split_ifs
  · rw [min_eq_left h]
  · rw [max_eq_right h]

theorem shapeRows_zero (v : VLim K) (s : List K) (h : ∀ row ∈ v, row.1 ≤ row.2) :
    shapeRows 0 v v s = v := by
  induction v generalizing s with
  | nil => simp [shapeRows]
  | cons o os ih =>
    cases s with
    | nil => simp [shapeRows]
    | cons sj ss =>
      simp only [shapeRows]
      rw [shapeRow_zero o sj (h o (List.mem_cons_self _ _)),
        ih ss (fun r hr => h r (List.mem_cons_of_mem _ hr))]

theorem pointsLoop_zero (ctrlChains : List (BaxterChain K)) (v_lim : VLim K)
    (h : ∀ row ∈ v_lim, row.1 ≤ row.2) (collPoints : List (CollisionPoint K))
    (hmag : ∀ cp ∈ collPoints, cp.mag = 0) (i : Nat) (r : VLim K)
    (hr : pointsLoop ctrlChains v_lim collPoints i v_lim = some r) : r = v_lim := by
  induction collPoints generalizing i with
  | nil =>
    simp only [pointsLoop, Option.some.injEq] at hr
    exact hr.symm
  | cons cp rest ih =>
    simp only [pointsLoop] at hr
    cases hcc : ctrlChains[i]? with
    | none => simp [hcc] at hr
    | some cc =>
      simp only [hcc] at hr
      cases hproj : projection cc with
      | none => simp [hproj] at hr
      | some s =>
        simp only [hproj] at hr
        rw [shapeLoop_eq] at hr
        split_ifs at hr
        rw [hmag cp (List.mem_cons_self _ _), shapeRows_zero v_lim s h] at hr
        exact ih (fun c hc => hmag c (List.mem_cons_of_mem _ hc)) (i + 1) hr

/-- C14: when every row of `v_lim` has lower <= upper and every selected
collision point has magnitude 0, the matrix that `getV_LIM` returns is
`v_lim`, whatever the signs of `s_j` are.  A matrix is returned whenever every
collision point has a control chain and every control chain satisfies the
chain invariant and has at least one joint and at most as many joints as
`v_lim` has rows. -/
theorem getV_LIM_magnitude_zero (collPoints : List (CollisionPoint K))
    (ctrlChains : List (BaxterChain K)) (v_lim : VLim K)
    (hrows : ∀ row ∈ v_lim, row.1 ≤ row.2) (hmag : ∀ cp ∈ collPoints, cp.mag = 0) :
    (∀ r, getV_LIM collPoints ctrlChains v_lim = some r → r = v_lim) ∧
    (collPoints.length ≤ ctrlChains.length →
      (∀ cc ∈ ctrlChains, cc.Inv ∧ 1 ≤ cc.getNrOfJoints ∧ cc.getNrOfJoints ≤ v_lim.length) →
      getV_LIM collPoints ctrlChains v_lim = some v_lim) := by
  have h1 : ∀ r, getV_LIM collPoints ctrlChains v_lim = some r → r = v_lim :=
    fun r hr => pointsLoop_zero ctrlChains v_lim hrows collPoints hmag 0 r hr
  refine ⟨h1, fun hlen hwf => ?_⟩
  obtain ⟨r, hr⟩ := pointsLoop_isSome ctrlChains v_lim hwf collPoints 0 v_lim rfl (by omega)
  have hr' : getV_LIM collPoints ctrlChains v_lim = some r := hr
  rw [hr', h1 r hr']

/-- C14 at the bounds `[1, 2]` and two points of magnitude 0, one on a chain
with `s_0 >= 0` and one on a chain with `s_0 < 0`. -/
theorem getV_LIM_magnitude_zero_witness :
    (∀ row ∈ [((1 : ℚ), (2 : ℚ))], row.1 ≤ row.2) ∧
    (∀ cp ∈ [Example.point 0, Example.point 0], cp.mag = 0) ∧
    getV_LIM [Example.point 0, Example.point 0] [Example.chainJ, Example.chainZ]
      [((1 : ℚ), (2 : ℚ))] = some [(1, 2)] :=
  have hwf : ∀ cc ∈ [Example.chainJ, Example.chainZ],
      cc.Inv ∧ 1 ≤ cc.getNrOfJoints ∧ cc.getNrOfJoints ≤ [((1 : ℚ), (2 : ℚ))].length := by
    intro cc hcc
    simp only [List.mem_cons, List.mem_singleton, List.not_mem_nil, or_false] at hcc
    rcases hcc with rfl | rfl
    · exact ⟨BaxterChain.inv_addSegment BaxterChain.inv_empty _ _, by decide, by decide⟩
    · exact ⟨BaxterChain.inv_addSegment BaxterChain.inv_empty _ _, by decide, by decide⟩
  ⟨by norm_num, by norm_num [Example.point],
   (getV_LIM_magnitude_zero [Example.point 0, Example.point 0]
     [Example.chainJ, Example.chainZ] [(1, 2)] (by norm_num)
     (by norm_num [Example.point])).2 (by decide) hwf⟩

theorem shapeRows_getElem (mag : K) (v V : VLim K) (s : List K) (j : Nat) (o c : K × K)
    (sj : K) (ho : v[j]? = some o) (hc : V[j]? = some c) (hs : s[j]? = some sj) :
    (shapeRows mag v V s)[j]? = some (shapeRow mag o c sj) := by
  induction v generalizing V s j with
  | nil => simp at ho
  | cons o1 os ih =>
    cases V with
    | nil => simp at hc
    | cons c1 cs =>
      cases s with
      | nil => simp at hs
      | cons s1 ss =>
        cases j with
        | zero =>
          simp only [List.getElem?_cons_zero, Option.some.injEq] at ho hc hs
          subst ho hc hs
          simp [shapeRows]
        | succ j =>
          simp only [List.getElem?_cons_succ] at ho hc hs
          simp only [shapeRows, List.getElem?_cons_succ]
          exact ih cs ss j ho hc hs

theorem shapePoint_row (v_lim V V1 : VLim K) (p : CollisionPoint K × BaxterChain K)
    (s : List K) (j : Nat) (sj : K) (o cur : K × K)
    (hstep : shapePoint v_lim V p = some V1) (hproj : projection p.2 = some s)
    (hsj : s[j]? = some sj) (ho : v_lim[j]? = some o) (hcur : V[j]? = some cur) :
    V1[j]? = some (shapeRow p.1.mag o cur sj) := by
  simp only [shapePoint, hproj] at hstep
  rw [shapeLoop_eq] at hstep
  split_ifs at hstep
  simp only [Option.some.injEq] at hstep
  rw [← hstep]
  exact shapeRows_getElem _ _ _ _ _ _ _ _ ho hcur hsj

/-- C15, as the code has it: for bounds with lower <= upper in every row and a
single selected collision point of magnitude 1, every joint `j` of its control
chain with `s_j >= 0` whose input upper bound is >= 0 has upper bound exactly
0 in the matrix that `getV_LIM` returns. -/
theorem getV_LIM_magnitude_one (cp : CollisionPoint K) (cc : BaxterChain K)
    (v_lim r : VLim K) (s : List K) (j : Nat) (sj : K) (row0 : K × K)
    (_hrows : ∀ row ∈ v_lim, row.1 ≤ row.2) (hmag : cp.mag = 1)
    (hproj : projection cc = some s) (hsj : s[j]? = some sj) (hpos : 0 ≤ sj)
    (hrow : v_lim[j]? = some row0) (hu : 0 ≤ row0.2)
    (hret : getV_LIM [cp] [cc] v_lim = some r) :
    ∃ row, r[j]? = some row ∧ row.2 = 0 := by
  have hstep : shapePoint v_lim v_lim (cp, cc) = some r := by
    rw [← getV_LIM_singleton]; exact hret
  refine ⟨_, shapePoint_row v_lim v_lim r (cp, cc) s j sj row0 row0 hstep hproj hsj hrow hrow, ?_⟩
  simp only [shapeRow, hmag, sub_self, mul_zero, ge_iff_le, hpos, if_true]
  exact min_eq_right hu

/-- C15 (amended) at the bounds `[1, 2]` and a point of magnitude 1 on the
chain `jointX, linkZ`, for which `s_0 = 0`. -/
theorem getV_LIM_magnitude_one_witness :
    (∀ row ∈ [((1 : ℚ), (2 : ℚ))], row.1 ≤ row.2) ∧ (Example.point 1).mag = 1 ∧
    projection Example.chainJF = some [0] ∧ ([0] : List ℚ)[0]? = some 0 ∧ (0 : ℚ) ≤ 0 ∧
    ([((1 : ℚ), (2 : ℚ))] : VLim ℚ)[0]? = some (1, 2) ∧ (0 : ℚ) ≤ ((1 : ℚ), (2 : ℚ)).2 ∧
    getV_LIM [Example.point 1] [Example.chainJF] [((1 : ℚ), (2 : ℚ))] = some [(0, 0)] ∧
    ∃ row, ([((0 : ℚ), (0 : ℚ))] : VLim ℚ)[0]? = some row ∧ row.2 = 0 :=
  ⟨by norm_num, rfl, Example.projection_chainJF, rfl, le_refl _, rfl, by norm_num,
   Example.getV_LIM_chainJF_one,
   getV_LIM_magnitude_one (Example.point 1) Example.chainJF [(1, 2)] [(0, 0)] [0] 0 0 (1, 2)
     (by norm_num) rfl Example.projection_chainJF rfl (le_refl _) rfl (by norm_num)
     Example.getV_LIM_chainJF_one⟩

theorem getV_LIM_negative_upper :
    getV_LIM [Example.point 1] [Example.chainJ] [((-2 : ℚ), (-1 : ℚ))] = some [(-2, -1)] := by
  norm_num [getV_LIM, pointsLoop, Example.projection_chainJ, shapeLoop, shapeJoint,
    Example.point]

/-- C15 fails as stated: the bounds `[-2, -1]` have lower <= upper, the point
has magnitude 1 and `s_0 = 0 >= 0` on the chain `jointX`, and the upper bound
that `getV_LIM` returns is -1, not 0. -/
theorem getV_LIM_magnitude_one_negative_upper :
    ¬ (∀ (cp : CollisionPoint ℚ) (cc : BaxterChain ℚ) (v_lim r : VLim ℚ) (s : List ℚ)
        (j : Nat) (sj : ℚ), (∀ row ∈ v_lim, row.1 ≤ row.2) → cp.mag = 1 →
        projection cc = some s → s[j]? = some sj → 0 ≤ sj →
        getV_LIM [cp] [cc] v_lim = some r → ∃ row, r[j]? = some row ∧ row.2 = 0) := by
  intro h
  obtain ⟨row, hrow, h0⟩ := h (Example.point 1) Example.chainJ [(-2, -1)] [(-2, -1)] [0] 0 0
    (by norm_num) rfl Example.projection_chainJ rfl (le_refl _) getV_LIM_negative_upper
  simp only [List.getElem?_cons_zero, Option.some.injEq] at hrow
  rw [← hrow] at h0
  norm_num at h0

end AvoidanceHandlerTactile

namespace AvoidanceHandlerTactile
variable {K : Type} [LinearOrderedField K]

theorem getV_LIM_snoc (v_lim : VLim K) (ps : List (CollisionPoint K × BaxterChain K))
    (p : CollisionPoint K × BaxterChain K) :
    getV_LIM ((ps ++ [p]).map Prod.fst) ((ps ++ [p]).map Prod.snd) v_lim =
      (getV_LIM (ps.map Prod.fst) (ps.map Prod.snd) v_lim).bind
        (fun W => shapePoint v_lim W p) := by
  rw [getV_LIM_eq_foldl, getV_LIM_eq_foldl, List.foldl_append]
  rfl

theorem getV_LIM_half_J :
    getV_LIM [Example.point (1 / 2)] [Example.chainJ] [((-1 : ℚ), (1 : ℚ))] =
      some [(-1, 1 / 2)] := by
  norm_num [getV_LIM, pointsLoop, Example.projection_chainJ, shapeLoop, shapeJoint,
    Example.point]

theorem getV_LIM_half_JJ :
    getV_LIM [Example.point (1 / 2), Example.point (1 / 2)] [Example.chainJ, Example.chainJ]
      [((-1 : ℚ), (1 : ℚ))] = some [(-1, 1 / 2)] := by
  norm_num [getV_LIM, pointsLoop, Example.projection_chainJ, shapeLoop, shapeJoint,
    Example.point]

/-- C20, as the code has it: in the shaping step of `getV_LIM` for the
collision point `p.1` with control chain `p.2`, which follows the steps of the
earlier points `ps`, every joint `j` with `s_j >= 0` gets the upper bound
`min(u, u0 * (1 - magnitude))`, where `u` is the upper bound of `j` just
before the step and `u0` the upper bound of `j` in the input matrix `v_lim`,
and the lower bound `min(old lower, new upper)`. -/
theorem getV_LIM_step (ps : List (CollisionPoint K × BaxterChain K))
    (p : CollisionPoint K × BaxterChain K) (v_lim V V1 : VLim K) (s : List K) (j : Nat)
    (sj : K) (o cur : K × K)
    (hbefore : getV_LIM (ps.map Prod.fst) (ps.map Prod.snd) v_lim = some V)
    (hafter : getV_LIM ((ps ++ [p]).map Prod.fst) ((ps ++ [p]).map Prod.snd) v_lim = some V1)
    (hproj : projection p.2 = some s) (hsj : s[j]? = some sj) (hpos : 0 ≤ sj)
    (ho : v_lim[j]? = some o) (hcur : V[j]? = some cur) :
    ∃ new, V1[j]? = some new ∧ new.2 = min cur.2 (o.2 * (1 - p.1.mag)) ∧
      new.1 = min cur.1 new.2 := by
  have hstep : shapePoint v_lim V p = some V1 := by
    rw [getV_LIM_snoc, hbefore] at hafter
    exact hafter
  refine ⟨_, shapePoint_row v_lim V V1 p s j sj o cur hstep hproj hsj ho hcur, ?_, ?_⟩ <;>
    simp only [shapeRow, ge_iff_le, hpos, if_true]

/-- C20 (amended) at the input bounds `[-1, 1]` and two points of magnitude
1/2 on the chain `jointX`: before the second step the bounds are `[-1, 1/2]`,
and the second step leaves the upper bound `min(1/2, 1 * (1 - 1/2)) = 1/2`. -/
theorem getV_LIM_step_witness :
    getV_LIM [Example.point (1 / 2)] [Example.chainJ] [((-1 : ℚ), (1 : ℚ))] =
      some [(-1, 1 / 2)] ∧
    getV_LIM [Example.point (1 / 2), Example.point (1 / 2)] [Example.chainJ, Example.chainJ]
      [((-1 : ℚ), (1 : ℚ))] = some [(-1, 1 / 2)] ∧
    projection Example.chainJ = some [0] ∧ ([0] : List ℚ)[0]? = some 0 ∧ (0 : ℚ) ≤ 0 ∧
    ([((-1 : ℚ), (1 : ℚ))] : VLim ℚ)[0]? = some ((-1 : ℚ), (1 : ℚ)) ∧
    ([((-1 : ℚ), (1 / 2 : ℚ))] : VLim ℚ)[0]? = some ((-1 : ℚ), (1 / 2 : ℚ)) ∧
    ∃ new : ℚ × ℚ, ([((-1 : ℚ), (1 / 2 : ℚ))] : VLim ℚ)[0]? = some new ∧
      new.2 = min (1 / 2 : ℚ) (1 * (1 - (Example.point (1 / 2)).mag)) ∧
      new.1 = min (-1 : ℚ) new.2 :=
  ⟨getV_LIM_half_J, getV_LIM_half_JJ, Example.projection_chainJ, rfl, le_refl _, rfl, rfl,
   getV_LIM_step [(Example.point (1 / 2), Example.chainJ)]
     (Example.point (1 / 2), Example.chainJ) [(-1, 1)] [(-1, 1 / 2)] [(-1, 1 / 2)] [0] 0 0
     (-1, 1) (-1, 1 / 2) getV_LIM_half_J getV_LIM_half_JJ Example.projection_chainJ rfl
     (le_refl _) rfl rfl⟩

/-- C20 fails as stated: with input bounds `[-1, 1]` and two points of
magnitude 1/2 on the chain `jointX` (`s_0 = 0`), the upper bound before the
second step is `u = 1/2`, and after it the upper bound is 1/2, not
`min(u, u * (1 - 1/2)) = 1/4`: the product is taken with the input upper bound
1. -/
theorem getV_LIM_step_uses_input_bound :
    ¬ (∀ (ps : List (CollisionPoint ℚ × BaxterChain ℚ)) (p : CollisionPoint ℚ × BaxterChain ℚ)
        (v_lim V V1 : VLim ℚ) (s : List ℚ) (j : Nat) (sj : ℚ) (cur : ℚ × ℚ),
        (∀ row ∈ v_lim, row.1 ≤ row.2) → (∀ q ∈ ps ++ [p], 0 ≤ q.1.mag ∧ q.1.mag ≤ 1) →
        getV_LIM (ps.map Prod.fst) (ps.map Prod.snd) v_lim = some V →
        getV_LIM ((ps ++ [p]).map Prod.fst) ((ps ++ [p]).map Prod.snd) v_lim = some V1 →
        projection p.2 = some s → s[j]? = some sj → 0 ≤ sj → V[j]? = some cur →
        ∃ new, V1[j]? = some new ∧ new.2 = min cur.2 (cur.2 * (1 - p.1.mag)) ∧
          new.1 = min cur.1 new.2) := by
  intro h
  obtain ⟨new, hnew, h2, _⟩ := h [(Example.point (1 / 2), Example.chainJ)]
    (Example.point (1 / 2), Example.chainJ) [(-1, 1)] [(-1, 1 / 2)] [(-1, 1 / 2)] [0] 0 0
    (-1, 1 / 2) (by norm_num) (by norm_num [Example.point]) getV_LIM_half_J getV_LIM_half_JJ
    Example.projection_chainJ rfl (le_refl _) rfl
  simp only [List.getElem?_cons_zero, Option.some.injEq] at hnew
  rw [← hnew] at h2
  norm_num [Example.point] at h2

end AvoidanceHandlerTactile

namespace AvoidanceHandler
variable {K : Type} [LinearOrderedField K]

theorem computeFoRInOut_eq (sqrt : K → K) (pos norm : Vector K)
    (FoR : Matrix (Fin 4) (Fin 4) K) :
    computeFoRInOut sqrt pos norm FoR = computeFoR sqrt pos norm := by
  unfold computeFoRInOut computeFoR
  by_cases hn : norm = Vector.Zero
  · simp [hn, setIdentity]
  · simp only [hn, if_false, Prod.mk.injEq, true_and]
    ext i j
    fin_cases i <;> fin_cases j <;> simp [setBlock, setIdentity]

/-- C11: for every position, normal and prior content of the output frame,
`computeFoR` returns false exactly when the normal is the zero vector, the
output frame is then the 4x4 identity, and for every non-zero normal it
returns true. -/
theorem computeFoR_false_iff_zero_normal (sqrt : K → K) (pos norm : Vector K)
    (FoR : Matrix (Fin 4) (Fin 4) K) :
    ((computeFoRInOut sqrt pos norm FoR).1 = false ↔ norm = Vector.Zero) ∧
    (norm = Vector.Zero → (computeFoRInOut sqrt pos norm FoR).2 = 1) ∧
    (norm ≠ Vector.Zero → (computeFoRInOut sqrt pos norm FoR).1 = true) := by
  by_cases hn : norm = Vector.Zero
  · simp [computeFoRInOut, hn, setIdentity]
  · simp [computeFoRInOut, hn]

end AvoidanceHandler

namespace AvoidanceHandler

theorem vector_ne_zero_of_x {K : Type} [LinearOrderedField K] (a b c : K) (ha : a ≠ 0) :
    (⟨a, b, c⟩ : Vector K) ≠ Vector.Zero := by
  intro h
  simp only [Vector.Zero, Vector.mk.injEq] at h
  exact ha h.1

theorem computeFoR_nudge {K : Type} [LinearOrderedField K] (sqrt : K → K) (pos : Vector K)
    (b c : K) (h : (⟨0, b, c⟩ : Vector K) ≠ Vector.Zero) :
    computeFoR sqrt pos ⟨0, b, c⟩ = computeFoR sqrt pos ⟨1 / 100000000, b, c⟩ := by
  have h8 : (1 / 100000000 : K) ≠ 0 := by norm_num
  have h2 := vector_ne_zero_of_x (1 / 100000000 : K) b c h8
  simp only [computeFoR, if_neg h, if_neg h2, if_neg h8, if_true]

theorem unit_of_norm (v : Vector ℝ) (n : ℝ) (hn : n * n = v.dot v) (h0 : n ≠ 0) :
    (⟨v.x / n, v.y / n, v.z / n⟩ : Vector ℝ).dot ⟨v.x / n, v.y / n, v.z / n⟩ = 1 := by
  simp only [Vector.dot] at hn ⊢
  field_simp
  linear_combination -hn

theorem dot_div (u v : Vector ℝ) (n m : ℝ) (h : u.dot v = 0) :
    (⟨u.x / n, u.y / n, u.z / n⟩ : Vector ℝ).dot ⟨v.x / m, v.y / m, v.z / m⟩ = 0 := by
  simp only [Vector.dot] at h ⊢
  have : u.x / n * (v.x / m) + u.y / n * (v.y / m) + u.z / n * (v.z / m) =
      (u.x * v.x + u.y * v.y + u.z * v.z) / (n * m) := by ring
  rw [this, h, zero_div]

theorem axes_orthonormal (a b c : ℝ) (ha : a ≠ 0) (x0 y0 z0 : Vector ℝ) (nx ny nz : ℝ)
    (hz0 : z0 = ⟨a, b, c⟩) (hy0 : y0 = ⟨-c / a, 0, 1⟩)
    (hx0 : x0 = ⟨-1 * (z0.cross y0).x, -1 * (z0.cross y0).y, -1 * (z0.cross y0).z⟩)
    (hnx : nx = Real.sqrt (x0.x * x0.x + x0.y * x0.y + x0.z * x0.z))
    (hny : ny = Real.sqrt (y0.x * y0.x + y0.y * y0.y + y0.z * y0.z))
    (hnz : nz = Real.sqrt (z0.x * z0.x + z0.y * z0.y + z0.z * z0.z))
    (x y z : Vector ℝ) (hx : x = ⟨x0.x / nx, x0.y / nx, x0.z / nx⟩)
    (hy : y = ⟨y0.x / ny, y0.y / ny, y0.z / ny⟩) (hz : z = ⟨z0.x / nz, z0.y / nz, z0.z / nz⟩) :
    x.dot x = 1 ∧ y.dot y = 1 ∧ z.dot z = 1 ∧ x.dot y = 0 ∧ y.dot z = 0 ∧ z.dot x = 0 ∧
      x.cross y = z := by
  have hYpos : 0 < y0.dot y0 := by
    rw [hy0]; simp only [Vector.dot]
    have := mul_self_nonneg (-c / a)
    linarith
  have hZpos : 0 < z0.dot z0 := by
    rw [hz0]; simp only [Vector.dot]
    have h1 := mul_self_pos.2 ha
    have h2 := mul_self_nonneg b
    have h3 := mul_self_nonneg c
    linarith
  have hXYZ : x0.dot x0 = y0.dot y0 * z0.dot z0 := by
    rw [hx0, hy0, hz0]; simp only [Vector.dot, Vector.cross]
    field_simp
    ring
  have hny2 : ny * ny = y0.dot y0 := by
    rw [hny]; exact Real.mul_self_sqrt hYpos.le
  have hnz2 : nz * nz = z0.dot z0 := by
    rw [hnz]; exact Real.mul_self_sqrt hZpos.le
  have hnypos : 0 < ny := by rw [hny]; exact Real.sqrt_pos.2 hYpos
  have hnzpos : 0 < nz := by rw [hnz]; exact Real.sqrt_pos.2 hZpos
  have hnxeq : nx = ny * nz := by
    rw [hnx, hny, hnz]
    have := Real.sqrt_mul hYpos.le (z0.dot z0)
    simp only [Vector.dot] at this hXYZ
    rw [hXYZ, this]
  have hnx2 : nx * nx = x0.dot x0 := by
    rw [hnxeq, hXYZ, ← hny2, ← hnz2]; ring
  have hnxpos : 0 < nx := by rw [hnxeq]; exact mul_pos hnypos hnzpos
  have hxy : x0.dot y0 = 0 := by
    rw [hx0, hy0, hz0]; simp only [Vector.dot, Vector.cross]
    ring
  have hyz : y0.dot z0 = 0 := by
    rw [hy0, hz0]; simp only [Vector.dot]
    have h : -c / a * a = -c := by field_simp
    rw [h]; ring
  have hzx : z0.dot x0 = 0 := by
    rw [hx0, hy0, hz0]; simp only [Vector.dot, Vector.cross]
    ring
  have hcross : x0.cross y0 = ⟨y0.dot y0 * z0.x, y0.dot y0 * z0.y, y0.dot y0 * z0.z⟩ := by
    rw [hx0, hy0, hz0]; simp only [Vector.dot, Vector.cross, Vector.mk.injEq]
    refine ⟨?_, ?_, ?_⟩
    · field_simp
      ring
    · field_simp
      ring
    · have h : -1 * (b * 1 - c * 0) * 0 - -1 * (c * (-c / a) - a * 1) * (-c / a) =
          c * (c * c / a + a) / a := by ring
      rw [h]
      field_simp
      ring
  refine ⟨?_, ?_, ?_, ?_, ?_, ?_, ?_⟩
  · rw [hx]; exact unit_of_norm x0 nx hnx2 hnxpos.ne'
  · rw [hy]; exact unit_of_norm y0 ny hny2 hnypos.ne'
  · rw [hz]; exact unit_of_norm z0 nz hnz2 hnzpos.ne'
  · rw [hx, hy]; exact dot_div x0 y0 nx ny hxy
  · rw [hy, hz]; exact dot_div y0 z0 ny nz hyz
  · rw [hz, hx]; exact dot_div z0 x0 nz nx hzx
  · have hc := hcross
    simp only [Vector.cross, Vector.mk.injEq] at hc
    obtain ⟨h1, h2, h3⟩ := hc
    rw [hx, hy, hz]
    simp only [Vector.cross, Vector.mk.injEq]
    have hne1 := hnypos.ne'
    have hne2 := hnzpos.ne'
    refine ⟨?_, ?_, ?_⟩
    · have : x0.y / nx * (y0.z / ny) - x0.z / nx * (y0.y / ny) =
          (x0.y * y0.z - x0.z * y0.y) / (nx * ny) := by ring
      rw [this, h1, ← hny2, hnxeq]
      field_simp
      ring
    · have : x0.z / nx * (y0.x / ny) - x0.x / nx * (y0.z / ny) =
          (x0.z * y0.x - x0.x * y0.z) / (nx * ny) := by ring
      rw [this, h2, ← hny2, hnxeq]
      field_simp
      ring
    · have : x0.x / nx * (y0.y / ny) - x0.y / nx * (y0.x / ny) =
          (x0.x * y0.y - x0.y * y0.x) / (nx * ny) := by ring
      rw [this, h3, ← hny2, hnxeq]
      field_simp
      ring

theorem computeFoR_frame_of_x_ne_zero (pos : Vector ℝ) (a b c : ℝ) (ha : a ≠ 0) :
    ∃ H x y z, computeFoR Real.sqrt pos ⟨a, b, c⟩ = (true, H) ∧
      x = block31 H 0 ∧ y = block31 H 1 ∧ z = block31 H 2 ∧
      x.dot x = 1 ∧ y.dot y = 1 ∧ z.dot z = 1 ∧ x.dot y = 0 ∧ y.dot z = 0 ∧ z.dot x = 0 ∧
      x.cross y = z ∧ block31 H 3 = pos ∧ H 3 0 = 0 ∧ H 3 1 = 0 ∧ H 3 2 = 0 ∧ H 3 3 = 1 := by
  have hne := vector_ne_zero_of_x a b c ha
  refine ⟨(computeFoR Real.sqrt pos ⟨a, b, c⟩).2, _, _, _, ?_, rfl, rfl, rfl, ?_⟩
  · simp only [computeFoR, if_neg hne, if_neg ha]
  · have h := axes_orthonormal a b c ha _ _ _ _ _ _ rfl rfl rfl rfl rfl rfl
      (block31 (computeFoR Real.sqrt pos ⟨a, b, c⟩).2 0)
      (block31 (computeFoR Real.sqrt pos ⟨a, b, c⟩).2 1)
      (block31 (computeFoR Real.sqrt pos ⟨a, b, c⟩).2 2)
      (by simp only [computeFoR, if_neg hne, if_neg ha, block31]; rfl)
      (by simp only [computeFoR, if_neg hne, if_neg ha, block31]; rfl)
      (by simp only [computeFoR, if_neg hne, if_neg ha, block31]; rfl)
    obtain ⟨h1, h2, h3, h4, h5, h6, h7⟩ := h
    refine ⟨h1, h2, h3, h4, h5, h6, h7, ?_, ?_, ?_, ?_, ?_⟩
    · simp only [computeFoR, if_neg hne, if_neg ha, block31]; rfl
    all_goals simp only [computeFoR, if_neg hne, if_neg ha]; rfl

end AvoidanceHandler

namespace AvoidanceHandler

theorem vector_zero_y_z_ne_zero (norm : Vector ℝ) (hn : norm ≠ Vector.Zero) (hx : norm.x = 0) :
    (⟨0, norm.y, norm.z⟩ : Vector ℝ) ≠ Vector.Zero ∧ norm = ⟨0, norm.y, norm.z⟩ := by
  obtain ⟨a, b, c⟩ := norm
  simp only at hx
  subst hx
  exact ⟨hn, rfl⟩

/-- C12: over the reals, for every position, every non-zero normal and every
prior content of the output frame, `computeFoR` returns true and a frame whose
first three columns `x`, `y`, `z` are unit vectors, mutually orthogonal, with
`x cross y = z`, whose fourth column is the position and whose bottom row is
`(0, 0, 0, 1)`. -/
theorem computeFoR_orthonormal (pos norm : Vector ℝ) (FoR : Matrix (Fin 4) (Fin 4) ℝ)
    (hn : norm ≠ Vector.Zero) :
    ∃ H x y z, computeFoRInOut Real.sqrt pos norm FoR = (true, H) ∧
      x = block31 H 0 ∧ y = block31 H 1 ∧ z = block31 H 2 ∧
      x.dot x = 1 ∧ y.dot y = 1 ∧ z.dot z = 1 ∧ x.dot y = 0 ∧ y.dot z = 0 ∧ z.dot x = 0 ∧
      x.cross y = z ∧ block31 H 3 = pos ∧ H 3 0 = 0 ∧ H 3 1 = 0 ∧ H 3 2 = 0 ∧ H 3 3 = 1 := by
  rw [computeFoRInOut_eq]
  by_cases hx : norm.x = 0
  · obtain ⟨h0, heq⟩ := vector_zero_y_z_ne_zero norm hn hx
    rw [heq, computeFoR_nudge Real.sqrt pos norm.y norm.z h0]
    exact computeFoR_frame_of_x_ne_zero pos (1 / 100000000) norm.y norm.z (by norm_num)
  · exact computeFoR_frame_of_x_ne_zero pos norm.x norm.y norm.z hx

/-- C12 at the normal `(0, 0, 1)`, whose first component the method replaces,
the position `(1, 2, 3)` and the zero matrix as prior content. -/
theorem computeFoR_orthonormal_witness :
    (⟨0, 0, 1⟩ : Vector ℝ) ≠ Vector.Zero ∧
    ∃ H x y z, computeFoRInOut Real.sqrt ⟨1, 2, 3⟩ ⟨0, 0, 1⟩ 0 = (true, H) ∧
      x = block31 H 0 ∧ y = block31 H 1 ∧ z = block31 H 2 ∧
      x.dot x = 1 ∧ y.dot y = 1 ∧ z.dot z = 1 ∧ x.dot y = 0 ∧ y.dot z = 0 ∧ z.dot x = 0 ∧
      x.cross y = z ∧ block31 H 3 = ⟨1, 2, 3⟩ ∧ H 3 0 = 0 ∧ H 3 1 = 0 ∧ H 3 2 = 0 ∧
      H 3 3 = 1 :=
  have h : (⟨0, 0, 1⟩ : Vector ℝ) ≠ Vector.Zero := by
    intro h0
    simp [Vector.Zero] at h0
  ⟨h, computeFoR_orthonormal ⟨1, 2, 3⟩ ⟨0, 0, 1⟩ 0 h⟩

theorem computeFoR_third_column (sqrt : ℝ → ℝ) (pos : Vector ℝ) (a b c : ℝ) (ha : a ≠ 0) :
    computeFoR sqrt pos ⟨a, b, c⟩ = (true, (computeFoR sqrt pos ⟨a, b, c⟩).2) ∧
    block31 (computeFoR sqrt pos ⟨a, b, c⟩).2 2 =
      ⟨a / sqrt ((⟨a, b, c⟩ : Vector ℝ).dot ⟨a, b, c⟩),
       b / sqrt ((⟨a, b, c⟩ : Vector ℝ).dot ⟨a, b, c⟩),
       c / sqrt ((⟨a, b, c⟩ : Vector ℝ).dot ⟨a, b, c⟩)⟩ := by
  have hne := vector_ne_zero_of_x a b c ha
  constructor
  · simp only [computeFoR, if_neg hne, if_neg ha]
  · simp only [computeFoR, if_neg hne, if_neg ha, block31, Vector.dot]
    rfl

/-- C13, as the code has it: over the reals, for every position, every
non-zero normal and every prior content of the output frame, the third column
of the frame that `computeFoR` produces is the normal divided by its Euclidean
norm when the first component of the normal is not 0; when that component is
0, the third column is `(1/100000000, n_y, n_z)` divided by its Euclidean
norm. -/
theorem computeFoR_z_axis (pos norm : Vector ℝ) (FoR : Matrix (Fin 4) (Fin 4) ℝ)
    (hn : norm ≠ Vector.Zero) :
    ∃ H, computeFoRInOut Real.sqrt pos norm FoR = (true, H) ∧
      (norm.x ≠ 0 →
        block31 H 2 = ⟨norm.x / Real.sqrt (norm.dot norm), norm.y / Real.sqrt (norm.dot norm),
          norm.z / Real.sqrt (norm.dot norm)⟩) ∧
      (norm.x = 0 →
        block31 H 2 =
          ⟨1 / 100000000 /
             Real.sqrt ((⟨1 / 100000000, norm.y, norm.z⟩ : Vector ℝ).dot
               ⟨1 / 100000000, norm.y, norm.z⟩),
           norm.y /
             Real.sqrt ((⟨1 / 100000000, norm.y, norm.z⟩ : Vector ℝ).dot
               ⟨1 / 100000000, norm.y, norm.z⟩),
           norm.z /
             Real.sqrt ((⟨1 / 100000000, norm.y, norm.z⟩ : Vector ℝ).dot
               ⟨1 / 100000000, norm.y, norm.z⟩)⟩) := by
  rw [computeFoRInOut_eq]
  by_cases hx : norm.x = 0
  · obtain ⟨h0, heq⟩ := vector_zero_y_z_ne_zero norm hn hx
    obtain ⟨h1, h2⟩ :=
      computeFoR_third_column Real.sqrt pos (1 / 100000000) norm.y norm.z (by norm_num)
    refine ⟨(computeFoR Real.sqrt pos ⟨1 / 100000000, norm.y, norm.z⟩).2, ?_, ?_, ?_⟩
    · rw [heq, computeFoR_nudge Real.sqrt pos norm.y norm.z h0]
      exact h1
    · intro h; exact absurd hx h
    · intro _; exact h2
  · obtain ⟨h1, h2⟩ := computeFoR_third_column Real.sqrt pos norm.x norm.y norm.z hx
    exact ⟨_, h1, fun _ => h2, fun h => absurd h hx⟩

/-- C13 (amended) at the normal `(3, 0, 4)`, the position `(1, 2, 3)` and the
zero matrix as prior content. -/
theorem computeFoR_z_axis_witness :
    (⟨3, 0, 4⟩ : Vector ℝ) ≠ Vector.Zero ∧
    ∃ H, computeFoRInOut Real.sqrt ⟨1, 2, 3⟩ ⟨3, 0, 4⟩ 0 = (true, H) ∧
      block31 H 2 = ⟨3 / 5, 0, 4 / 5⟩ :=
  have h : (⟨3, 0, 4⟩ : Vector ℝ) ≠ Vector.Zero := by
    intro h0
    simp [Vector.Zero] at h0
  have h5 : Real.sqrt ((⟨3, 0, 4⟩ : Vector ℝ).dot ⟨3, 0, 4⟩) = 5 := by
    have h25 : (⟨3, 0, 4⟩ : Vector ℝ).dot ⟨3, 0, 4⟩ = 5 * 5 := by
      simp only [Vector.dot]; norm_num
    rw [h25]
    exact Real.sqrt_mul_self (by norm_num)
  ⟨h, by
    obtain ⟨H, hH, hz, _⟩ := computeFoR_z_axis ⟨1, 2, 3⟩ ⟨3, 0, 4⟩ 0 h
    refine ⟨H, hH, ?_⟩
    rw [hz (by norm_num), h5]
    norm_num⟩

/-- C13 fails as stated: for the non-zero normal `(0, 0, 1)` the first entry
of the third column of the frame is `(1/100000000) / sqrt(...)`, which is not
0, while the first entry of `normal / |normal|` is 0. -/
theorem computeFoR_z_axis_nudged :
    ¬ (∀ (pos norm : Vector ℝ) (FoR : Matrix (Fin 4) (Fin 4) ℝ), norm ≠ Vector.Zero →
        block31 (computeFoRInOut Real.sqrt pos norm FoR).2 2 =
          ⟨norm.x / Real.sqrt (norm.dot norm), norm.y / Real.sqrt (norm.dot norm),
            norm.z / Real.sqrt (norm.dot norm)⟩) := by
  intro hall
  have h : (⟨0, 0, 1⟩ : Vector ℝ) ≠ Vector.Zero := by
    intro h0
    simp [Vector.Zero] at h0
  have h1 := hall Vector.Zero ⟨0, 0, 1⟩ 0 h
  rw [computeFoRInOut_eq, computeFoR_nudge Real.sqrt Vector.Zero 0 1 h,
    (computeFoR_third_column Real.sqrt Vector.Zero (1 / 100000000) 0 1 (by norm_num)).2] at h1
  simp only [Vector.mk.injEq, zero_div] at h1
  have hpos : 0 < Real.sqrt ((⟨1 / 100000000, 0, 1⟩ : Vector ℝ).dot ⟨1 / 100000000, 0, 1⟩) := by
    apply Real.sqrt_pos.2
    simp only [Vector.dot]
    norm_num
  exact absurd h1.1 (div_ne_zero (by norm_num) hpos.ne')

end AvoidanceHandler

namespace BaxterChain
variable {K : Type} [Field K]

theorem refPoint_refPoint (t : Twist K) (a b : Vector K) :
    (t.RefPoint a).RefPoint b = t.RefPoint (a.add b) := by
  simp only [Twist.RefPoint, Vector.add, Vector.cross, Twist.mk.injEq, Vector.mk.injEq,
    and_true]
  refine ⟨?_, ?_, ?_⟩ <;> ring

theorem refPoint_sub_self (t : Twist K) (p : Vector K) : t.RefPoint (p.sub p) = t := by
  cases t with
  | mk vel rot =>
    cases vel
    simp [Twist.RefPoint, Vector.add, Vector.sub, Vector.cross]

theorem sub_add_sub (a b c : Vector K) : (a.sub b).add (c.sub a) = c.sub b := by
  simp only [Vector.add, Vector.sub, Vector.mk.injEq]
  refine ⟨?_, ?_, ?_⟩ <;> ring

theorem jacStep_getD (q : List K) (st : Frame K × Nat × Jacobian K) (s : Segment K) (k : Nat)
    (h : ¬ (s.hasJoint = true ∧ st.2.1 = k)) :
    (jacStep q st s).2.2.getD k Twist.Zero =
      (st.2.2.getD k Twist.Zero).RefPoint ((jacStep q st s).1.p.sub st.1.p) := by
  unfold jacStep
  by_cases hs : s.hasJoint = true
  · have hne : st.2.1 ≠ k := fun e => h ⟨hs, e⟩
    simp only [hs, if_true]
    rw [getD_set_ne _ _ _ _ _ hne, getD_changeRefPoint]
  · simp only [hs, Bool.false_eq_true, if_false]
    rw [getD_changeRefPoint]

theorem jacStep_getD_self (q : List K) (st : Frame K × Nat × Jacobian K) (s : Segment K)
    (hs : s.hasJoint = true) (hk : st.2.1 < st.2.2.length) :
    (jacStep q st s).2.2.getD st.2.1 Twist.Zero =
      st.1.M.mulTwist (s.twist (q.getD st.2.1 0) 1) := by
  unfold jacStep
  simp only [hs, if_true]
  rw [getD_set_self _ _ _ _ (by rw [length_changeRefPoint]; exact hk)]

theorem jacStep_fst (q : List K) (st : Frame K × Nat × Jacobian K) (s : Segment K) :
    (jacStep q st s).1 =
      st.1.mul (if s.hasJoint then s.pose (q.getD st.2.1 0) else s.pose 0) := by
  unfold jacStep
  by_cases hs : s.hasJoint = true <;> simp [hs]

theorem jacSweep_columns (q : List K) (N : Nat) (segs : List (Segment K))
    (hN : segs.countP Segment.hasJoint ≤ N) :
    (∀ i s, segs[i]? = some s → s.hasJoint = true →
      (jacSweep q N segs).2.2.getD ((segs.take i).countP Segment.hasJoint) Twist.Zero =
        ((poseProduct q (segs.take i)).M.mulTwist
          (s.twist (q.getD ((segs.take i).countP Segment.hasJoint) 0) 1)).RefPoint
          ((poseProduct q segs).p.sub (poseProduct q (segs.take (i + 1))).p)) ∧
    (∀ k, segs.countP Segment.hasJoint ≤ k →
      (jacSweep q N segs).2.2.getD k Twist.Zero = Twist.Zero) := by
  induction segs using List.reverseRecOn with
  | nil =>
    refine ⟨fun i s h => by simp at h, fun k _ => ?_⟩
    simp [jacSweep, SetToZero, List.getD_eq_getElem?_getD, List.getElem?_replicate]
    split_ifs <;> rfl
  | append_singleton segs s0 ih =>
    rw [List.countP_append] at hN
    obtain ⟨ih1, ih2⟩ := ih (by omega)
    obtain ⟨h1, h2, h3⟩ := jacSweep_fst q N segs
    have hfst : (jacStep q (jacSweep q N segs) s0).1 = poseProduct q (segs ++ [s0]) := by
      rw [← jacSweep_append]; exact (jacSweep_fst q N (segs ++ [s0])).1
    rw [jacSweep_append]
    refine ⟨fun i s hi hs => ?_, fun k hk => ?_⟩
    · rcases Nat.lt_trichotomy i segs.length with hlt | heq | hgt
      · have hi1 : segs[i]? = some s := by
          rw [List.getElem?_append_left hlt] at hi; exact hi
        have htake : (segs ++ [s0]).take i = segs.take i :=
          List.take_append_of_le_length (by omega)
        have htake1 : (segs ++ [s0]).take (i + 1) = segs.take (i + 1) :=
          List.take_append_of_le_length (by omega)
        have hcount : (segs.take i).countP Segment.hasJoint < segs.countP Segment.hasJoint := by
          have hsplit : segs = segs.take i ++ s :: segs.drop (i + 1) := by
            have := List.getElem?_eq_some_iff.1 hi1
            obtain ⟨hl, he⟩ := this
            rw [← he, ← List.drop_eq_getElem_cons hl, List.take_append_drop]
          conv_rhs => rw [hsplit]
          rw [List.countP_append, List.countP_cons_of_pos _ _ hs]
          omega
        rw [htake, htake1, jacStep_getD q _ s0 _ (by rw [h2]; intro hh; omega), ih1 i s hi1 hs,
          refPoint_refPoint, hfst, h1, sub_add_sub]
      · subst heq
        have hs0 : s = s0 := by
          rw [List.getElem?_append_right (le_refl _)] at hi
          simpa using hi.symm
        subst hs0
        have htake : (segs ++ [s]).take segs.length = segs := by
          rw [List.take_append_eq_append_take]; simp
        have htake1 : (segs ++ [s]).take (segs.length + 1) = segs ++ [s] := by
          rw [List.take_of_length_le]; simp
        rw [htake, htake1, refPoint_sub_self, ← h2, ← h1]
        refine jacStep_getD_self q _ s hs ?_
        rw [h3, h2]
        rw [List.countP_cons_of_pos _ _ hs] at hN
        simp only [List.countP_nil] at hN
        omega
      · rw [List.getElem?_eq_none (by simp; omega)] at hi
        exact absurd hi (by simp)
    · rw [List.countP_append] at hk
      have hk0 : segs.countP Segment.hasJoint ≤ k := by omega
      rw [jacStep_getD q _ s0 k ?_, ih2 k hk0, zero_RefPoint]
      rintro ⟨hs, hk1⟩
      rw [h2] at hk1
      rw [List.countP_cons_of_pos _ _ hs] at hk
      simp only [List.countP_nil] at hk
      omega

end BaxterChain

namespace BaxterChain
variable {K : Type} [Field K]

theorem vectorSum_range (f : Nat → Vector K) (len i : Nat) :
    vectorSum ((List.range' (i + 1) len).map (fun m => (f m).sub (f (m - 1)))) =
      (f (i + len)).sub (f i) := by
  induction len generalizing i with
  | zero =>
    simp [vectorSum, Vector.sub, Vector.Zero]
  | succ len ih =>
    rw [List.range'_succ, List.map_cons]
    have h := ih (i + 1)
    simp only [vectorSum, List.foldr_cons] at h ⊢
    rw [h, Nat.add_sub_cancel]
    have e : i + 1 + len = i + (len + 1) := by omega
    rw [e]
    exact sub_add_sub (f (i + 1)) (f i) (f (i + (len + 1)))

theorem tipDisplacements_sum (q : List K) (segs : List (Segment K)) (i n : Nat) (hin : i < n) :
    vectorSum (tipDisplacements q segs i n) =
      (tipPosition q segs (n - 1)).sub (tipPosition q segs i) := by
  unfold tipDisplacements
  rw [vectorSum_range (tipPosition q segs) (n - (i + 1)) i]
  have e : i + (n - (i + 1)) = n - 1 := by omega
  rw [e]

theorem JntToJac_eq_jacSweep_take (c : BaxterChain K) (q : List K) (seg_nr : Int) (n : Nat)
    (hinv : Inv c) (hq : q.length = c.getNrOfJoints)
    (hseg : (if seg_nr < 0 then c.getNrOfSegments else seg_nr.toNat) = n)
    (hn : n ≤ c.getNrOfSegments) :
    JntToJac c q c.getNrOfJoints seg_nr =
      some (true, (jacSweep q c.getNrOfJoints (c.segments.take n)).2.2) := by
  obtain ⟨hj, hs, -, -, -⟩ := hinv
  simp only [jointSegments] at hj
  have hcount : ((c.segments.drop 0).take n).countP Segment.hasJoint ≤ c.getNrOfJoints := by
    rw [List.drop_zero, hj]
    conv_rhs => rw [← List.take_append_drop n c.segments]
    rw [List.countP_append]
    omega
  have hloop := JntToJacLoop_eq c q n 0 0 Frame.Identity (SetToZero c.getNrOfJoints)
    (by omega) (by rw [hq]; omega) (by simp only [SetToZero, List.length_replicate]; omega)
  rw [List.drop_zero] at hloop
  have hnot : ¬ n > c.getNrOfSegments := by omega
  simp only [JntToJac, hseg, hq, ne_eq, not_true_eq_false, or_self, if_false, hnot, hloop,
    Option.map_some', jacSweep]

/-- C23: on a chain that satisfies the invariant, with as many angles as
joints and a segment count `n` within the chain (`seg_nr < 0` standing for the
whole chain), `JntToJac` returns true and a Jacobian in which the column of
the joint carried by segment `i < n` is the twist `twist(q, 1)` of that
segment, rotated by the rotation of the frame before the segment and moved
with `RefPoint` by the sum of the end-point displacements of the segments
`i + 1, ..., n - 1`, which is the vector from the end point of segment `i` to
the end point of segment `n - 1`; the column of a joint carried by a segment
`i >= n` is zero. -/
theorem JntToJac_columns (c : BaxterChain K) (q_in : List K) (seg_nr : Int) (n : Nat)
    (hinv : Inv c) (hq : q_in.length = c.getNrOfJoints)
    (hseg : (if seg_nr < 0 then c.getNrOfSegments else seg_nr.toNat) = n)
    (hn : n ≤ c.getNrOfSegments) :
    ∃ jac, JntToJac c q_in c.getNrOfJoints seg_nr = some (true, jac) ∧
      jac.length = c.getNrOfJoints ∧
      ∀ i s, c.getSegment i = some s → s.hasJoint = true →
        (i < n →
          jac.getD ((c.segments.take i).countP Segment.hasJoint) Twist.Zero =
            ((poseProduct q_in (c.segments.take i)).M.mulTwist
              (s.twist (q_in.getD ((c.segments.take i).countP Segment.hasJoint) 0) 1)).RefPoint
              (vectorSum (tipDisplacements q_in c.segments i n)) ∧
          vectorSum (tipDisplacements q_in c.segments i n) =
            (tipPosition q_in c.segments (n - 1)).sub (tipPosition q_in c.segments i)) ∧
        (n ≤ i →
          jac.getD ((c.segments.take i).countP Segment.hasJoint) Twist.Zero = Twist.Zero) := by
  have hsweep := JntToJac_eq_jacSweep_take c q_in seg_nr n hinv hq hseg hn
  have hlen : n ≤ c.segments.length := by rw [← hinv.segs]; exact hn
  have hcount : (c.segments.take n).countP Segment.hasJoint ≤ c.getNrOfJoints := by
    rw [hinv.joints, jointSegments]
    conv_rhs => rw [← List.take_append_drop n c.segments]
    rw [List.countP_append]
    omega
  obtain ⟨hcol, hzero⟩ := jacSweep_columns q_in c.getNrOfJoints (c.segments.take n) hcount
  refine ⟨_, hsweep, (jacSweep_fst q_in c.getNrOfJoints (c.segments.take n)).2.2, ?_⟩
  intro i s hi hs
  simp only [getSegment] at hi
  refine ⟨fun hin => ?_, fun hni => ?_⟩
  · have hi1 : (c.segments.take n)[i]? = some s := by
      rw [List.getElem?_take_of_lt hin]; exact hi
    have h := hcol i s hi1 hs
    have ht : (c.segments.take n).take i = c.segments.take i := by
      rw [List.take_take, Nat.min_eq_left (by omega)]
    have ht1 : (c.segments.take n).take (i + 1) = c.segments.take (i + 1) := by
      rw [List.take_take, Nat.min_eq_left (by omega)]
    rw [ht, ht1] at h
    have hsum := tipDisplacements_sum q_in c.segments i n hin
    refine ⟨?_, hsum⟩
    rw [hsum, h]
    have e : n - 1 + 1 = n := by omega
    simp only [tipPosition, e]
  · apply hzero
    have h1 : c.segments.take n = (c.segments.take i).take n := by
      rw [List.take_take, Nat.min_eq_left hni]
    rw [h1]
    conv_rhs => rw [← List.take_append_drop n (c.segments.take i)]
    rw [List.countP_append]
    omega

end BaxterChain

namespace BaxterChain

/-- C23 at the chain `jointX, linkZ, jointZ` with the angles `[1, 2]` and the
segment count 2: the column of `jointX` is moved over `linkZ`, the column of
`jointZ`, carried by segment 2, is zero. -/
theorem JntToJac_columns_witness :
    Inv Example.chainJFJ ∧ ([1, 2] : List ℚ).length = Example.chainJFJ.getNrOfJoints ∧
    (if (2 : Int) < 0 then Example.chainJFJ.getNrOfSegments else (2 : Int).toNat) = 2 ∧
    2 ≤ Example.chainJFJ.getNrOfSegments ∧
    ∃ jac, JntToJac Example.chainJFJ [1, 2] Example.chainJFJ.getNrOfJoints 2 = some (true, jac) ∧
      jac.length = Example.chainJFJ.getNrOfJoints ∧
      ∀ i s, Example.chainJFJ.getSegment i = some s → s.hasJoint = true →
        (i < 2 →
          jac.getD ((Example.chainJFJ.segments.take i).countP Segment.hasJoint) Twist.Zero =
            ((poseProduct [1, 2] (Example.chainJFJ.segments.take i)).M.mulTwist
              (s.twist (([1, 2] : List ℚ).getD
                ((Example.chainJFJ.segments.take i).countP Segment.hasJoint) 0) 1)).RefPoint
              (vectorSum (tipDisplacements [1, 2] Example.chainJFJ.segments i 2)) ∧
          vectorSum (tipDisplacements [1, 2] Example.chainJFJ.segments i 2) =
            (tipPosition [1, 2] Example.chainJFJ.segments (2 - 1)).sub
              (tipPosition [1, 2] Example.chainJFJ.segments i)) ∧
        (2 ≤ i →
          jac.getD ((Example.chainJFJ.segments.take i).countP Segment.hasJoint) Twist.Zero =
            Twist.Zero) :=
  ⟨reachable_inv reachable_chainJFJ, rfl, rfl, by decide,
   JntToJac_columns Example.chainJFJ [1, 2] 2 2 (reachable_inv reachable_chainJFJ) rfl rfl
     (by decide)⟩

end BaxterChain

namespace AvoidanceHandlerTactile
variable {K : Type} [LinearOrderedField K]

/-- C24: when every row of `v_lim` has lower <= 0 <= upper and every magnitude
lies in [0,1], every row of the matrix that `getV_LIM` returns satisfies
inputLower <= outputLower <= 0 <= outputUpper <= inputUpper, so the zero
velocity stays within the bounds.  A matrix is returned whenever every
collision point has a control chain and every control chain satisfies the
chain invariant and has at least one joint and at most as many joints as
`v_lim` has rows. -/
theorem getV_LIM_keeps_zero_feasible (collPoints : List (CollisionPoint K))
    (ctrlChains : List (BaxterChain K)) (v_lim : VLim K)
    (hrows : ∀ row ∈ v_lim, row.1 ≤ 0 ∧ 0 ≤ row.2)
    (hmag : ∀ cp ∈ collPoints, 0 ≤ cp.mag ∧ cp.mag ≤ 1) :
    (∀ r, getV_LIM collPoints ctrlChains v_lim = some r →
      List.Forall₂ (fun o n => o.1 ≤ n.1 ∧ n.1 ≤ 0 ∧ 0 ≤ n.2 ∧ n.2 ≤ o.2) v_lim r) ∧
    (collPoints.length ≤ ctrlChains.length →
      (∀ cc ∈ ctrlChains, cc.Inv ∧ 1 ≤ cc.getNrOfJoints ∧ cc.getNrOfJoints ≤ v_lim.length) →
      ∃ r, getV_LIM collPoints ctrlChains v_lim = some r) :=
  ⟨fun r hret => pointsLoop_inside ctrlChains v_lim collPoints 0 v_lim r hmag
      (inside_self v_lim hrows) hret,
   fun hlen hwf => pointsLoop_isSome ctrlChains v_lim hwf collPoints 0 v_lim rfl (by omega)⟩

/-- C24 at the bounds `[-1, 1]`, shaped by a point of magnitude 1 on the chain
`jointX, linkZ`: the result is `[0, 0]`. -/
theorem getV_LIM_keeps_zero_feasible_witness :
    (∀ row ∈ [((-1 : ℚ), (1 : ℚ))], row.1 ≤ 0 ∧ 0 ≤ row.2) ∧
    (∀ cp ∈ [Example.point 1], 0 ≤ cp.mag ∧ cp.mag ≤ 1) ∧
    getV_LIM [Example.point 1] [Example.chainJF] [((-1 : ℚ), (1 : ℚ))] = some [(-1, 0)] ∧
    List.Forall₂ (fun o n => o.1 ≤ n.1 ∧ n.1 ≤ 0 ∧ 0 ≤ n.2 ∧ n.2 ≤ o.2)
      [((-1 : ℚ), (1 : ℚ))] [((-1 : ℚ), (0 : ℚ))] :=
  have h : getV_LIM [Example.point 1] [Example.chainJF] [((-1 : ℚ), (1 : ℚ))] =
      some [(-1, 0)] := by
    norm_num [getV_LIM, pointsLoop, Example.projection_chainJF, shapeLoop, shapeJoint,
      Example.point]
  ⟨by norm_num, by norm_num [Example.point], h,
   (getV_LIM_keeps_zero_feasible [Example.point 1] [Example.chainJF] [(-1, 1)]
     (by norm_num) (by norm_num [Example.point])).1 [(-1, 0)] h⟩

end AvoidanceHandlerTactile

namespace BaxterChain

/-- C27 fails on the code: on the chain `jointX` with the angle `q = [1]`,
which satisfies the chain invariant and has one joint, `GetJointPositions`
appends the position `(0, 0, 0)`, the position of the joint at the angle 0,
while the frame that `JntToCart` composes through that segment at `q` has
the position `(1, 0, 0)`: the copy loop stops one entry short of the last
angle. -/
theorem GetJointPositions_drops_last_angle :
    Inv (Example.chainJ.setAng [1]).2 ∧
    (Example.chainJ.setAng [1]).2.getNrOfJoints = 1 ∧
    (Example.chainJ.setAng [1]).2.q = [1] ∧
    (Example.chainJ.setAng [1]).2.GetJointPositions [] = some (true, [⟨0, 0, 0⟩]) ∧
    ((Example.chainJ.setAng [1]).2.JntToCart [1] 1).map (fun r => (r.1, r.2.p)) =
      some (true, ⟨1, 0, 0⟩) := by
  refine ⟨?_, rfl, rfl, ?_, ?_⟩
  · have h := inv_addSegment (inv_empty (K := ℚ)) Example.jointX Example.fresh
    exact ⟨h.joints, h.segs, rfl, h.lb_len, h.ub_len⟩
  · simp [GetJointPositions, GetJointPositionsLoop, jointPositionAngles, setAng, Example.chainJ,
      Example.jointX, Example.transSegment, addSegment, BaxterChain.empty, Example.fresh,
      conservativeResize, getNrOfJoints, getNrOfSegments, Segment.hasJoint, getSegment,
      Frame.mul, Frame.Identity, Rotation.mul, Rotation.Identity, Rotation.mulVec, Vector.add, Vector.Zero]
  · simp [JntToCart, JntToCartLoop, setAng, Example.chainJ,
      Example.jointX, Example.transSegment, addSegment, BaxterChain.empty, Example.fresh,
      conservativeResize, getNrOfJoints, getNrOfSegments, Segment.hasJoint, getSegment,
      Frame.mul, Frame.Identity, Rotation.mul, Rotation.Identity, Rotation.mulVec, Vector.add, Vector.Zero]

end BaxterChain

namespace AvoidanceHandler
open BaxterChain
variable {K : Type}

theorem stopsFrom_eq (cur r : List (Segment K)) :
    stopsFrom cur r =
      (cur ++ r.takeWhile (fun s => !s.hasJoint)) ::
        stops (cur ++ r.takeWhile (fun s => !s.hasJoint)) (r.dropWhile (fun s => !s.hasJoint)) := by
  induction r generalizing cur with
  | nil => simp [stopsFrom, stops]
  | cons s r ih =>
    by_cases hs : s.hasJoint = true
    · simp [stopsFrom, stops, hs, List.takeWhile_cons, List.dropWhile_cons]
    · have hs1 : s.hasJoint = false := by simpa using hs
      simp [stopsFrom, hs1, List.takeWhile_cons, List.dropWhile_cons, ih]

theorem stopsFrom_count (cur r : List (Segment K)) :
    (stopsFrom cur r).map (fun d => d.countP Segment.hasJoint) =
      List.range' (cur.countP Segment.hasJoint) (r.countP Segment.hasJoint + 1) := by
  induction r generalizing cur with
  | nil => simp [stopsFrom, List.range']
  | cons s r ih =>
    by_cases hs : s.hasJoint = true
    · simp only [stopsFrom, hs, if_true, List.map_cons, ih, List.countP_append,
        List.countP_cons_of_pos _ _ hs, List.countP_nil]
      rw [List.range'_succ (List.countP Segment.hasJoint cur)]
    · have hs1 : s.hasJoint = false := by simpa using hs
      simp only [stopsFrom, hs1, Bool.false_eq_true, if_false, ih, List.countP_append,
        List.countP_cons_of_neg _ _ hs, List.countP_nil, Nat.add_zero]

theorem stopsFrom_take (cur r : List (Segment K)) :
    ∀ d ∈ stopsFrom cur r, ∃ L, cur.length ≤ L ∧ d = (cur ++ r).take L ∧
      (L = (cur ++ r).length ∨ ∃ s, (cur ++ r)[L]? = some s ∧ s.hasJoint = true) := by
  induction r generalizing cur with
  | nil =>
    intro d hd
    simp only [stopsFrom, List.mem_singleton] at hd
    subst hd
    exact ⟨d.length, le_refl _, by simp, Or.inl (by simp)⟩
  | cons s r ih =>
    intro d hd
    have hnext : ∀ d ∈ stopsFrom (cur ++ [s]) r, ∃ L, cur.length ≤ L ∧
        d = (cur ++ s :: r).take L ∧
        (L = (cur ++ s :: r).length ∨ ∃ t, (cur ++ s :: r)[L]? = some t ∧ t.hasJoint = true) := by
      intro d hd
      obtain ⟨L, hL, hd1, hd2⟩ := ih (cur ++ [s]) d hd
      rw [List.append_assoc, List.singleton_append] at hd1 hd2
      exact ⟨L, by simp at hL; omega, hd1, hd2⟩
    by_cases hs : s.hasJoint = true
    · simp only [stopsFrom, hs, if_true, List.mem_cons] at hd
      rcases hd with rfl | hd
      · exact ⟨d.length, le_refl _, by simp,
          Or.inr ⟨s, by rw [List.getElem?_append_right (le_refl _)]; simp, hs⟩⟩
      · exact hnext d hd
    · have hs1 : s.hasJoint = false := by simpa using hs
      simp only [stopsFrom, hs1, Bool.false_eq_true, if_false] at hd
      exact hnext d hd

end AvoidanceHandler

namespace BaxterChain
variable {K : Type}

theorem inv_setAngBounds {c : BaxterChain K} (h : Inv c) (q l u : List K) :
    Inv (c.setAngBounds q l u).2 ∧ (c.setAngBounds q l u).2.segments = c.segments := by
  unfold setAngBounds
  split_ifs with hc
  · exact ⟨h, rfl⟩
  · push_neg at hc
    obtain ⟨h1, h2, h3⟩ := hc
    exact ⟨⟨h.joints, h.segs, h1, h2, h3⟩, rfl⟩

theorem segments_addSegment (c : BaxterChain K) (s : Segment K) (u : Uninit K) :
    (c.addSegment s u).segments = c.segments ++ [s] := by
  unfold BaxterChain.addSegment
  split_ifs <;> rfl

end BaxterChain

namespace AvoidanceHandler
open BaxterChain
variable {K : Type} [LinearOrderedField K]

omit [LinearOrderedField K] in
theorem readSegment_cons (chain : BaxterChain K) (past : PastEnd K) (done rest : List (Segment K))
    (s : Segment K) (hsegs : chain.segments = done ++ s :: rest) (cc : BaxterChain K)
    (hinv : Inv cc) (hcc : cc.segments = done) :
    readSegment chain past cc.getNrOfSegments = s := by
  have hn : cc.getNrOfSegments = done.length := by rw [hinv.segs, hcc]
  simp only [readSegment, getSegment, hsegs, hn]
  rw [List.getElem?_append_right (le_refl _)]
  simp

omit [LinearOrderedField K] in
theorem firstJointLoop_spec (chain : BaxterChain K) (past : PastEnd K) (u : Uninit K)
    (pre rest : List (Segment K)) (j0 : Segment K) (hsegs : chain.segments = pre ++ j0 :: rest)
    (hpre : ∀ s ∈ pre, s.hasJoint = false) (hj0 : j0.hasJoint = true)
    (todo done : List (Segment K)) (hsplit : pre = done ++ todo) (cc : BaxterChain K)
    (hinv : Inv cc) (hcc : cc.segments = done) (fuel : Nat) (hfuel : todo.length + 2 ≤ fuel)
    (reads : List Access) :
    ∃ st, firstJointLoop chain past u fuel (cc, reads) = some st ∧ Inv st.1 ∧
      st.1.segments = pre ++ [j0] := by
  induction todo generalizing done cc fuel reads with
  | nil =>
    simp only [List.append_nil] at hsplit
    subst hsplit
    have hnj : cc.getNrOfJoints = 0 := by
      rw [hinv.joints, jointSegments, hcc, List.countP_eq_zero]
      intro s hs
      simp [hpre s hs]
    obtain ⟨f, rfl⟩ : ∃ f, fuel = f + 2 := ⟨fuel - 2, by simp at hfuel; omega⟩
    have hread := readSegment_cons chain past pre rest j0 hsegs cc hinv hcc
    have hinv1 := inv_addSegment hinv j0 u
    have hnj1 : (cc.addSegment j0 u).getNrOfJoints ≠ 0 := by
      rw [hinv1.joints, jointSegments, segments_addSegment, List.countP_append,
        List.countP_cons_of_pos _ _ hj0]
      omega
    refine ⟨(cc.addSegment j0 u, reads ++ [Access.getSegment cc.getNrOfSegments]), ?_, hinv1, ?_⟩
    · simp only [firstJointLoop, hnj, if_true, hread, hnj1, if_false]
    · rw [segments_addSegment, hcc]
  | cons t todo ih =>
    have hnj : cc.getNrOfJoints = 0 := by
      rw [hinv.joints, jointSegments, hcc, List.countP_eq_zero]
      intro s hs
      have : s ∈ pre := by rw [hsplit]; exact List.mem_append_left _ hs
      simp [hpre s this]
    obtain ⟨f, rfl⟩ : ∃ f, fuel = f + 1 := ⟨fuel - 1, by simp at hfuel; omega⟩
    have hsegs1 : chain.segments = done ++ t :: (todo ++ j0 :: rest) := by
      rw [hsegs, hsplit]; simp
    have hread := readSegment_cons chain past done _ t hsegs1 cc hinv hcc
    have hinv1 := inv_addSegment hinv t u
    obtain ⟨st, hst, h1, h2⟩ := ih (done ++ [t]) (by rw [hsplit]; simp) (cc.addSegment t u) hinv1
      (by rw [segments_addSegment, hcc]) f (by simp at hfuel ⊢; omega)
      (reads ++ [Access.getSegment cc.getNrOfSegments])
    refine ⟨st, ?_, h1, h2⟩
    simp only [firstJointLoop, hnj, if_true, hread]
    exact hst

omit [LinearOrderedField K] in
theorem fixedLoop_spec (chain : BaxterChain K) (past : PastEnd K) (u : Uninit K)
    (hn : chain.getNrOfSegments = chain.segments.length) (rest done : List (Segment K))
    (hsegs : chain.segments = done ++ rest) (cc : BaxterChain K) (hinv : Inv cc)
    (hcc : cc.segments = done) (fuel : Nat) (hfuel : rest.length + 1 ≤ fuel)
    (reads : List Access) :
    ∃ st, fixedLoop chain past u fuel (cc, reads) = some st ∧ Inv st.1 ∧
      st.1.segments = done ++ rest.takeWhile (fun s => !s.hasJoint) := by
  induction rest generalizing done cc fuel reads with
  | nil =>
    obtain ⟨f, rfl⟩ : ∃ f, fuel = f + 1 := ⟨fuel - 1, by omega⟩
    have hlen : cc.getNrOfSegments = chain.getNrOfSegments := by
      rw [hn, hsegs, hinv.segs, hcc]; simp
    refine ⟨(cc, reads ++ [Access.getSegment cc.getNrOfSegments]), ?_, hinv, by simp [hcc]⟩
    simp only [fixedLoop, hlen, if_true, ite_self]
  | cons t rest ih =>
    obtain ⟨f, rfl⟩ : ∃ f, fuel = f + 1 := ⟨fuel - 1, by omega⟩
    have hread := readSegment_cons chain past done rest t hsegs cc hinv hcc
    by_cases ht : t.hasJoint = true
    · refine ⟨(cc, reads ++ [Access.getSegment cc.getNrOfSegments]), ?_, hinv, ?_⟩
      · simp only [fixedLoop, hread, ht, if_true]
      · simp [hcc, List.takeWhile_cons, ht]
    · have ht1 : t.hasJoint = false := by simpa using ht
      have hlen : cc.getNrOfSegments ≠ chain.getNrOfSegments := by
        rw [hn, hsegs, hinv.segs, hcc]; simp
      have hinv1 := inv_addSegment hinv t u
      obtain ⟨st, hst, h1, h2⟩ := ih (done ++ [t]) (by rw [hsegs]; simp) (cc.addSegment t u) hinv1
        (by rw [segments_addSegment, hcc]) f (by simp at hfuel ⊢; omega)
        (reads ++ [Access.getSegment cc.getNrOfSegments, Access.getSegment cc.getNrOfSegments])
      refine ⟨st, ?_, h1, ?_⟩
      · simp only [fixedLoop, hread, ht1, Bool.false_eq_true, if_false, hlen]
        exact hst
      · rw [h2]; simp [List.takeWhile_cons, ht1]

end AvoidanceHandler

namespace AvoidanceHandler
open BaxterChain
variable {K : Type} [LinearOrderedField K]

theorem growLoop_spec (sqrt : K → K) (chain : BaxterChain K) (past : PastEnd K) (u : Uninit K)
    (o2cp : BaxterChain K → Bool × CollisionPoint K)
    (hn : chain.getNrOfSegments = chain.segments.length) (fuel : Nat) (g : Growth K)
    (done rest : List (Segment K)) (hsegs : chain.segments = done ++ rest)
    (hinv : Inv g.customChain) (hcc : g.customChain.segments = done)
    (hfuel : rest.length + 1 ≤ fuel) :
    ∃ g1 new, growLoop sqrt chain past u o2cp fuel g = some g1 ∧
      g1.attempts = g.attempts ++ new ∧
      List.Forall₂ (fun a d => Inv a ∧ a.segments = d) new (stops done rest) := by
  induction fuel generalizing g done rest with
  | zero => omega
  | succ fuel ih =>
    have hlen : g.customChain.getNrOfSegments = done.length := by rw [hinv.segs, hcc]
    cases rest with
    | nil =>
      have hnot : ¬ g.customChain.getNrOfSegments < chain.getNrOfSegments := by
        rw [hn, hsegs, hlen]; simp
      refine ⟨g, [], ?_, by simp, ?_⟩
      · simp only [growLoop, hnot, if_false]
      · simp [stops]
    | cons s rest =>
      have hlt : g.customChain.getNrOfSegments < chain.getNrOfSegments := by
        rw [hn, hsegs, hlen]; simp
      have hread := readSegment_cons chain past done rest s hsegs g.customChain hinv hcc
      have hinv1 := inv_addSegment hinv s u
      obtain ⟨hinv2, hseg2⟩ := inv_setAngBounds hinv1
        ((conservativeResize g.q_j (g.q_j.length + 1) u.q).set g.q_j.length
          (readAng chain past g.customChain.getNrOfJoints))
        ((conservativeResize g.q_l (g.q_l.length + 1) u.lb).set g.q_l.length
          (readMin chain past g.customChain.getNrOfJoints))
        ((conservativeResize g.q_u (g.q_u.length + 1) u.ub).set g.q_u.length
          (readMax chain past g.customChain.getNrOfJoints))
      rw [segments_addSegment, hcc] at hseg2
      obtain ⟨st, hst, hinv3, hseg3⟩ := fixedLoop_spec chain past u hn rest (done ++ [s])
        (by rw [hsegs]; simp) _ hinv2 hseg2 (chain.getNrOfSegments + 1)
        (by rw [hn, hsegs]; simp; omega)
        (g.reads ++ [Access.getAng g.customChain.getNrOfJoints,
          Access.getMin g.customChain.getNrOfJoints, Access.getMax g.customChain.getNrOfJoints,
          Access.getSegment g.customChain.getNrOfSegments])
      have hdrop : (rest.dropWhile (fun s => !s.hasJoint)).length ≤ rest.length := by
        have h := congrArg List.length
          (List.takeWhile_append_dropWhile (fun s : Segment K => !s.hasJoint) rest)
        rw [List.length_append] at h
        omega
      obtain ⟨g1, new, hg1, hatt, hall⟩ := ih
        { customChain := st.1
          q_j := (conservativeResize g.q_j (g.q_j.length + 1) u.q).set g.q_j.length
            (readAng chain past g.customChain.getNrOfJoints)
          q_l := (conservativeResize g.q_l (g.q_l.length + 1) u.lb).set g.q_l.length
            (readMin chain past g.customChain.getNrOfJoints)
          q_u := (conservativeResize g.q_u (g.q_u.length + 1) u.ub).set g.q_u.length
            (readMax chain past g.customChain.getNrOfJoints)
          tmpCP := (recordCandidate sqrt (o2cp st.1) st.1 u g.tmpCP g.tmpCC).1
          tmpCC := (recordCandidate sqrt (o2cp st.1) st.1 u g.tmpCP g.tmpCC).2
          reads := st.2
          attempts := g.attempts ++ [st.1] }
        (done ++ [s] ++ rest.takeWhile (fun s => !s.hasJoint))
        (rest.dropWhile (fun s => !s.hasJoint))
        (by rw [hsegs]; simp [List.takeWhile_append_dropWhile])
        hinv3 hseg3 (by simp only [List.length_cons] at hfuel; omega)
      refine ⟨g1, st.1 :: new, ?_, ?_, ?_⟩
      · simp only [growLoop, hlt, if_true, hread, hst]
        exact hg1
      · rw [hatt]; simp
      · rw [stops, stopsFrom_eq]
        exact List.Forall₂.cons ⟨hinv3, hseg3⟩ hall

end AvoidanceHandler

namespace AvoidanceHandler
open BaxterChain
variable {K : Type} [LinearOrderedField K]

theorem growObstacle_spec (sqrt : K → K) (chain : BaxterChain K) (past : PastEnd K)
    (u : Uninit K) (o2cp : BaxterChain K → Bool × CollisionPoint K)
    (pre rest : List (Segment K)) (j0 : Segment K) (hinv : Inv chain)
    (hsegs : chain.segments = pre ++ j0 :: rest) (hpre : ∀ s ∈ pre, s.hasJoint = false)
    (hj0 : j0.hasJoint = true) :
    ∃ g, growObstacle sqrt chain past u o2cp = some g ∧
      List.Forall₂ (fun a d => Inv a ∧ a.segments = d) g.attempts (stops (pre ++ [j0]) rest) := by
  have hn : chain.getNrOfSegments = chain.segments.length := hinv.segs
  obtain ⟨st, hst, hinv0, hseg0⟩ := firstJointLoop_spec chain past u pre rest j0 hsegs hpre hj0
    pre [] (by simp) BaxterChain.empty inv_empty rfl (chain.getNrOfSegments + 1)
    (by rw [hn, hsegs, List.length_append, List.length_cons]; omega) [Access.getMin 0, Access.getMax 0, Access.getAng 0]
  obtain ⟨hinv1, hseg1⟩ := inv_setAngBounds hinv0 [readAng chain past 0] [readMin chain past 0]
    [readMax chain past 0]
  rw [hseg0] at hseg1
  obtain ⟨g1, new, hg1, hatt, hall⟩ := growLoop_spec sqrt chain past u o2cp hn
    (chain.getNrOfSegments + 1)
    { customChain := (st.1.setAngBounds [readAng chain past 0] [readMin chain past 0]
        [readMax chain past 0]).2
      q_j := [readAng chain past 0], q_l := [readMin chain past 0],
      q_u := [readMax chain past 0], tmpCP := [], tmpCC := [], reads := st.2, attempts := [] }
    (pre ++ [j0]) rest (by rw [hsegs]; simp) hinv1 hseg1 (by rw [hn, hsegs, List.length_append, List.length_cons]; omega)
  refine ⟨g1, ?_, ?_⟩
  · simp only [growObstacle, hst]
    exact hg1
  · simp only [List.nil_append] at hatt
    rw [hatt]
    exact hall

omit [LinearOrderedField K] in
theorem map_joints_of_forall₂ (l : List (BaxterChain K)) (ds : List (List (Segment K)))
    (h : List.Forall₂ (fun a d => Inv a ∧ a.segments = d) l ds) :
    l.map BaxterChain.getNrOfJoints = ds.map (fun d => d.countP Segment.hasJoint) := by
  induction h with
  | nil => rfl
  | cons hab _ ih =>
    simp only [List.map_cons, ih, List.cons.injEq, and_true]
    rw [hab.1.joints, jointSegments, hab.2]

omit [LinearOrderedField K] in
theorem exists_of_forall₂_mem {α β : Type} {R : α → β → Prop} {l : List α} {ds : List β}
    (h : List.Forall₂ R l ds) {a : α} (ha : a ∈ l) : ∃ d ∈ ds, R a d := by
  induction h with
  | nil => simp at ha
  | cons hab _ ih =>
    rcases List.mem_cons.1 ha with rfl | ha1
    · exact ⟨_, List.mem_cons_self _ _, hab⟩
    · obtain ⟨d, hd, hr⟩ := ih ha1
      exact ⟨d, List.mem_cons_of_mem _ hd, hr⟩

/-- C22, as the code has it: on a parent chain that satisfies the invariant and
whose first joint-bearing segment is `j0`, the constructor calls
`obstacleToCollisionPoint` once per turn of its growth loop, after the
sub-chain has grown.  When no segment follows `j0` no attempt is made.
Otherwise the attempts are made on sub-chains with 1, 2, ..., N joints when
the segment after `j0` carries no joint, and with 2, ..., N joints when it
carries one (the sub-chain with one joint is then not tried).  Every attempt
is made on the first `L` segments of the parent, where `L` is the number of
segments of the parent or segment `L` carries a joint. -/
theorem growObstacle_attempts (sqrt : K → K) (chain : BaxterChain K) (past : PastEnd K)
    (u : Uninit K) (o2cp : BaxterChain K → Bool × CollisionPoint K)
    (pre rest : List (Segment K)) (j0 : Segment K) (hinv : Inv chain)
    (hsegs : chain.segments = pre ++ j0 :: rest) (hpre : ∀ s ∈ pre, s.hasJoint = false)
    (hj0 : j0.hasJoint = true) :
    ∃ g, growObstacle sqrt chain past u o2cp = some g ∧
      g.attempts.map BaxterChain.getNrOfJoints =
        (match rest with
         | [] => []
         | s :: _ =>
           if s.hasJoint then List.range' 2 (chain.getNrOfJoints - 1)
           else List.range' 1 chain.getNrOfJoints) ∧
      ∀ a ∈ g.attempts, ∃ L, a.segments = chain.segments.take L ∧
        (L = chain.segments.length ∨ ∃ s, chain.segments[L]? = some s ∧ s.hasJoint = true) := by
  obtain ⟨g, hg, hall⟩ := growObstacle_spec sqrt chain past u o2cp pre rest j0 hinv hsegs hpre hj0
  have hpre0 : pre.countP Segment.hasJoint = 0 := by
    rw [List.countP_eq_zero]
    intro s hs
    simp [hpre s hs]
  refine ⟨g, hg, ?_, ?_⟩
  · rw [map_joints_of_forall₂ _ _ hall]
    cases rest with
    | nil => simp [stops]
    | cons s r =>
      have hN : chain.getNrOfJoints =
          1 + (if s.hasJoint then 1 else 0) + r.countP Segment.hasJoint := by
        rw [hinv.joints, jointSegments, hsegs, List.countP_append, hpre0,
          List.countP_cons_of_pos _ _ hj0, List.countP_cons]
        omega
      simp only [stops, stopsFrom_count, List.countP_append, hpre0,
        List.countP_cons_of_pos _ _ hj0, List.countP_cons, List.countP_nil]
      by_cases hs : s.hasJoint = true
      · simp only [hs, if_true] at hN ⊢
        congr 1
        omega
      · have hs1 : s.hasJoint = false := by simpa using hs
        simp only [hs1, Bool.false_eq_true, if_false] at hN ⊢
        congr 1
        omega
  · intro a ha
    obtain ⟨d, hd, -, had⟩ := exists_of_forall₂_mem hall ha
    cases rest with
    | nil => simp [stops] at hd
    | cons s r =>
      simp only [stops] at hd
      obtain ⟨L, -, hL, hL2⟩ := stopsFrom_take _ _ d hd
      have e : pre ++ [j0] ++ [s] ++ r = chain.segments := by rw [hsegs]; simp
      rw [e] at hL hL2
      exact ⟨L, by rw [had, hL], hL2⟩

end AvoidanceHandler

namespace AvoidanceHandler
open BaxterChain

/-- C22 (amended) at the parent chain `jointX, linkZ, jointZ`: the attempts are
made on sub-chains with 1 and 2 joints. -/
theorem growObstacle_attempts_witness :
    Inv Example.chainJFJ ∧
    Example.chainJFJ.segments = [] ++ Example.jointX :: [Example.linkZ, Example.jointZ] ∧
    (∀ s ∈ ([] : List (Segment ℚ)), s.hasJoint = false) ∧ Example.jointX.hasJoint = true ∧
    ∃ g, growObstacle id Example.chainJFJ ⟨fun _ => Example.linkZ, fun _ => 0, fun _ => 0,
        fun _ => 0⟩ Example.fresh (fun _ => (false, Example.point 0)) = some g ∧
      g.attempts.map BaxterChain.getNrOfJoints = [1, 2] ∧
      ∀ a ∈ g.attempts, ∃ L, a.segments = Example.chainJFJ.segments.take L ∧
        (L = Example.chainJFJ.segments.length ∨
          ∃ s, Example.chainJFJ.segments[L]? = some s ∧ s.hasJoint = true) :=
  ⟨reachable_inv reachable_chainJFJ, rfl, by simp, rfl,
   growObstacle_attempts id Example.chainJFJ ⟨fun _ => Example.linkZ, fun _ => 0, fun _ => 0,
     fun _ => 0⟩ Example.fresh (fun _ => (false, Example.point 0)) [] [Example.linkZ,
     Example.jointZ] Example.jointX (reachable_inv reachable_chainJFJ) rfl (by simp) rfl⟩

theorem inv_chainJJ : Inv (Example.chainJ.addSegment Example.jointZ Example.fresh) :=
  inv_addSegment (inv_addSegment inv_empty _ _) _ _

theorem growObstacle_chainJJ (sqrt : ℚ → ℚ) (past : PastEnd ℚ) (u : Uninit ℚ)
    (o2cp : BaxterChain ℚ → Bool × CollisionPoint ℚ) :
    ∃ g, growObstacle sqrt (Example.chainJ.addSegment Example.jointZ Example.fresh) past u
        o2cp = some g ∧ g.attempts.map BaxterChain.getNrOfJoints = [2] := by
  obtain ⟨g, hg, hall⟩ := growObstacle_spec sqrt
    (Example.chainJ.addSegment Example.jointZ Example.fresh) past u o2cp [] [Example.jointZ]
    Example.jointX inv_chainJJ rfl (by simp) rfl
  refine ⟨g, hg, ?_⟩
  rw [map_joints_of_forall₂ _ _ hall]
  rfl

/-- C22 fails as stated: on the parent chain `jointX, jointZ`, which satisfies
the invariant and has N = 2 joints, the constructor makes one attempt, on the
sub-chain with 2 joints; the sub-chain with one joint is not tried. -/
theorem growObstacle_skips_first_joint :
    ¬ (∀ (sqrt : ℚ → ℚ) (chain : BaxterChain ℚ) (past : PastEnd ℚ) (u : Uninit ℚ)
        (o2cp : BaxterChain ℚ → Bool × CollisionPoint ℚ) (g : Growth ℚ),
        Inv chain → 1 ≤ chain.getNrOfJoints → growObstacle sqrt chain past u o2cp = some g →
        g.attempts.map BaxterChain.getNrOfJoints = List.range' 1 chain.getNrOfJoints) := by
  intro h
  obtain ⟨g, hg, hmap⟩ := growObstacle_chainJJ id
    ⟨fun _ => Example.linkZ, fun _ => 0, fun _ => 0, fun _ => 0⟩ Example.fresh
    (fun _ => (false, Example.point 0))
  have h1 := h id (Example.chainJ.addSegment Example.jointZ Example.fresh) _ _ _ g inv_chainJJ
    (by decide) hg
  rw [hmap] at h1
  exact absurd h1 (by decide)

end AvoidanceHandler

namespace AvoidanceHandler
open BaxterChain
variable {K : Type} [LinearOrderedField K]

theorem recordCandidate_paired (sqrt : K → K) (o2cp : BaxterChain K → Bool × CollisionPoint K)
    (c : BaxterChain K) (u : Uninit K) (attempts : List (BaxterChain K))
    (tmpCP : List (CollisionPoint K)) (tmpCC : List (BaxterChain K))
    (h : List.Forall₂ (fun cp cc => ∃ sub ∈ attempts, o2cp sub = (true, cp) ∧
      cc = sub.addSegment (fixedSegment (toKDLFrame (computeFoR sqrt cp.x_erf cp.n_erf).2)) u)
      tmpCP tmpCC) :
    List.Forall₂ (fun cp cc => ∃ sub ∈ attempts ++ [c], o2cp sub = (true, cp) ∧
      cc = sub.addSegment (fixedSegment (toKDLFrame (computeFoR sqrt cp.x_erf cp.n_erf).2)) u)
      (recordCandidate sqrt (o2cp c) c u tmpCP tmpCC).1
      (recordCandidate sqrt (o2cp c) c u tmpCP tmpCC).2 := by
  have hold : List.Forall₂ (fun cp cc => ∃ sub ∈ attempts ++ [c], o2cp sub = (true, cp) ∧
      cc = sub.addSegment (fixedSegment (toKDLFrame (computeFoR sqrt cp.x_erf cp.n_erf).2)) u)
      tmpCP tmpCC :=
    List.Forall₂.imp (fun cp cc ⟨sub, hs, hr⟩ => ⟨sub, List.mem_append_left _ hs, hr⟩) h
  unfold recordCandidate
  by_cases hc : (o2cp c).1 = true
  · simp only [hc, if_true]
    refine List.rel_append hold (List.Forall₂.cons ⟨c, by simp, ?_, rfl⟩ List.Forall₂.nil)
    exact Prod.ext hc rfl
  · simp only [hc, Bool.false_eq_true, if_false]
    exact hold

theorem growLoop_paired (sqrt : K → K) (chain : BaxterChain K) (past : PastEnd K) (u : Uninit K)
    (o2cp : BaxterChain K → Bool × CollisionPoint K) (fuel : Nat) (g g1 : Growth K)
    (hg : growLoop sqrt chain past u o2cp fuel g = some g1)
    (h : List.Forall₂ (fun cp cc => ∃ sub ∈ g.attempts, o2cp sub = (true, cp) ∧
      cc = sub.addSegment (fixedSegment (toKDLFrame (computeFoR sqrt cp.x_erf cp.n_erf).2)) u)
      g.tmpCP g.tmpCC) :
    List.Forall₂ (fun cp cc => ∃ sub ∈ g1.attempts, o2cp sub = (true, cp) ∧
      cc = sub.addSegment (fixedSegment (toKDLFrame (computeFoR sqrt cp.x_erf cp.n_erf).2)) u)
      g1.tmpCP g1.tmpCC := by
  induction fuel generalizing g with
  | zero => simp [growLoop] at hg
  | succ fuel ih =>
    simp only [growLoop] at hg
    split_ifs at hg with hlt
    · split at hg
      · exact absurd hg (by simp)
      · rename_i st hst
        exact ih _ hg (recordCandidate_paired sqrt o2cp st.1 u g.attempts g.tmpCP g.tmpCC h)
    · simp only [Option.some.injEq] at hg
      subst hg
      exact h

theorem growObstacle_paired (sqrt : K → K) (chain : BaxterChain K) (past : PastEnd K)
    (u : Uninit K) (o2cp : BaxterChain K → Bool × CollisionPoint K) (g : Growth K)
    (hg : growObstacle sqrt chain past u o2cp = some g) :
    List.Forall₂ (fun cp cc => ∃ sub ∈ g.attempts, o2cp sub = (true, cp) ∧
      cc = sub.addSegment (fixedSegment (toKDLFrame (computeFoR sqrt cp.x_erf cp.n_erf).2)) u)
      g.tmpCP g.tmpCC := by
  simp only [growObstacle] at hg
  split at hg
  · exact absurd hg (by simp)
  · exact growLoop_paired sqrt chain past u o2cp _ _ g hg List.Forall₂.nil

theorem registerSelected_cases (tmpCP : List (CollisionPoint K)) (tmpCC : List (BaxterChain K))
    (collPoints : List (CollisionPoint K)) (ctrlChains : List (BaxterChain K))
    (r : List (CollisionPoint K) × List (BaxterChain K))
    (h : registerSelected tmpCP tmpCC collPoints ctrlChains = some r) :
    r = (collPoints, ctrlChains) ∨
    ∃ (k : Nat) (cp : CollisionPoint K) (cc : BaxterChain K), tmpCP[k]? = some cp ∧
      tmpCC[k]? = some cc ∧ cp.mag > 1 / 100 ∧
      r = (collPoints ++ [cp], ctrlChains ++ [cc]) := by
  rcases selectLoop_spec tmpCP 0 (0 : K) (-1) with ⟨heq, -⟩ | ⟨k, cp, hk, heq, hgt, -, -, -⟩
  · left
    simp only [registerSelected, selectedIndex, heq, ne_eq, not_true_eq_false, if_false,
      Option.some.injEq] at h
    exact h.symm
  · right
    have hidx : selectedIndex tmpCP = (k : Int) := by
      simp only [selectedIndex, heq, Nat.zero_add]
    have hne : ((k : Int) ≠ -1) := by omega
    simp only [registerSelected, hidx, hne, if_true, Int.toNat_ofNat, hk, ne_eq,
      not_false_eq_true] at h
    cases hcc : tmpCC[k]? with
    | none => simp [hcc] at h
    | some cc =>
      simp only [hcc, Option.some.injEq] at h
      exact ⟨k, cp, cc, hk, hcc, hgt, h.symm⟩

theorem registerSelected_isSome (tmpCP : List (CollisionPoint K)) (tmpCC : List (BaxterChain K))
    (collPoints : List (CollisionPoint K)) (ctrlChains : List (BaxterChain K))
    (hlen : tmpCP.length = tmpCC.length) :
    ∃ r, registerSelected tmpCP tmpCC collPoints ctrlChains = some r := by
  rcases selectLoop_spec tmpCP 0 (0 : K) (-1) with ⟨heq, -⟩ | ⟨k, cp, hk, heq, -, -, -, -⟩
  · exact ⟨(collPoints, ctrlChains), by simp [registerSelected, selectedIndex, heq]⟩
  · have hidx : selectedIndex tmpCP = (k : Int) := by
      simp only [selectedIndex, heq, Nat.zero_add]
    have hne : ((k : Int) ≠ -1) := by omega
    have hklt : k < tmpCC.length := by
      rw [← hlen]
      exact (List.getElem?_eq_some_iff.1 hk).1
    refine ⟨(collPoints ++ [cp], ctrlChains ++ [tmpCC[k]]), ?_⟩
    simp only [registerSelected, hidx, hne, if_true, Int.toNat_ofNat, hk, ne_eq,
      not_false_eq_true, List.getElem?_eq_getElem hklt]

end AvoidanceHandler

namespace AvoidanceHandler
open BaxterChain
variable {K : Type} [LinearOrderedField K]

omit [LinearOrderedField K] in
theorem exists_first_joint (segs : List (Segment K)) (h : ∃ s ∈ segs, s.hasJoint = true) :
    ∃ pre j0 rest, segs = pre ++ j0 :: rest ∧ (∀ s ∈ pre, s.hasJoint = false) ∧
      j0.hasJoint = true := by
  induction segs with
  | nil => simp at h
  | cons t segs ih =>
    by_cases ht : t.hasJoint = true
    · exact ⟨[], t, segs, rfl, by simp, ht⟩
    · have ht1 : t.hasJoint = false := by simpa using ht
      obtain ⟨s, hs, hj⟩ := h
      rcases List.mem_cons.1 hs with rfl | hs1
      · exact absurd hj ht
      · obtain ⟨pre, j0, rest, h1, h2, h3⟩ := ih ⟨s, hs1, hj⟩
        refine ⟨t :: pre, j0, rest, by rw [h1]; rfl, ?_, h3⟩
        intro x hx
        rcases List.mem_cons.1 hx with rfl | hx1
        · exact ht1
        · exact h2 x hx1

omit [LinearOrderedField K] in
theorem forall₂_getElem {α β : Type} {R : α → β → Prop} {l : List α} {ds : List β}
    (h : List.Forall₂ R l ds) (i : Nat) (a : α) (d : β) (ha : l[i]? = some a)
    (hd : ds[i]? = some d) : R a d := by
  induction h generalizing i with
  | nil => simp at ha
  | cons hab _ ih =>
    cases i with
    | zero =>
      simp only [List.getElem?_cons_zero, Option.some.injEq] at ha hd
      subst ha hd
      exact hab
    | succ i =>
      simp only [List.getElem?_cons_succ] at ha hd
      exact ih i ha hd

theorem obstacleTurn_cases {Ob : Type} (sqrt : K → K) (past : PastEnd K) (u : Uninit K)
    (o2cp : BaxterChain K → Ob → Bool × CollisionPoint K) (h h1 : Handler K) (ob : Ob)
    (hturn : obstacleTurn sqrt past u o2cp h ob = some h1) :
    h1.chain = h.chain ∧
    ((h1.collPoints = h.collPoints ∧ h1.ctrlChains = h.ctrlChains) ∨
     ∃ g sub cp, growObstacle sqrt h.chain past u (fun c => o2cp c ob) = some g ∧
       sub ∈ g.attempts ∧ o2cp sub ob = (true, cp) ∧ cp.mag > 1 / 100 ∧
       h1.collPoints = h.collPoints ++ [cp] ∧
       h1.ctrlChains = h.ctrlChains ++
         [sub.addSegment (fixedSegment (toKDLFrame (computeFoR sqrt cp.x_erf cp.n_erf).2)) u]) := by
  simp only [obstacleTurn] at hturn
  cases hg : growObstacle sqrt h.chain past u (fun c => o2cp c ob) with
  | none => simp [hg] at hturn
  | some g =>
    simp only [hg] at hturn
    cases hr : registerSelected g.tmpCP g.tmpCC h.collPoints h.ctrlChains with
    | none => simp [hr] at hturn
    | some r =>
      simp only [hr, Option.some.injEq] at hturn
      subst hturn
      refine ⟨rfl, ?_⟩
      rcases registerSelected_cases _ _ _ _ r hr with rfl | ⟨k, cp, cc, hk, hkc, hgt, rfl⟩
      · exact Or.inl ⟨rfl, rfl⟩
      · obtain ⟨sub, hsub, ho, hcc⟩ := forall₂_getElem
          (growObstacle_paired sqrt h.chain past u (fun c => o2cp c ob) g hg) k cp cc hk hkc
        exact Or.inr ⟨g, sub, cp, rfl, hsub, ho, hgt, rfl, by rw [hcc]⟩

theorem obstacleLoop_inv {Ob : Type} (sqrt : K → K) (past : PastEnd K) (u : Uninit K)
    (o2cp : BaxterChain K → Ob → Bool × CollisionPoint K) (chain : BaxterChain K)
    (all : List Ob) (n : Nat) (obs : List Ob) (h h1 : Handler K)
    (hloop : obstacleLoop sqrt past u o2cp obs h = some h1) (hchain : h.chain = chain)
    (hobs : ∀ ob ∈ obs, ob ∈ all)
    (hpair : List.Forall₂ (fun cp cc => ∃ ob ∈ all, ∃ g,
      growObstacle sqrt chain past u (fun c => o2cp c ob) = some g ∧
      ∃ sub ∈ g.attempts, o2cp sub ob = (true, cp) ∧
        cc = sub.addSegment (fixedSegment (toKDLFrame (computeFoR sqrt cp.x_erf cp.n_erf).2)) u)
      h.collPoints h.ctrlChains)
    (hmag : ∀ cp ∈ h.collPoints, cp.mag > 1 / 100)
    (hlen : h.collPoints.length + obs.length ≤ n) :
    h1.chain = chain ∧
    List.Forall₂ (fun cp cc => ∃ ob ∈ all, ∃ g,
      growObstacle sqrt chain past u (fun c => o2cp c ob) = some g ∧
      ∃ sub ∈ g.attempts, o2cp sub ob = (true, cp) ∧
        cc = sub.addSegment (fixedSegment (toKDLFrame (computeFoR sqrt cp.x_erf cp.n_erf).2)) u)
      h1.collPoints h1.ctrlChains ∧
    (∀ cp ∈ h1.collPoints, cp.mag > 1 / 100) ∧ h1.collPoints.length ≤ n := by
  induction obs generalizing h with
  | nil =>
    simp only [obstacleLoop, Option.some.injEq] at hloop
    subst hloop
    exact ⟨hchain, hpair, hmag, by simpa using hlen⟩
  | cons ob obs ih =>
    simp only [obstacleLoop] at hloop
    cases hturn : obstacleTurn sqrt past u o2cp h ob with
    | none => simp [hturn] at hloop
    | some h2 =>
      simp only [hturn] at hloop
      obtain ⟨hc2, hcase⟩ := obstacleTurn_cases sqrt past u o2cp h h2 ob hturn
      have hobs2 : ∀ ob ∈ obs, ob ∈ all := fun o ho => hobs o (List.mem_cons_of_mem _ ho)
      simp only [List.length_cons] at hlen
      rcases hcase with ⟨e1, e2⟩ | ⟨g, sub, cp, hg, hsub, ho, hgt, e1, e2⟩
      · exact ih h2 hloop (by rw [hc2, hchain]) hobs2 (by rw [e1, e2]; exact hpair)
          (by rw [e1]; exact hmag) (by rw [e1]; omega)
      · refine ih h2 hloop (by rw [hc2, hchain]) hobs2 ?_ ?_ ?_
        · rw [e1, e2]
          refine List.rel_append hpair (List.Forall₂.cons ?_ List.Forall₂.nil)
          rw [hchain] at hg
          exact ⟨ob, hobs ob (List.mem_cons_self _ _), g, hg, sub, hsub, ho, rfl⟩
        · intro c hc
          rw [e1] at hc
          rcases List.mem_append.1 hc with hc1 | hc1
          · exact hmag c hc1
          · simp only [List.mem_singleton] at hc1
            rw [hc1]; exact hgt
        · rw [e1]
          simp only [List.length_append, List.length_cons, List.length_nil]
          omega

theorem obstacleLoop_isSome {Ob : Type} (sqrt : K → K) (past : PastEnd K) (u : Uninit K)
    (o2cp : BaxterChain K → Ob → Bool × CollisionPoint K) (chain : BaxterChain K)
    (hinv : Inv chain) (hjoint : ∃ s ∈ chain.segments, s.hasJoint = true) (obs : List Ob)
    (h : Handler K) (hchain : h.chain = chain) :
    ∃ h1, obstacleLoop sqrt past u o2cp obs h = some h1 := by
  induction obs generalizing h with
  | nil => exact ⟨h, rfl⟩
  | cons ob obs ih =>
    obtain ⟨pre, j0, rest, hsegs, hpre, hj0⟩ := exists_first_joint chain.segments hjoint
    obtain ⟨g, hg, -⟩ := growObstacle_spec sqrt chain past u (fun c => o2cp c ob) pre rest j0
      hinv hsegs hpre hj0
    have hlen := List.Forall₂.length_eq
      (growObstacle_paired sqrt chain past u (fun c => o2cp c ob) g hg)
    obtain ⟨r, hr⟩ := registerSelected_isSome g.tmpCP g.tmpCC h.collPoints h.ctrlChains hlen
    have hturn : obstacleTurn sqrt past u o2cp h ob =
        some { h with collPoints := r.1, ctrlChains := r.2 } := by
      simp only [obstacleTurn, hchain, hg, hr]
    obtain ⟨h1, hh1⟩ := ih { h with collPoints := r.1, ctrlChains := r.2 } hchain
    exact ⟨h1, by simp only [obstacleLoop, hturn]; exact hh1⟩

/-- C26: when the constructor ends, `collPoints` and `ctrlChains` have the
same length, at most the number of obstacles; every stored collision point
has a magnitude above 0.01; and the control chain at index `i` is the
sub-chain on which `obstacleToCollisionPoint` derived the collision point at
index `i` for some obstacle of the list, with the segment of the frame of
`computeFoR` appended.  The constructor does end on every parent chain that
satisfies the invariant and has a joint. -/
theorem construct_registers_pairs {Ob : Type} (sqrt : K → K) (past : PastEnd K) (u : Uninit K)
    (o2cp : BaxterChain K → Ob → Bool × CollisionPoint K) (_chain : BaxterChain K)
    (_obstacles : List Ob) :
    (∀ h, construct sqrt past u o2cp _chain _obstacles = some h →
      h.collPoints.length = h.ctrlChains.length ∧
      h.collPoints.length ≤ _obstacles.length ∧
      (∀ cp ∈ h.collPoints, cp.mag > 1 / 100) ∧
      ∀ (i : Nat) (cp : CollisionPoint K) (cc : BaxterChain K),
        h.collPoints[i]? = some cp → h.ctrlChains[i]? = some cc →
        ∃ ob ∈ _obstacles, ∃ g,
          growObstacle sqrt _chain past u (fun c => o2cp c ob) = some g ∧
          ∃ sub ∈ g.attempts, o2cp sub ob = (true, cp) ∧
            cc = sub.addSegment
              (fixedSegment (toKDLFrame (computeFoR sqrt cp.x_erf cp.n_erf).2)) u) ∧
    (Inv _chain → (∃ s ∈ _chain.segments, s.hasJoint = true) →
      ∃ h, construct sqrt past u o2cp _chain _obstacles = some h) := by
  refine ⟨fun h hc => ?_, fun hinv hjoint =>
    obstacleLoop_isSome sqrt past u o2cp _chain hinv hjoint _obstacles ⟨_chain, [], []⟩ rfl⟩
  obtain ⟨-, hpair, hmag, hlen⟩ := obstacleLoop_inv sqrt past u o2cp _chain _obstacles
    _obstacles.length _obstacles ⟨_chain, [], []⟩ h hc rfl (fun _ ho => ho) List.Forall₂.nil
    (by simp) (by simp)
  exact ⟨List.Forall₂.length_eq hpair, hlen, hmag,
    fun i cp cc hcp hcc => forall₂_getElem hpair i cp cc hcp hcc⟩

end AvoidanceHandler

namespace AvoidanceHandler
open BaxterChain

/-- C25 fails on the code: on the parent chain `jointX, jointZ`, which
satisfies the invariant and has 2 segments, the growth of the sub-chain for an
obstacle passes the index 2 to `chain.getSegment`: the inner loop reads the
segment before it compares the segment counts.  On the parent chain
`jointX, linkZ`, which has one joint, it passes the index 1 to `getAng`,
`getMin` and `getMax`. -/
theorem growObstacle_reads_past_end (sqrt : ℚ → ℚ) (past : PastEnd ℚ) (u : Uninit ℚ)
    (o2cp : BaxterChain ℚ → Bool × CollisionPoint ℚ) :
    (Inv (Example.chainJ.addSegment Example.jointZ Example.fresh) ∧
      (Example.chainJ.addSegment Example.jointZ Example.fresh).getNrOfSegments = 2 ∧
      ∃ g, growObstacle sqrt (Example.chainJ.addSegment Example.jointZ Example.fresh) past u
          o2cp = some g ∧ Access.getSegment 2 ∈ g.reads) ∧
    (Inv Example.chainJF ∧ Example.chainJF.getNrOfJoints = 1 ∧
      ∃ g, growObstacle sqrt Example.chainJF past u o2cp = some g ∧
        Access.getAng 1 ∈ g.reads ∧ Access.getMin 1 ∈ g.reads ∧ Access.getMax 1 ∈ g.reads) := by
  refine ⟨⟨inv_addSegment (inv_addSegment inv_empty _ _) _ _, rfl, ?_⟩,
    ⟨inv_addSegment (inv_addSegment inv_empty _ _) _ _, rfl, ?_⟩⟩
  · simp [growObstacle, firstJointLoop, growLoop, fixedLoop, readSegment, readAng, readMin,
      readMax, setAngBounds, getAng, getMin, getMax, Example.chainJ, Example.jointX,
      Example.jointZ, Example.transSegment, addSegment, BaxterChain.empty, Example.fresh,
      conservativeResize, getNrOfJoints, getNrOfSegments, Segment.hasJoint, getSegment]
  · simp [growObstacle, firstJointLoop, growLoop, fixedLoop, readSegment, readAng, readMin,
      readMax, setAngBounds, getAng, getMin, getMax, Example.chainJF, Example.chainJ,
      Example.jointX, Example.linkZ, fixedSegment, Example.transSegment, addSegment,
      BaxterChain.empty, Example.fresh, conservativeResize, getNrOfJoints, getNrOfSegments,
      Segment.hasJoint, getSegment]

end AvoidanceHandler

namespace AvoidanceHandler
open BaxterChain

/-- C21 fails on the code: on the parent chain `jointX, linkZ, jointZ` with the
angles `[1, 2]`, which satisfies the invariant, the second sub-chain on which
the constructor attempts a collision point has the 3 segments and the 2
joints of the parent, and its angles are `[1, 7]` when the storage that `q`
grows into holds 7: the vectors handed to `setAng` have one entry more than
the sub-chain has joints, `setAng` fails, and the entry of the second joint
stays as `conservativeResize` left it.  The same holds for the bounds. -/
theorem growObstacle_loses_angles (sqrt : ℚ → ℚ) (past : PastEnd ℚ)
    (o2cp : BaxterChain ℚ → Bool × CollisionPoint ℚ) :
    Inv (Example.chainJFJ.setAng [1, 2]).2 ∧
    (Example.chainJFJ.setAng [1, 2]).2.q = [1, 2] ∧
    (Example.chainJFJ.setAng [1, 2]).2.lb = [0, 0] ∧
    (Example.chainJFJ.setAng [1, 2]).2.ub = [0, 0] ∧
    ∃ g, growObstacle sqrt (Example.chainJFJ.setAng [1, 2]).2 past ⟨7, 7, 7⟩ o2cp = some g ∧
      g.attempts.map BaxterChain.getNrOfSegments = [2, 3] ∧
      g.attempts.map BaxterChain.getNrOfJoints = [1, 2] ∧
      g.attempts.map BaxterChain.q = [[1], [1, 7]] ∧
      g.attempts.map BaxterChain.lb = [[0], [0, 7]] ∧
      g.attempts.map BaxterChain.ub = [[0], [0, 7]] ∧
      g.q_j = [1, 2, 2] := by
  have hinv := reachable_inv reachable_chainJFJ
  refine ⟨⟨hinv.joints, hinv.segs, rfl, hinv.lb_len, hinv.ub_len⟩, rfl, rfl, rfl, ?_⟩
  simp [growObstacle, firstJointLoop, growLoop, fixedLoop, readSegment, readAng, readMin,
    readMax, setAngBounds, setAng, getAng, getMin, getMax, Example.chainJFJ, Example.chainJF,
    Example.chainJ, Example.jointX, Example.jointZ, Example.linkZ, fixedSegment,
    Example.transSegment, addSegment, BaxterChain.empty, Example.fresh, conservativeResize,
    getNrOfJoints, getNrOfSegments, Segment.hasJoint, getSegment]

end AvoidanceHandler
